import Mathlib

/-!
# Metering ledger (`backend-node/src/services/x402Metering.js`)

Shallow embedding of `X402MeteringService`.

Modelling conventions:
* JavaScript numbers holding unit amounts and timestamps are integers (`Int`)
  that are binary64 values. The comparison `<` is exact on them; the result of
  the subtraction `-` is rounded to the nearest binary64 value, ties to even
  (`roundToDouble`), so it is the exact difference whenever that difference has
  magnitude at most `2 ^ 53`. Magnitudes of `2 ^ 1024` and above, where
  JavaScript yields `Infinity`, are outside the model.
* `this.payments` (a JavaScript `Map` keyed by strings) is an insertion-ordered
  association list with the `get` / `set` behaviour of `Map`.
* A method that may `throw new Error(msg)` returns `Except String _` (the
  message) together with the service state after the call.
* `Date.now()`, `randomBytes(32)` and the outcome of the awaited facilitator
  probe are explicit arguments.
-/

namespace X402Metering

/-- Caller supplied metadata object, never inspected by the service. -/
abbrev Metadata := List (String × String)

/-- The stored value `{ remaining, createdAt, lastConsumption, metadata }`. -/
structure PaymentRecord where
  remaining : Int
  createdAt : Int
  lastConsumption : Option Int
  metadata : Metadata
deriving DecidableEq, Repr

/-- JavaScript `Map` from string keys to payment records. -/
abbrev PaymentMap := List (String × PaymentRecord)

/-- Lookup `Map.prototype.get`: the value stored under `k`, if any. -/
def mapGet : PaymentMap → String → Option PaymentRecord
  | [], _ => none
  | (k', v) :: rest, k => if k' = k then some v else mapGet rest k

/-- Update `Map.prototype.set`: replace the value of an existing key in place,
otherwise append a new entry. -/
def mapSet : PaymentMap → String → PaymentRecord → PaymentMap
  | [], k, v => [(k, v)]
  | (k', v') :: rest, k, v =>
    if k' = k then (k, v) :: rest else (k', v') :: mapSet rest k v

/-- Fields of the service object set up by the constructor. -/
structure X402MeteringService where
  payments : PaymentMap
  unitsPerSwap : Int
deriving DecidableEq, Repr

/-- The `constructor()`: empty map, one unit per swap. -/
def X402MeteringService.new : X402MeteringService :=
  { payments := [], unitsPerSwap := 1 }

/-- Value `{ paymentId, remaining }` returned by `authorize` and `consume`. -/
structure Receipt where
  paymentId : String
  remaining : Int
deriving DecidableEq, Repr

/-- Value `{ paymentId, remaining, createdAt, lastConsumption }` returned by
`status`. -/
structure StatusView where
  paymentId : String
  remaining : Int
  createdAt : Int
  lastConsumption : Option Int
deriving DecidableEq, Repr

/-- The sixteen digits used by `Buffer.toString('hex')`. -/
def hexChars : List Char :=
  ['0', '1', '2', '3', '4', '5', '6', '7', '8', '9', 'a', 'b', 'c', 'd', 'e', 'f']

/-- Digit for a nibble. -/
def hexDigit (n : Nat) : Char := hexChars.getD n '0'

/-- Two digits for one byte, high nibble first. -/
def hexByte (b : Fin 256) : List Char := [hexDigit (b.val / 16), hexDigit (b.val % 16)]

/-- Hex encoding `buf.toString('hex')` of a byte buffer, as a list of characters. -/
def toHex : List (Fin 256) → List Char
  | [] => []
  | b :: rest => hexByte b ++ toHex rest

/-- Method `_generatePaymentId()`, with the bytes drawn by `randomBytes(32)` passed in. -/
def _generatePaymentId (randomBytes : List (Fin 256)) : String :=
  "0x" ++ String.mk (toHex randomBytes)

/-- The block `try { await fetchWithX402Payment(...) } catch (_) { }`: the awaited
probe either resolves or rejects; a rejection is caught and dropped. -/
def probeFacilitator (probe : Except String Unit) : Except String Unit :=
  tryCatch probe (fun _ => pure ())

/-- Method `authorize({ maxUnits = 5, metadata = {} } = {})`: after the probe, draw an
identifier, store the new record under it and return the receipt. -/
def authorize (s : X402MeteringService) (maxUnits : Option Int) (metadata : Option Metadata)
    (probe : Except String Unit) (randomBytes : List (Fin 256)) (now : Int) :
    Except String Receipt × X402MeteringService :=
  let maxUnits := maxUnits.getD 5
  let metadata := metadata.getD []
  match probeFacilitator probe with
  | .error e => (.error e, s)
  | .ok _ =>
    let paymentId := _generatePaymentId randomBytes
    let entry : PaymentRecord :=
      { remaining := maxUnits, createdAt := now, lastConsumption := none, metadata := metadata }
    let s1 := { s with payments := mapSet s.payments paymentId entry }
    (.ok { paymentId := paymentId, remaining := maxUnits }, s1)

/-- Method `status(paymentId)`: `null` for an unknown id, otherwise a view of the
record. -/
def status (s : X402MeteringService) (paymentId : String) :
    Option StatusView × X402MeteringService :=
  match mapGet s.payments paymentId with
  | none => (none, s)
  | some rec =>
    (some { paymentId := paymentId, remaining := rec.remaining, createdAt := rec.createdAt,
            lastConsumption := rec.lastConsumption }, s)

/-- Spacing of the binary64 values around a magnitude `m > 2 ^ 53`: the least power
of two `u` (searched upwards from `u`, at most `fuel` doublings) with
`m < 2 ^ 53 * u`. -/
def ulpSearch : Nat → Nat → Nat → Nat
  | 0, _, u => u
  | fuel + 1, m, u => if m < 2 ^ 53 * u then u else ulpSearch fuel m (2 * u)

/-- The binary64 value nearest to an integer, ties to the even significand: an
integer of magnitude at most `2 ^ 53` is itself; a larger one is rounded to a
multiple of the spacing of the 53-bit significands at its magnitude. -/
def roundToDouble (x : Int) : Int :=
  let m := x.natAbs
  if m ≤ 2 ^ 53 then x
  else
    let ulp := ulpSearch m m 1
    let q := m / ulp
    let r := m % ulp
    let rounded :=
      if 2 * r < ulp then q * ulp
      else if ulp < 2 * r then (q + 1) * ulp
      else if q % 2 = 0 then q * ulp
      else (q + 1) * ulp
    if x < 0 then -(rounded : Int) else (rounded : Int)

/-- JavaScript `a - b` on two numbers holding integers. -/
def numberSub (a b : Int) : Int := roundToDouble (a - b)

/-- Method `consume(paymentId, units = this.unitsPerSwap)`: throws on an unknown id
or an insufficient balance, otherwise decrements the record (`rec.remaining -= units`,
in double arithmetic) and stamps it. -/
def consume (s : X402MeteringService) (paymentId : String) (units : Option Int) (now : Int) :
    Except String Receipt × X402MeteringService :=
  let units := units.getD s.unitsPerSwap
  match mapGet s.payments paymentId with
  | none => (.error "paymentId unknown", s)
  | some rec =>
    if rec.remaining < units then (.error "insufficient balance", s)
    else
      let rec1 := { rec with remaining := numberSub rec.remaining units }
      let rec2 := { rec1 with lastConsumption := some now }
      let s1 := { s with payments := mapSet s.payments paymentId rec2 }
      (.ok { paymentId := paymentId, remaining := rec2.remaining }, s1)

/-- A caller issuing `consume(paymentId, units)` once per element of `calls`
(each element is the units requested and the clock reading of that call),
collecting every outcome. -/
def consumeSeq (s : X402MeteringService) (paymentId : String) :
    List (Int × Int) → List (Except String Receipt) × X402MeteringService
  | [] => ([], s)
  | (units, now) :: rest =>
    let r := consume s paymentId (some units) now
    let rs := consumeSeq r.2 paymentId rest
    (r.1 :: rs.1, rs.2)

/-- One call made on the service by a client. -/
inductive Call where
  | authorize (maxUnits : Option Int) (metadata : Option Metadata)
      (probe : Except String Unit) (randomBytes : List (Fin 256)) (now : Int)
  | status (paymentId : String)
  | consume (paymentId : String) (units : Option Int) (now : Int)

/-- State of the service after one call (whether it returned or threw). -/
def Call.step (s : X402MeteringService) : Call → X402MeteringService
  | .authorize maxUnits metadata probe randomBytes now =>
    (X402Metering.authorize s maxUnits metadata probe randomBytes now).2
  | .status paymentId => (X402Metering.status s paymentId).2
  | .consume paymentId units now => (X402Metering.consume s paymentId units now).2

/-- State of the service after a sequence of calls, starting from `s`. -/
def runCalls (s : X402MeteringService) : List Call → X402MeteringService
  | [] => s
  | c :: rest => runCalls (c.step s) rest

/-- An `authorize` call grants a positive amount (an omitted `maxUnits` grants 5);
every other call qualifies. -/
def Call.grantsPositive : Call → Bool
  | .authorize (some m) _ _ _ _ => decide (0 < m)
  | _ => true

/-- A service holding two records, used to evaluate the operations on concrete
inputs. -/
def sampleService : X402MeteringService :=
  { payments :=
      [("0xaa", { remaining := 2, createdAt := 100, lastConsumption := none, metadata := [] }),
       ("0xbb", { remaining := 7, createdAt := 150, lastConsumption := some 160,
                  metadata := [("plan", "demo")] })],
    unitsPerSwap := 1 }

/-- The identifier drawn when `randomBytes(32)` returns 32 bytes `0xcc`. -/
def largeId : String := _generatePaymentId (List.replicate 32 204)

/-- A new service after `authorize({ maxUnits: 2 ** 53 + 2 })` at time 100, the
identifier being `largeId`: its one record has a balance above the integers
that binary64 represents contiguously. -/
def largeService : X402MeteringService :=
  (authorize X402MeteringService.new (some (2 ^ 53 + 2)) none (.ok ())
    (List.replicate 32 204) 100).2

/-- Value of a hexadecimal digit (its position among `0123456789abcdef`). -/
def hexValue (c : Char) : Nat := hexChars.indexOf c

/-- Reading a hexadecimal string back, two digits per byte, high nibble first. -/
def decodeHex : List Char → List Nat
  | c1 :: c2 :: rest => (16 * hexValue c1 + hexValue c2) :: decodeHex rest
  | _ => []

/-- A call sequence mixing a grant, successful and failing consumes (one with a
negative amount, one on an unknown id) and a status read. -/
def sampleCalls : List Call :=
  [Call.authorize (some 2) none (.ok ()) (List.replicate 32 7) 1000,
   Call.consume (_generatePaymentId (List.replicate 32 7)) (some (-3)) 1001,
   Call.consume (_generatePaymentId (List.replicate 32 7)) (some 4) 1002,
   Call.status (_generatePaymentId (List.replicate 32 7)),
   Call.consume (_generatePaymentId (List.replicate 32 7)) (some 9) 1003,
   Call.consume "0x00" none 1004]

end X402Metering

/-!
# Price feed poller (`backend-node/src/services/pricefeed.js`)

Shallow embedding of `PriceFeedService`.

Modelling conventions:
* `this.prices` and `ASSETS` (JavaScript objects with string keys) are
  insertion-ordered association lists.
* The batch response is decoded JSON. `data.parsed` is missing (or falsy), an
  array of entries, or some other truthy value, which has no `find` method. An
  entry is read as `{ id, price: { price, expo, conf, confidence, publish_time } }`
  in which every field may be missing (`none` stands for `undefined` / `null`);
  `id` is missing, a string, or some other value, which has no `toLowerCase`
  method. The values of the `price` object are read as the feed's schema types
  them (reading them never throws): `publish_time` is an integer number of
  seconds when present.
* The IEEE-754 operations used by `_parseOne` (`Number`, `Math.pow(10, _)`, `*`,
  `toFixed(6)`) are not interpreted: they are the fields of a `NumberOps` record
  the model is parametrised by.
* The outcome of the awaited `fetch`, the clock readings and the timer handle
  returned by `setTimeout` are explicit arguments; `console` output is dropped.
-/

namespace PriceFeed

/-- JavaScript object with string keys, in insertion order. -/
abbrev Table (α : Type) := List (String × α)

/-- Property read `obj[k]`. -/
def tableGet {α : Type} : Table α → String → Option α
  | [], _ => none
  | (k', v) :: rest, k => if k' = k then some v else tableGet rest k

/-- Property write `obj[k] = v`: an existing key keeps its position, a new key
is appended. -/
def tableSet {α : Type} : Table α → String → α → Table α
  | [], k, v => [(k, v)]
  | (k', v') :: rest, k, v =>
    if k' = k then (k, v) :: rest else (k', v') :: tableSet rest k v

/-- The keys `Object.keys(obj)`. -/
def tableKeys {α : Type} (t : Table α) : List String := t.map Prod.fst

/-- Static description `{ id, symbol }` of one tracked asset. -/
structure AssetMeta where
  id : String
  symbol : String
deriving DecidableEq, Repr

/-- The constant `ASSETS` (pyth feed ids). -/
def ASSETS : Table AssetMeta :=
  [("usd-coin",
      { id := "eaa020c61cc479712813461ce153894a96a6c00b21ed0cfc2798d1f9a9e9c94a",
        symbol := "USDC" }),
   ("tether",
      { id := "2b89b9dc8fdf9f34709a5b106b472f0f39bb6ca9ce04b0fd7f2e971688e2e53b",
        symbol := "USDT" }),
   ("dai",
      { id := "b0948a5e5313200c632b51bb5ca32f6de0d36e9950a942d19751e833f70dabfd",
        symbol := "DAI" }),
   ("pyusd",
      { id := "6ec879b1e9963de5ee97e9c8710b742d6228252a5e2ca12d4ae81d7fe5ee8c5d",
        symbol := "PYUSD" })]

/-- The JavaScript number operations `_parseOne` relies on, over values `V` as
delivered in the response and numbers `F`. -/
structure NumberOps (V F : Type) where
  /-- Conversion `Number(x)`; `none` is `undefined`. -/
  number : Option V → F
  /-- The number `Number(0)`. -/
  zero : F
  /-- Power `Math.pow(10, e)`. -/
  pow10 : F → F
  /-- Product `a * b`. -/
  mul : F → F → F
  /-- Rounding `Number(x.toFixed(6))`. -/
  toFixed6 : F → F

/-- The object `entry.price` of a response entry. -/
structure PriceInfo (V : Type) where
  price : Option V
  expo : Option V
  conf : Option V
  confidence : Option V
  publish_time : Option Int
deriving DecidableEq, Repr

/-- The value of `p?.id` for an element `p` of the response: missing (`undefined`
or `null`, also when `p` itself is), a string, or any other value (a number, a
boolean, an object, an array), which has no `toLowerCase` method. -/
inductive IdField where
  | missing
  | text (value : String)
  | other
deriving DecidableEq, Repr

/-- One element of the `parsed` array of the batch response. -/
structure FeedEntry (V : Type) where
  id : IdField
  price : Option (PriceInfo V)
deriving DecidableEq, Repr

/-- The value of `data.parsed || []`: an array of entries, or a truthy value that
is not an array (an object, a string, a number, `true`), which has no `find`
method. -/
inductive Parsed (V : Type) where
  | array (entries : List (FeedEntry V))
  | other
deriving DecidableEq, Repr

/-- Value returned by `_parseOne`. -/
structure ParsedEntry (F : Type) where
  rawPrice : F
  expo : F
  price : F
  confidence : F
  timestamp : Int
deriving DecidableEq, Repr

/-- Value stored in `this.prices[key]`:
`{ symbol, feed_id, ...parsedEntry, stale }`. -/
structure PriceEntry (F : Type) where
  symbol : String
  feed_id : String
  rawPrice : F
  expo : F
  price : F
  confidence : F
  timestamp : Int
  stale : Bool
deriving DecidableEq, Repr

/-- Fields of the service object. -/
structure PriceFeedService (F : Type) where
  url : String
  interval : Int
  prices : Table (PriceEntry F)
  lastUpdate : Option String
  timer : Option Nat
  running : Bool
deriving DecidableEq, Repr

/-- The `constructor({ intervalSeconds = 30 } = {})`. -/
def PriceFeedService.new (F : Type) (intervalSeconds : Option Int) : PriceFeedService F :=
  { url := "https://hermes.pyth.network/v2/updates/price/latest",
    interval := intervalSeconds.getD 30 * 1000,
    prices := [],
    lastUpdate := none,
    timer := none,
    running := false }

/-- Method `_parseOne(entry)`; `now` is the reading of `Date.now()`. Reading a
property of a missing `entry.price` throws. Integer division by 1000 rounds
down, as `Math.floor(Date.now() / 1000)` does. -/
def _parseOne {V F : Type} (ops : NumberOps V F) (entry : FeedEntry V) (now : Int) :
    Except String (ParsedEntry F) :=
  match entry.price with
  | none => .error "Cannot read properties of undefined"
  | some priceInfo =>
    let price := ops.number priceInfo.price
    let expo := ops.number priceInfo.expo
    let scale := ops.pow10 expo
    let actual := ops.mul price scale
    let confRaw :=
      match priceInfo.conf with
      | some c => ops.number (some c)
      | none =>
        match priceInfo.confidence with
        | some c => ops.number (some c)
        | none => ops.zero
    let conf := ops.mul confRaw scale
    .ok { rawPrice := price,
          expo := expo,
          price := ops.toFixed6 actual,
          confidence := ops.toFixed6 conf,
          timestamp :=
            match priceInfo.publish_time with
            | some t => if t ≠ 0 then t else now / 1000
            | none => now / 1000 }

/-- Settled state of the awaited `fetch(url, { signal })` together with the
awaited `res.json()`: the request rejects (network error, or abort by the
timeout), or a response arrives with `res.ok`, `res.status` and a body that
either fails to decode or decodes to `data`, whose `data.parsed` is missing or
falsy (`none`) or a truthy value. -/
inductive FetchResult (V : Type) where
  | rejected (message : String)
  | response (ok : Bool) (status : Nat) (body : Except String (Option (Parsed V)))

/-- Method `fetchBatch(feedIds)`; it returns `data.parsed || []`. -/
def fetchBatch {V : Type} (_feedIds : List String) (net : FetchResult V) :
    Except String (Parsed V) :=
  match net with
  | .rejected message => .error message
  | .response ok status body =>
    if !ok then .error ("HTTP " ++ toString status)
    else
      match body with
      | .error e => .error e
      | .ok data => .ok (data.getD (.array []))

/-- String method `toLowerCase()`, on the ASCII letters feed ids are made of. -/
def toLowerCase (s : String) : String := String.mk (s.data.map Char.toLower)

/-- The callback `p => p?.id?.toLowerCase() === meta.id.toLowerCase()`: a missing
id compares unequal, a string id is compared in lower case, and any other id
makes the call of `toLowerCase` throw a `TypeError`. -/
def matchesId {V : Type} (p : FeedEntry V) (metaId : String) : Except String Bool :=
  match p.id with
  | .missing => .ok false
  | .text i => .ok (decide (toLowerCase i = toLowerCase metaId))
  | .other => .error "p?.id?.toLowerCase is not a function"

/-- Array method `find` with that callback: the first element on which the
callback returns `true`; a throw of the callback ends the search with that
error. -/
def findEntry {V : Type} : List (FeedEntry V) → String → Except String (Option (FeedEntry V))
  | [], _ => .ok none
  | p :: rest, metaId =>
    match matchesId p metaId with
    | .error e => .error e
    | .ok true => .ok (some p)
    | .ok false => findEntry rest metaId

/-- The search `parsed.find(p => p?.id?.toLowerCase() === meta.id.toLowerCase())`;
on a value that is not an array the call of `find` throws a `TypeError`. -/
def findCandidate {V : Type} (parsed : Parsed V) (metaId : String) :
    Except String (Option (FeedEntry V)) :=
  match parsed with
  | .other => .error "parsed.find is not a function"
  | .array entries => findEntry entries metaId

/-- The `for (const [key, meta] of entries)` loop of `updateAll`, acting on the
copy `updated`; `clock key` is the reading of `Date.now()` while the entry of
asset `key` is parsed. The search stands outside the `try` block, so an error
thrown by it leaves the loop; an error thrown by `_parseOne` is caught. -/
def mergeAssets {V F : Type} (ops : NumberOps V F) (parsed : Parsed V)
    (clock : String → Int) :
    Table AssetMeta → Table (PriceEntry F) → Except String (Table (PriceEntry F))
  | [], updated => .ok updated
  | (key, assetMeta) :: rest, updated =>
    match findCandidate parsed assetMeta.id with
    | .error e => .error e
    | .ok none => mergeAssets ops parsed clock rest updated
    | .ok (some candidate) =>
      match _parseOne ops candidate (clock key) with
      | .ok parsedEntry =>
        mergeAssets ops parsed clock rest
          (tableSet updated key
            { symbol := assetMeta.symbol,
              feed_id := assetMeta.id,
              rawPrice := parsedEntry.rawPrice,
              expo := parsedEntry.expo,
              price := parsedEntry.price,
              confidence := parsedEntry.confidence,
              timestamp := parsedEntry.timestamp,
              stale := false })
      | .error _ => mergeAssets ops parsed clock rest updated

/-- Method `updateAll()`; `nowIso` is `new Date().toISOString()`. The result is
the completion of the returned promise (it rejects when the merge loop throws,
before `this.prices` is assigned) and the service state afterwards. -/
def updateAll {V F : Type} (ops : NumberOps V F) (s : PriceFeedService F)
    (net : FetchResult V) (nowIso : String) (clock : String → Int) :
    Except String Unit × PriceFeedService F :=
  let entries := ASSETS
  let ids := entries.map (fun e => e.2.id)
  match fetchBatch ids net with
  | .error _ => (.ok (), s)
  | .ok parsed =>
    match mergeAssets ops parsed clock entries s.prices with
    | .error e => (.error e, s)
    | .ok updated =>
      let updatedKeys := tableKeys updated
      if updatedKeys.length = 0 then (.ok (), s)
      else (.ok (), { s with prices := updated, lastUpdate := some nowIso })

/-- Body of the `forEach` callback of the staleness sweep, for key `k`. -/
def sweepKey {F : Type} (cutoff : Int) (prices : Table (PriceEntry F)) (k : String) :
    Table (PriceEntry F) :=
  match tableGet prices k with
  | none => prices
  | some e =>
    let ts := if e.timestamp ≠ 0 then e.timestamp * 1000 else 0
    if ts ≠ 0 ∧ ts < cutoff then tableSet prices k { e with stale := true } else prices

/-- The staleness sweep of the poll loop (`Date.now()` reads `now`). -/
def staleSweep {F : Type} (s : PriceFeedService F) (now : Int) : PriceFeedService F :=
  let cutoff := now - 2 * s.interval
  { s with prices := (tableKeys s.prices).foldl (sweepKey cutoff) s.prices }

/-- One run of the `loop` closure of `start()` with no other event in between:
the guard, the awaited `updateAll()` inside `try`/`catch` (a rejection is
dropped), the sweep and the rescheduling (`timerId` is the handle returned by
`setTimeout`). -/
def loopIteration {V F : Type} (ops : NumberOps V F) (s : PriceFeedService F)
    (net : FetchResult V) (nowIso : String) (clock : String → Int) (now : Int)
    (timerId : Nat) : PriceFeedService F :=
  if !s.running then s
  else
    let s1 := (updateAll ops s net nowIso clock).2
    let s2 := staleSweep s1 now
    { s2 with timer := some timerId }

/-- One event acting on the price table: a call of `updateAll()` (with the
outcome of its fetch and its clock readings) or a staleness sweep. -/
inductive PriceCall (V : Type) where
  | updateAll (net : FetchResult V) (nowIso : String) (clock : String → Int)
  | sweep (now : Int)

/-- State of the service after one event. -/
def PriceCall.step {V F : Type} (ops : NumberOps V F) (s : PriceFeedService F) :
    PriceCall V → PriceFeedService F
  | .updateAll net nowIso clock => (PriceFeed.updateAll ops s net nowIso clock).2
  | .sweep now => staleSweep s now

/-- State of the service after a sequence of events, starting from `s`. -/
def runPriceCalls {V F : Type} (ops : NumberOps V F) (s : PriceFeedService F) :
    List (PriceCall V) → PriceFeedService F
  | [] => s
  | c :: rest => runPriceCalls ops (c.step ops s) rest

/-- The entry `{ symbol, feed_id, ...parsedEntry, stale: false }` built for an
asset from its parsed response entry. -/
def freshEntry {F : Type} (assetMeta : AssetMeta) (parsedEntry : ParsedEntry F) : PriceEntry F :=
  { symbol := assetMeta.symbol,
    feed_id := assetMeta.id,
    rawPrice := parsedEntry.rawPrice,
    expo := parsedEntry.expo,
    price := parsedEntry.price,
    confidence := parsedEntry.confidence,
    timestamp := parsedEntry.timestamp,
    stale := false }

/-- The entry one pass of the merge loop writes for an asset, if it writes one:
the search has to find a response entry, and that entry has to parse. -/
def assetUpdate {V F : Type} (ops : NumberOps V F) (parsed : Parsed V)
    (clock : String → Int) (key : String) (assetMeta : AssetMeta) : Option (PriceEntry F) :=
  match findCandidate parsed assetMeta.id with
  | .ok (some candidate) =>
    match _parseOne ops candidate (clock key) with
    | .ok parsedEntry => some (freshEntry assetMeta parsedEntry)
    | .error _ => none
  | _ => none

/-- The response entry matched to a feed id, in the sense of the claims about
`updateAll`: the first entry whose id is a string equal to the feed id, both in
lower case. -/
def firstMatch {V : Type} : List (FeedEntry V) → String → Option (FeedEntry V)
  | [], _ => none
  | p :: rest, metaId =>
    match p.id with
    | .text i => if toLowerCase i = toLowerCase metaId then some p else firstMatch rest metaId
    | _ => firstMatch rest metaId

/-- Whether the search of the merge loop completes for every configured asset:
none of the four searches calls a method its operand lacks. -/
def searchCompletes {V : Type} (parsed : Parsed V) : Bool :=
  ASSETS.all (fun a =>
    match findCandidate parsed a.2.id with
    | .ok _ => true
    | .error _ => false)

/-- Whether the clock readings of an event lie past the first second of the
epoch (`Date.now() >= 1000`). -/
def PriceCall.clockPastEpoch {V : Type} : PriceCall V → Prop
  | .updateAll _ _ clock => ∀ key, 1000 ≤ clock key
  | .sweep _ => True

/-- Effect of the sweep on one entry: flagged when its timestamp is non-zero and
earlier than the cutoff, otherwise left as it is. -/
def markStale {F : Type} (cutoff : Int) (e : PriceEntry F) : PriceEntry F :=
  if e.timestamp ≠ 0 ∧ e.timestamp * 1000 < cutoff then { e with stale := true } else e

/-- Uninterpreted number operations: each one builds the text of the JavaScript
expression it stands for. Used to evaluate the model on concrete inputs. -/
def symbolicOps : NumberOps String String :=
  { number := fun v =>
      match v with
      | some x => "Number(" ++ x ++ ")"
      | none => "NaN",
    zero := "0",
    pow10 := fun e => "Math.pow(10, " ++ e ++ ")",
    mul := fun a b => a ++ " * " ++ b,
    toFixed6 := fun x => "Number((" ++ x ++ ").toFixed(6))" }

/-- Response entry for the USDC feed, its id in upper case. -/
def usdcQuote : FeedEntry String :=
  { id := .text "EAA020C61CC479712813461CE153894A96A6C00B21ED0CFC2798D1F9A9E9C94A",
    price := some { price := some "99995000", expo := some "-8", conf := some "12000",
                    confidence := none, publish_time := some 1700000000 } }

/-- Response entry for the DAI feed without its `price` object. -/
def daiBroken : FeedEntry String :=
  { id := .text "b0948a5e5313200c632b51bb5ca32f6de0d36e9950a942d19751e833f70dabfd",
    price := none }

/-- Response entry for the PYUSD feed, published at second 0 and without a
confidence value. -/
def pyusdQuote : FeedEntry String :=
  { id := .text "6ec879b1e9963de5ee97e9c8710b742d6228252a5e2ca12d4ae81d7fe5ee8c5d",
    price := some { price := some "100010000", expo := some "-8", conf := none,
                    confidence := none, publish_time := some 0 } }

/-- A batch response: the USDC entry, the broken DAI entry, the PYUSD entry and
an entry of a feed that is not configured. -/
def sampleBatch : List (FeedEntry String) :=
  [usdcQuote, daiBroken, pyusdQuote,
   { id := .text "ff61491a931112ddf1bd8147cd1b641375f79f5825126d665480874634fd0ace",
     price := none }]

/-- The fetch outcome delivering `sampleBatch`. -/
def sampleNet : FetchResult String := .response true 200 (.ok (some (.array sampleBatch)))

/-- Response entry `{ id: 123 }`: its id is a number. -/
def numericIdEntry : FeedEntry String := { id := .other, price := none }

/-- A batch response with the entry `{ id: 123 }` ahead of the USDC entry. -/
def numericIdBatch : List (FeedEntry String) := [numericIdEntry, usdcQuote]

/-- A batch response with the broken DAI entry, the entry `{ id: 123 }` and the
USDC entry. -/
def brokenAndNumericBatch : List (FeedEntry String) := [daiBroken, numericIdEntry, usdcQuote]

/-- The fetch outcome delivering a given array of entries. -/
def netOf (entries : List (FeedEntry String)) : FetchResult String :=
  .response true 200 (.ok (some (.array entries)))

/-- A clock reading 1700000050000 ms at every parse. -/
def sampleClock : String → Int := fun _ => 1700000050000

/-- One manual refresh whose fetch delivers `sampleBatch`. -/
def sampleRefresh : List (PriceCall String) :=
  [.updateAll sampleNet "2023-11-14T22:14:10.000Z" sampleClock]

/-- A freshly constructed service (15 s interval) whose `start()` has set
`running`. -/
def startedFeed : PriceFeedService String :=
  { PriceFeedService.new String (some 15) with running := true }

/-- A running service (15 s interval) holding a recent USDT entry, an old DAI
entry and a PYUSD entry whose timestamp is 0. -/
def sampleFeed : PriceFeedService String :=
  { url := "https://hermes.pyth.network/v2/updates/price/latest",
    interval := 15000,
    prices :=
      [("tether", { symbol := "USDT", feed_id := "2b89", rawPrice := "100000000",
                    expo := "-8", price := "1", confidence := "0.0001",
                    timestamp := 1700000040, stale := false }),
       ("dai", { symbol := "DAI", feed_id := "b094", rawPrice := "99990000",
                 expo := "-8", price := "0.9999", confidence := "0.0002",
                 timestamp := 1699990000, stale := false }),
       ("pyusd", { symbol := "PYUSD", feed_id := "6ec8", rawPrice := "100010000",
                   expo := "-8", price := "1.0001", confidence := "0",
                   timestamp := 0, stale := false })],
    lastUpdate := some "2023-11-14T22:14:00.000Z",
    timer := some 7,
    running := true }

/-! ### The poll loop as a system of events

`start()` launches the closure `loop`, which suspends at `await this.updateAll()`
and is resumed when that promise settles; `setTimeout(loop, interval)` leaves a
pending timer that later fires `loop` again. The state below adds to the service
object what the event loop holds: the number of `loop` invocations suspended at
their `await`, the handles of the pending timers, a supply of fresh handles, and
a count of the `updateAll()` calls begun by `loop`. -/

/-- The service together with the suspended invocations of `loop` and the
pending timers. -/
structure PollSystem (F : Type) where
  service : PriceFeedService F
  inFlight : Nat
  pendingTimers : List Nat
  nextHandle : Nat
  refreshesBegun : Nat
deriving DecidableEq, Repr

/-- A freshly constructed service with nothing scheduled. -/
def PollSystem.init (F : Type) (intervalSeconds : Option Int) : PollSystem F :=
  { service := PriceFeedService.new F intervalSeconds,
    inFlight := 0,
    pendingTimers := [],
    nextHandle := 1,
    refreshesBegun := 0 }

/-- The synchronous head of `loop`: the guard `if (!this.running) return;`, then
the call of `updateAll()`, which suspends at its fetch. -/
def loopHead {F : Type} (p : PollSystem F) : PollSystem F :=
  if !p.service.running then p
  else { p with inFlight := p.inFlight + 1, refreshesBegun := p.refreshesBegun + 1 }

/-- The rest of `loop`, run when the awaited `updateAll()` settles: the merge done
by `updateAll` after its fetch, the staleness sweep, and
`this.timer = setTimeout(loop, this.interval)`. -/
def loopResume {V F : Type} (ops : NumberOps V F) (p : PollSystem F) (net : FetchResult V)
    (nowIso : String) (clock : String → Int) (now : Int) : PollSystem F :=
  let s1 := (updateAll ops p.service net nowIso clock).2
  let s2 := staleSweep s1 now
  { p with
    service := { s2 with timer := some p.nextHandle },
    inFlight := p.inFlight - 1,
    pendingTimers := p.nextHandle :: p.pendingTimers,
    nextHandle := p.nextHandle + 1 }

/-- Method `start()`. -/
def start {F : Type} (p : PollSystem F) : PollSystem F :=
  if p.service.running then p
  else loopHead { p with service := { p.service with running := true } }

/-- Method `stop()`: `clearTimeout(this.timer)` removes that handle from the
pending timers (and does nothing for a handle that already fired). -/
def stop {F : Type} (p : PollSystem F) : PollSystem F :=
  let s := { p.service with running := false }
  match p.service.timer with
  | some h => { p with service := s, pendingTimers := p.pendingTimers.erase h }
  | none => { p with service := s }

/-- What can happen to the poll system: a call of `start()` or `stop()`, a
pending timer firing, or the `updateAll()` awaited by a suspended `loop`
settling (with the outcome of its fetch and the clock readings). -/
inductive PollEvent (V : Type) where
  | start
  | stop
  | timerFires (handle : Nat)
  | refreshSettles (net : FetchResult V) (nowIso : String) (clock : String → Int) (now : Int)

/-- Whether the event is a call of `start()`. -/
def PollEvent.isStart {V : Type} : PollEvent V → Bool
  | .start => true
  | _ => false

/-- Whether the event is a call of `stop()`. -/
def PollEvent.isStop {V : Type} : PollEvent V → Bool
  | .stop => true
  | _ => false

/-- State after one event; a timer that is not pending cannot fire and a
refresh cannot settle when none is in flight (the state is then unchanged). -/
def PollEvent.step {V F : Type} (ops : NumberOps V F) (p : PollSystem F) :
    PollEvent V → PollSystem F
  | .start => PriceFeed.start p
  | .stop => PriceFeed.stop p
  | .timerFires h =>
    if h ∈ p.pendingTimers then loopHead { p with pendingTimers := p.pendingTimers.erase h }
    else p
  | .refreshSettles net nowIso clock now =>
    if p.inFlight = 0 then p else loopResume ops p net nowIso clock now

/-- State after a sequence of events. -/
def runPoll {V F : Type} (ops : NumberOps V F) (p : PollSystem F) :
    List (PollEvent V) → PollSystem F
  | [] => p
  | e :: rest => runPoll ops (e.step ops p) rest

/-- Number of poll loops alive: invocations awaiting their refresh plus pending
timers. -/
def aliveLoops {F : Type} (p : PollSystem F) : Nat := p.inFlight + p.pendingTimers.length

/-- A freshly constructed service (15 s interval) right after `start()`: running,
with the first refresh in flight. -/
def startedPoll : PollSystem String := start (PollSystem.init String (some 15))

/-- Events following a `stop()`: the refresh in flight settles (its fetch having
delivered `sampleBatch`), the timer it set fires, `stop()` is called again, and
a timer that is not pending is reported. -/
def afterStopEvents : List (PollEvent String) :=
  [.refreshSettles sampleNet "2023-11-14T22:14:10.000Z" sampleClock 1700000050000,
   .timerFires 1,
   .stop,
   .timerFires 5]

/-- The race: `start()`, `stop()` and `start()` again while the first refresh is
still in flight. -/
def restartRace : List (PollEvent String) := [.start, .stop, .start]

/-- The race followed by both refreshes settling (their fetches failing). -/
def restartRaceSettled : List (PollEvent String) :=
  restartRace ++
    [.refreshSettles (.rejected "timeout") "2023-11-14T22:14:10.000Z" sampleClock 1700000050000,
     .refreshSettles (.rejected "timeout") "2023-11-14T22:14:11.000Z" sampleClock 1700000051000]

/-- The running sample service with one pending timer (its `timer` handle 7). -/
def samplePoll : PollSystem String :=
  { service := sampleFeed,
    inFlight := 0,
    pendingTimers := [7],
    nextHandle := 8,
    refreshesBegun := 3 }

end PriceFeed

/-!
# HTTP routes of the metering ledger (`backend-node/src/routes/index.js`)

The handler of `POST /x402/authorize`. The request body is reduced to its
`maxUnits` field, an integer when present. The `express-validator` chain listed
before the handler is middleware: it records its findings on the request and
passes control on; a handler sees them only by calling `validationResult(req)`.
-/

namespace Routes

open X402Metering

/-- Findings of `body('maxUnits').optional().isInt({ min: 1, max: 100 })`. -/
def maxUnitsErrors (maxUnits : Option Int) : List String :=
  match maxUnits with
  | none => []
  | some m => if 1 ≤ m ∧ m ≤ 100 then [] else ["Invalid value"]

/-- Response sent by the handler: `res.json({ status: 'ok', ...auth })` or
`res.status(500).json({ error })`. -/
inductive AuthorizeResponse where
  | ok (paymentId : String) (remaining : Int)
  | serverError (message : String)
deriving DecidableEq, Repr

/-- Handler of `POST /x402/authorize`, after the validation chain has run: it
reads `maxUnits` from the body and calls
`x402Metering.authorize({ maxUnits: maxUnits || 5 })`. -/
def postX402Authorize (s : X402MeteringService) (maxUnits : Option Int)
    (probe : Except String Unit) (randomBytes : List (Fin 256)) (now : Int) :
    AuthorizeResponse × X402MeteringService :=
  let _errors := maxUnitsErrors maxUnits
  let granted :=
    match maxUnits with
    | some m => if m ≠ 0 then m else 5
    | none => 5
  match authorize s (some granted) none probe randomBytes now with
  | (.ok auth, s1) => (.ok auth.paymentId auth.remaining, s1)
  | (.error e, s1) => (.serverError e, s1)

end Routes

/-!
# Decimal conversion helpers (`frontend/Porbit/src/lib/decimals.js`)

Amounts are JavaScript strings (`none` stands for `null` / `undefined`); texts are
handled as lists of characters. `BigInt` values are natural numbers here: the
conversion `BigInt(text)` is modelled on texts of decimal digits (what `toWei`
passes to it, and the raw amounts `fromWei` is meant for) and `n.toString()` is
`Nat.repr n`, the canonical decimal text.
-/

namespace Decimals

/-- The characters removed by `String.prototype.trim`: white space and line
terminators. -/
def isJsSpace (c : Char) : Bool :=
  [0x09, 0x0A, 0x0B, 0x0C, 0x0D, 0x20, 0xA0, 0x1680, 0x2000, 0x2001, 0x2002, 0x2003, 0x2004,
   0x2005, 0x2006, 0x2007, 0x2008, 0x2009, 0x200A, 0x2028, 0x2029, 0x202F, 0x205F, 0x3000,
   0xFEFF].contains c.toNat

/-- Method `trim()`. -/
def trim (cs : List Char) : List Char := (cs.dropWhile isJsSpace).rdropWhile isJsSpace

/-- The test `/^\d*(?:\.\d*)?$/`: digits, then optionally a dot and digits. -/
def matchesAmount (cs : List Char) : Bool :=
  match cs.dropWhile Char.isDigit with
  | [] => true
  | c :: frac => c = '.' && frac.all Char.isDigit

/-- First piece of `split('.')`. -/
def wholePart (cs : List Char) : List Char := cs.takeWhile (fun c => c ≠ '.')

/-- Second piece of `split('.')`, or the default `''` when there is none. -/
def fracPart (cs : List Char) : List Char :=
  ((cs.dropWhile (fun c => c ≠ '.')).drop 1).takeWhile (fun c => c ≠ '.')

/-- Number denoted by a text of decimal digits. -/
def parseDigits (cs : List Char) : Nat := cs.foldl (fun acc c => 10 * acc + (c.toNat - 48)) 0

/-- Conversion `BigInt(text)` of a text of decimal digits (the empty text gives
0); any other text is answered as a text `BigInt` rejects. -/
def bigIntOfDigits (cs : List Char) : Option Nat :=
  if cs.all Char.isDigit then some (parseDigits cs) else none

/-- Function `toWei(amount, decimals = 18)`. -/
def toWei (amount : Option String) (decimals : Option Nat) : String :=
  let decimals := decimals.getD 18
  match amount with
  | none => "0"
  | some a =>
    if a = "" then "0"
    else
      let amtStr := trim a.data
      if !matchesAmount amtStr then "0"
      else
        let whole := wholePart amtStr
        let frac := fracPart amtStr
        let padded := (frac ++ List.replicate decimals '0').take decimals
        match bigIntOfDigits (if whole = [] then ['0'] else whole),
              bigIntOfDigits (if padded = [] then ['0'] else padded) with
        | some w, some f => Nat.repr (w * 10 ^ decimals + f)
        | _, _ => "0"

/-- Method `padStart(n, c)`. -/
def padStart (cs : List Char) (n : Nat) (c : Char) : List Char :=
  List.replicate (n - cs.length) c ++ cs

/-- Whether a whole text matches `\.?0+`: after an optional leading dot, one or
more zeros and nothing else. -/
def isDotZeros (cs : List Char) : Bool :=
  let body := if cs.head? = some '.' then cs.drop 1 else cs
  !body.isEmpty && body.all (fun c => c = '0')

/-- The replacement `.replace(/\.?0+$/, '')`: the leftmost suffix matching
`\.?0+` is removed. -/
def stripZeros : List Char → List Char
  | [] => []
  | c :: rest => if isDotZeros (c :: rest) then [] else c :: stripZeros rest

/-- Function `fromWei(raw, decimals = 18, precision = 6)`. -/
def fromWei (raw : Option String) (decimals : Option Nat) (precision : Option Nat) : String :=
  let decimals := decimals.getD 18
  let precision := precision.getD 6
  match raw with
  | none => "0"
  | some r =>
    if r = "" then "0"
    else
      match bigIntOfDigits r.data with
      | none => "0"
      | some big =>
        let base := 10 ^ decimals
        let whole := big / base
        let frac := big % base
        if precision = 0 then Nat.repr whole
        else
          let fracStr := (padStart (Nat.toDigits 10 frac) decimals '0').take precision
          String.mk (stripZeros (Nat.toDigits 10 whole ++ '.' :: fracStr))

/-- The form named by the specification: one or more digits, optionally
followed by a dot and one or more digits. -/
def isPlainDecimal (cs : List Char) : Bool :=
  match cs.dropWhile Char.isDigit with
  | [] => !cs.isEmpty
  | c :: frac =>
    !(cs.takeWhile Char.isDigit).isEmpty && c = '.' && !frac.isEmpty && frac.all Char.isDigit

/-- The rational number a text `whole.frac` denotes (a missing part counts 0). -/
def decimalValue (cs : List Char) : ℚ :=
  (parseDigits (wholePart cs) : ℚ) + (parseDigits (fracPart cs) : ℚ) / 10 ^ (fracPart cs).length

end Decimals

/-!
# Quote fallback (`backend-node/src/services/blockchain.js`)

`ethers.BigNumber` values are integers. The pool contract is given by the
outcome of each awaited view call (`none` when the contract object has no such
function); reserves returned by the contract are unsigned. `BigNumber.from` is
modelled on decimal texts with an optional minus sign.
-/

namespace Blockchain

/-- Conversion `ethers.BigNumber.from(text)` of a decimal text (digits after an
optional minus sign); other texts throw. -/
def bigNumberFrom (s : String) : Except String Int :=
  let negative : Bool := decide (s.data.head? = some '-')
  let ds := if negative then s.data.drop 1 else s.data
  if !ds.isEmpty && ds.all Char.isDigit then
    .ok (if negative then -(Decimals.parseDigits ds : Int) else (Decimals.parseDigits ds : Int))
  else .error "invalid BigNumber string"

/-- Method `a.div(b)` of `BigNumber`: truncated quotient, throwing on a zero
divisor. -/
def bigDiv (a b : Int) : Except String Int :=
  if b = 0 then .error "division-by-zero" else .ok (Int.tdiv a b)

/-- The view functions of `this.orbitalPool` used by the quote: for each, whether
it exists and how its awaited call settles (a reserves call resolves to an array
of unsigned values, or to something that is not an array). -/
structure PoolContract where
  getAmountOut : Option (Except String Int)
  totalReserves : Option (Except String (Option (List Nat)))
  getReserves : Option (Except String (Option (List Nat)))

/-- The expression `Array.isArray(r) ? r.map(x => x.toString()) : []`. -/
def reservesToStrings (r : Option (List Nat)) : List String :=
  match r with
  | some arr => arr.map Nat.repr
  | none => []

/-- Method `getReserves()`. -/
def getReserves (orbitalPool : Option PoolContract) : Except String (List String) :=
  match orbitalPool with
  | none => .error "OrbitalPool contract not initialized"
  | some pool =>
    match pool.totalReserves with
    | some (.ok r) => .ok (reservesToStrings r)
    | _ =>
      match pool.getReserves with
      | some (.ok r) => .ok (reservesToStrings r)
      | some (.error e) => .error e
      | none => .ok []

/-- The constant-product fallback of `getQuote`, from the awaited reserves on. -/
def quoteFallback (reserves : List String) (amt : Int) : Except String String :=
  if reserves.length < 2 then .ok "0"
  else
    match bigNumberFrom (reserves.getD 0 ""), bigNumberFrom (reserves.getD 1 "") with
    | .error e, _ => .error e
    | .ok _, .error e => .error e
    | .ok reserveIn, .ok reserveOut =>
      if reserveIn = 0 ∨ reserveOut = 0 then .ok "0"
      else
        let amountInWithFee := amt
        let newReserveIn := reserveIn + amountInWithFee
        let k := reserveIn * reserveOut
        match bigDiv k newReserveIn with
        | .error e => .error e
        | .ok newReserveOut =>
          let amountOut := reserveOut - newReserveOut
          .ok (toString amountOut)

/-- Method `getQuote(tokenIn, tokenOut, amountIn)`. -/
def getQuote (orbitalPool : Option PoolContract) (amountIn : String) : Except String String :=
  match orbitalPool with
  | none => .error "OrbitalPool contract not initialized"
  | some pool =>
    match bigNumberFrom amountIn with
    | .error e => .error e
    | .ok amt =>
      match pool.getAmountOut with
      | some (.ok quote) => .ok (toString quote)
      | _ =>
        match getReserves orbitalPool with
        | .error e => .error e
        | .ok reserves => quoteFallback reserves amt

/-- A pool whose `getAmountOut` call fails and whose `totalReserves()` returns
three reserves. -/
def samplePool : PoolContract :=
  { getAmountOut := some (.error "call revert exception"),
    totalReserves := some (.ok (some [1000, 2000, 5])),
    getReserves := none }

end Blockchain

namespace X402Metering

/-! ## Map lemmas -/

theorem mapGet_mapSet_same (m : PaymentMap) (k : String) (v : PaymentRecord) :
    mapGet (mapSet m k v) k = some v := by
  induction m with
  | nil => simp [mapSet, mapGet]
  | cons hd tl ih =>
    obtain ⟨k', v'⟩ := hd
    by_cases h : k' = k
    · simp [mapSet, mapGet, h]
    · simp [mapSet, mapGet, h, ih]

theorem mapGet_mapSet_other (m : PaymentMap) (k k' : String) (v : PaymentRecord)
    (hne : k' ≠ k) : mapGet (mapSet m k v) k' = mapGet m k' := by
  induction m with
  | nil => simp [mapSet, mapGet, Ne.symm hne]
  | cons hd tl ih =>
    obtain ⟨k0, v0⟩ := hd
    by_cases h : k0 = k
    · subst h
      simp [mapSet, mapGet, Ne.symm hne]
    · by_cases h2 : k0 = k'
      · subst h2
        simp [mapSet, mapGet, h]
      · simp [mapSet, mapGet, h, h2, ih]

theorem mapGet_eq_none_iff (m : PaymentMap) (k : String) :
    mapGet m k = none ↔ k ∉ m.map Prod.fst := by
  induction m with
  | nil => simp [mapGet]
  | cons hd tl ih =>
    obtain ⟨k0, v0⟩ := hd
    by_cases h : k0 = k
    · simp [mapGet, h]
    · simp [mapGet, h, ih, Ne.symm h]

/-! ## Single-call behaviour of `consume` -/

theorem consume_unknown (s : X402MeteringService) (pid : String) (units : Option Int)
    (now : Int) (h : mapGet s.payments pid = none) :
    consume s pid units now = (.error "paymentId unknown", s) := by
  simp [consume, h]

theorem consume_insufficient (s : X402MeteringService) (pid : String) (units : Option Int)
    (now : Int) (rec : PaymentRecord) (h : mapGet s.payments pid = some rec)
    (hlt : rec.remaining < units.getD s.unitsPerSwap) :
    consume s pid units now = (.error "insufficient balance", s) := by
  simp [consume, h, hlt]

theorem consume_ok (s : X402MeteringService) (pid : String) (units : Option Int)
    (now : Int) (rec : PaymentRecord) (h : mapGet s.payments pid = some rec)
    (hle : units.getD s.unitsPerSwap ≤ rec.remaining) :
    consume s pid units now =
      (.ok { paymentId := pid, remaining := numberSub rec.remaining (units.getD s.unitsPerSwap) },
       { s with
         payments := mapSet s.payments pid
           { rec with
             remaining := numberSub rec.remaining (units.getD s.unitsPerSwap),
             lastConsumption := some now } }) := by
  simp [consume, h, not_lt.mpr hle]

/-- An integer of magnitude at most `2 ^ 53` is a binary64 value. -/
theorem roundToDouble_of_safe (x : Int) (h : x.natAbs ≤ 2 ^ 53) : roundToDouble x = x := by
  unfold roundToDouble
  simp only
  rw [if_pos h]

/-- Rounding keeps the sign of a non-negative integer. -/
theorem roundToDouble_nonneg (x : Int) (h : 0 ≤ x) : 0 ≤ roundToDouble x := by
  unfold roundToDouble
  simp only
  split
  · exact h
  · rw [if_neg (not_lt.mpr h)]
    exact Int.natCast_nonneg _

/-- A difference between 0 and `2 ^ 53` is computed exactly. -/
theorem numberSub_of_safe (a b : Int) (h0 : b ≤ a) (h1 : a - b ≤ 2 ^ 53) :
    numberSub a b = a - b := by
  unfold numberSub
  apply roundToDouble_of_safe
  have h2 : ((a - b).natAbs : Int) = a - b := Int.natAbs_of_nonneg (by omega)
  have h3 : ((a - b).natAbs : Int) ≤ ((2 ^ 53 : Nat) : Int) := by
    rw [h2]; push_cast; exact h1
  exact_mod_cast h3

/-- Above `2 ^ 53` the binary64 values are 2 apart (4 apart from `2 ^ 54` on), a
tie goes to the even significand, and negative values round alike. -/
theorem roundToDouble_samples :
    roundToDouble (2 ^ 53 + 1) = 2 ^ 53 ∧ roundToDouble (2 ^ 53 + 2) = 2 ^ 53 + 2 ∧
    roundToDouble (2 ^ 53 + 3) = 2 ^ 53 + 4 ∧ roundToDouble (2 ^ 54 - 1) = 2 ^ 54 ∧
    roundToDouble (2 ^ 54 + 1) = 2 ^ 54 ∧ roundToDouble (2 ^ 54 + 2) = 2 ^ 54 ∧
    roundToDouble (2 ^ 54 + 3) = 2 ^ 54 + 4 ∧ roundToDouble (2 ^ 54 + 6) = 2 ^ 54 + 8 ∧
    roundToDouble (-(2 ^ 53 + 1)) = -(2 ^ 53) ∧ roundToDouble (-(2 ^ 53 + 3)) = -(2 ^ 53 + 4) := by
  decide

theorem ulpSearch_spec (fuel : Nat) :
    ∀ (m u : Nat), 0 < u → 2 ^ 52 * u ≤ m → m < 2 ^ 53 * u * 2 ^ fuel →
      m < 2 ^ 53 * ulpSearch fuel m u ∧ 2 ^ 52 * ulpSearch fuel m u ≤ m ∧
      ∃ j, ulpSearch fuel m u = u * 2 ^ j := by
  induction fuel with
  | zero =>
    intro m u _ hlo hhi
    simp only [ulpSearch]
    exact ⟨by simpa using hhi, hlo, 0, by simp⟩
  | succ n ih =>
    intro m u hu hlo hhi
    simp only [ulpSearch]
    split
    · rename_i hlt
      exact ⟨hlt, hlo, 0, by simp⟩
    · rename_i hge
      have hge2 : 2 ^ 53 * u ≤ m := not_lt.mp hge
      obtain ⟨h1, h2, j, h3⟩ := ih m (2 * u) (by omega)
        (by have : 2 ^ 52 * (2 * u) = 2 ^ 53 * u := by ring
            omega)
        (by have : 2 ^ 53 * (2 * u) * 2 ^ n = 2 ^ 53 * u * 2 ^ (n + 1) := by ring
            omega)
      exact ⟨h1, h2, j + 1, by rw [h3]; ring⟩

/-- The spacing found for a magnitude above `2 ^ 53` is the power of two `u`
with `2 ^ 52 * u ≤ m < 2 ^ 53 * u`: the integers `q * u` with a 53-bit `q` are
the binary64 values at that magnitude. -/
theorem ulpSearch_bracket (m : Nat) (hm : 2 ^ 53 < m) :
    m < 2 ^ 53 * ulpSearch m m 1 ∧ 2 ^ 52 * ulpSearch m m 1 ≤ m ∧
    ∃ j, ulpSearch m m 1 = 2 ^ j := by
  have hpow : m < 2 ^ m := Nat.lt_two_pow m
  obtain ⟨h1, h2, j, h3⟩ := ulpSearch_spec m m 1 (by norm_num) (by omega)
    (by have : (1 : Nat) ≤ 2 ^ 53 := Nat.one_le_two_pow
        calc m < 2 ^ m := hpow
          _ = 1 * 1 * 2 ^ m := by ring
          _ ≤ 2 ^ 53 * 1 * 2 ^ m := by gcongr)
  exact ⟨h1, h2, j, by rw [h3]; ring⟩

/-- The rounded value of a magnitude above `2 ^ 53` is a multiple of the spacing
at most half a spacing away. -/
theorem roundToDouble_near (x : Int) (hx : 2 ^ 53 < x.natAbs) :
    ∃ q : Nat, (roundToDouble x).natAbs = q * ulpSearch x.natAbs x.natAbs 1 ∧
      2 * (roundToDouble x - x).natAbs ≤ ulpSearch x.natAbs x.natAbs 1 := by
  obtain ⟨_, hlo, _⟩ := ulpSearch_bracket x.natAbs hx
  generalize hu : ulpSearch x.natAbs x.natAbs 1 = u at hlo ⊢
  have hupos : 0 < u := by
    rcases Nat.eq_zero_or_pos u with h | h
    · rw [h] at hlo; omega
    · exact h
  have hdiv := Nat.div_add_mod x.natAbs u
  have hmod := Nat.mod_lt x.natAbs hupos
  unfold roundToDouble
  simp only
  rw [if_neg (by omega), hu]
  generalize hq : x.natAbs / u = q at hdiv ⊢
  generalize hr : x.natAbs % u = r at hdiv hmod ⊢
  have hcases : ∃ q2 : Nat, (if 2 * r < u then q * u
      else if u < 2 * r then (q + 1) * u
      else if q % 2 = 0 then q * u else (q + 1) * u) = q2 * u ∧
      (q2 = q ∧ 2 * r ≤ u ∨ q2 = q + 1 ∧ u ≤ 2 * r) := by
    by_cases h1 : 2 * r < u
    · exact ⟨q, by rw [if_pos h1], Or.inl ⟨rfl, by omega⟩⟩
    · by_cases h2 : u < 2 * r
      · exact ⟨q + 1, by rw [if_neg h1, if_pos h2], Or.inr ⟨rfl, by omega⟩⟩
      · by_cases h3 : q % 2 = 0
        · exact ⟨q, by rw [if_neg h1, if_neg h2, if_pos h3], Or.inl ⟨rfl, by omega⟩⟩
        · exact ⟨q + 1, by rw [if_neg h1, if_neg h2, if_neg h3], Or.inr ⟨rfl, by omega⟩⟩
  obtain ⟨q2, hq2, hq2c⟩ := hcases
  rw [hq2]
  have hmul : u * q + r = x.natAbs := hdiv
  refine ⟨q2, ?_, ?_⟩
  · split
    · simp [Int.natAbs_neg, Int.natAbs_mul]
    · simp [Int.natAbs_mul]
  · have hxa : (x.natAbs : Int) = |x| := Int.natCast_natAbs x
    rcases hq2c with ⟨rfl, hr2⟩ | ⟨rfl, hr2⟩
    · split
      · rename_i hneg
        have : x = -((u * q2 + r : Nat) : Int) := by
          rw [hmul, hxa, abs_of_neg hneg]; ring
        rw [this]
        push_cast
        have : (-(↑q2 * (u : Int)) - -(↑u * ↑q2 + ↑r)) = (r : Int) := by ring
        rw [this]
        simp
        exact hr2
      · rename_i hnn
        have : x = ((u * q2 + r : Nat) : Int) := by
          rw [hmul, hxa, abs_of_nonneg (not_lt.mp hnn)]
        rw [this]
        push_cast
        have : ((↑q2 * (u : Int)) - (↑u * ↑q2 + ↑r)) = -(r : Int) := by ring
        rw [this]
        simp
        exact hr2
    · split
      · rename_i hneg
        have : x = -((u * q + r : Nat) : Int) := by
          rw [hmul, hxa, abs_of_neg hneg]; ring
        rw [this]
        push_cast
        have : (-((↑q + 1) * (u : Int)) - -(↑u * ↑q + ↑r)) = -((u : Int) - r) := by ring
        rw [this, Int.natAbs_neg]
        omega
      · rename_i hnn
        have : x = ((u * q + r : Nat) : Int) := by
          rw [hmul, hxa, abs_of_nonneg (not_lt.mp hnn)]
        rw [this]
        push_cast
        have : (((↑q + 1) * (u : Int)) - (↑u * ↑q + ↑r)) = (u : Int) - r := by ring
        rw [this]
        omega

/-- A successful `consume` whose difference is a safe integer stores and returns
that difference. -/
theorem consume_ok_exact (s : X402MeteringService) (pid : String) (units : Option Int)
    (now : Int) (rec : PaymentRecord) (h : mapGet s.payments pid = some rec)
    (hle : units.getD s.unitsPerSwap ≤ rec.remaining)
    (hsafe : rec.remaining - units.getD s.unitsPerSwap ≤ 2 ^ 53) :
    consume s pid units now =
      (.ok { paymentId := pid, remaining := rec.remaining - units.getD s.unitsPerSwap },
       { s with
         payments := mapSet s.payments pid
           { rec with
             remaining := rec.remaining - units.getD s.unitsPerSwap,
             lastConsumption := some now } }) := by
  rw [consume_ok s pid units now rec h hle, numberSub_of_safe _ _ hle hsafe]

theorem status_of_get (s : X402MeteringService) (pid : String) (rec : PaymentRecord)
    (h : mapGet s.payments pid = some rec) :
    status s pid =
      (some
        { paymentId := pid,
          remaining := rec.remaining,
          createdAt := rec.createdAt,
          lastConsumption := rec.lastConsumption }, s) := by
  simp [status, h]

theorem authorize_eq (s : X402MeteringService) (maxUnits : Option Int)
    (metadata : Option Metadata) (probe : Except String Unit) (randomBytes : List (Fin 256))
    (now : Int) :
    authorize s maxUnits metadata probe randomBytes now =
      (.ok { paymentId := _generatePaymentId randomBytes, remaining := maxUnits.getD 5 },
       { s with
         payments := mapSet s.payments (_generatePaymentId randomBytes)
           { remaining := maxUnits.getD 5,
             createdAt := now,
             lastConsumption := none,
             metadata := metadata.getD [] } }) := by
  cases probe <;> rfl

/-- Sequential consumption within a balance of at most `2 ^ 53`: every call
succeeds and the record ends with the balance reduced by the total. -/
theorem consumeSeq_within (pid : String) (calls : List (Int × Int)) :
    ∀ (s : X402MeteringService) (rec : PaymentRecord),
      mapGet s.payments pid = some rec →
      rec.remaining ≤ 2 ^ 53 →
      (∀ c ∈ calls, 0 < c.1) →
      (calls.map Prod.fst).sum ≤ rec.remaining →
      (∀ r ∈ (consumeSeq s pid calls).1, ∃ v, r = Except.ok v) ∧
      (consumeSeq s pid calls).1.length = calls.length ∧
      ∃ rec', mapGet (consumeSeq s pid calls).2.payments pid = some rec' ∧
        rec'.remaining = rec.remaining - (calls.map Prod.fst).sum ∧
        rec'.createdAt = rec.createdAt := by
  induction calls with
  | nil =>
    intro s rec h _ _ _
    exact ⟨by simp [consumeSeq], by simp [consumeSeq], rec, by simpa [consumeSeq] using h,
      by simp, rfl⟩
  | cons c rest ih =>
    obtain ⟨u, t⟩ := c
    intro s rec h hsafe hpos hsum
    have hu : 0 < u := hpos (u, t) (by simp)
    have hrest : ∀ c ∈ rest, 0 < c.1 := fun c hc => hpos c (by simp [hc])
    have hnn : 0 ≤ (rest.map Prod.fst).sum := by
      apply List.sum_nonneg
      intro x hx
      obtain ⟨c, hc, rfl⟩ := List.mem_map.mp hx
      exact le_of_lt (hrest c hc)
    simp only [List.map_cons, List.sum_cons] at hsum
    have hle : (some u).getD s.unitsPerSwap ≤ rec.remaining := by
      simp only [Option.getD_some]; omega
    have hc := consume_ok_exact s pid (some u) t rec h hle
      (by simp only [Option.getD_some]; omega)
    simp only [Option.getD_some] at hc
    obtain ⟨h1, h2, rec', h3, h4, h5⟩ := ih (consume s pid (some u) t).2
      { rec with remaining := rec.remaining - u, lastConsumption := some t }
      (by rw [hc]; exact mapGet_mapSet_same _ _ _) (by simp only; omega) hrest
      (by simp only; omega)
    refine ⟨?_, ?_, rec', ?_, ?_, ?_⟩
    · intro r hr
      simp only [consumeSeq, List.mem_cons] at hr
      rcases hr with hr | hr
      · exact ⟨_, by rw [hr, hc]⟩
      · exact h1 r hr
    · simp [consumeSeq, h2]
    · simpa [consumeSeq] using h3
    · simp only [List.map_cons, List.sum_cons]
      simp only at h4
      omega
    · simpa using h5

/-- C1 fails as stated: the balance is a JavaScript number, so above `2 ^ 53` a
difference need not be representable. After `authorize` with `maxUnits = 2 ^ 54`
one `consume` of 1 unit succeeds and leaves `remaining = 2 ^ 54`, not
`2 ^ 54 - 1`. -/
theorem C1_large_grant_counterexample :
    ¬ ∀ (s : X402MeteringService) (maxUnits : Int) (metadata : Option Metadata)
        (probe : Except String Unit) (randomBytes : List (Fin 256)) (t0 : Int)
        (calls : List (Int × Int)),
        0 < maxUnits → (∀ c ∈ calls, 0 < c.1) → (calls.map Prod.fst).sum ≤ maxUnits →
        ∃ pid, (authorize s (some maxUnits) metadata probe randomBytes t0).1
            = .ok { paymentId := pid, remaining := maxUnits } ∧
          (∀ r ∈ (consumeSeq (authorize s (some maxUnits) metadata probe randomBytes t0).2
              pid calls).1, ∃ v, r = Except.ok v) ∧
          (∃ rec, mapGet (consumeSeq (authorize s (some maxUnits) metadata probe randomBytes t0).2
              pid calls).2.payments pid = some rec ∧
              rec.remaining = maxUnits - (calls.map Prod.fst).sum) := by
  intro h
  obtain ⟨pid, h1, _, rec, hget, hrem⟩ := h X402MeteringService.new (2 ^ 54) none (.ok ())
    (List.replicate 32 7) 1000 [(1, 1001)] (by decide) (by decide) (by decide)
  have hpid : _generatePaymentId (List.replicate 32 7) = pid := by
    rw [authorize_eq] at h1
    simp only at h1
    injection h1 with h1
    injection h1 with hp _
  subst hpid
  have heval : mapGet (consumeSeq (authorize X402MeteringService.new (some (2 ^ 54)) none
      (.ok ()) (List.replicate 32 7) 1000).2 (_generatePaymentId (List.replicate 32 7))
      [(1, 1001)]).2.payments (_generatePaymentId (List.replicate 32 7))
      = some { remaining := 2 ^ 54, createdAt := 1000, lastConsumption := some 1001,
               metadata := [] } := by decide
  rw [heval] at hget
  injection hget with hget
  rw [← hget] at hrem
  exact absurd hrem (by decide)

/-- C1 (amended): for every positive `maxUnits` of at most `2 ^ 53` and every
sequence of positive unit amounts with sum at most `maxUnits`, the `consume`
calls made in order on the `paymentId` returned by a fresh `authorize` all
succeed, and afterwards the record's `remaining` (as stored and as reported by
`status`) is `maxUnits` minus the sum. -/
theorem C1_consume_sequence_within_grant (s : X402MeteringService) (maxUnits : Int)
    (metadata : Option Metadata) (probe : Except String Unit) (randomBytes : List (Fin 256))
    (t0 : Int) (calls : List (Int × Int))
    (hmax : 0 < maxUnits) (hsafe : maxUnits ≤ 2 ^ 53) (hpos : ∀ c ∈ calls, 0 < c.1)
    (hsum : (calls.map Prod.fst).sum ≤ maxUnits) :
    ∃ pid, (authorize s (some maxUnits) metadata probe randomBytes t0).1
        = .ok { paymentId := pid, remaining := maxUnits } ∧
      (∀ r ∈ (consumeSeq (authorize s (some maxUnits) metadata probe randomBytes t0).2
          pid calls).1, ∃ v, r = Except.ok v) ∧
      (consumeSeq (authorize s (some maxUnits) metadata probe randomBytes t0).2
          pid calls).1.length = calls.length ∧
      (∃ rec, mapGet (consumeSeq (authorize s (some maxUnits) metadata probe randomBytes t0).2
          pid calls).2.payments pid = some rec ∧
          rec.remaining = maxUnits - (calls.map Prod.fst).sum) ∧
      (status (consumeSeq (authorize s (some maxUnits) metadata probe randomBytes t0).2
          pid calls).2 pid).1.map StatusView.remaining
        = some (maxUnits - (calls.map Prod.fst).sum) := by
  have _ := hmax
  refine ⟨_generatePaymentId randomBytes, ?_⟩
  rw [authorize_eq]
  simp only [Option.getD_some]
  obtain ⟨h1, h2, rec', h3, h4, _⟩ := consumeSeq_within (_generatePaymentId randomBytes) calls
    { s with
      payments := mapSet s.payments (_generatePaymentId randomBytes)
        { remaining := maxUnits,
          createdAt := t0,
          lastConsumption := none,
          metadata := metadata.getD [] } }
    { remaining := maxUnits, createdAt := t0, lastConsumption := none,
      metadata := metadata.getD [] }
    (mapGet_mapSet_same _ _ _) hsafe hpos hsum
  refine ⟨trivial, h1, h2, ⟨rec', h3, h4⟩, ?_⟩
  rw [status_of_get _ _ rec' h3]
  simpa using h4

theorem C1_consume_sequence_within_grant_witness :
    ∃ pid, (authorize X402MeteringService.new (some 5) none (.error "down") (List.replicate 32 7) 1000).1
        = .ok { paymentId := pid, remaining := 5 } ∧
      (∀ r ∈ (consumeSeq (authorize X402MeteringService.new (some 5) none (.error "down")
          (List.replicate 32 7) 1000).2 pid [(2, 1001), (3, 1002)]).1, ∃ v, r = Except.ok v) ∧
      (consumeSeq (authorize X402MeteringService.new (some 5) none (.error "down") (List.replicate 32 7) 1000).2
          pid [(2, 1001), (3, 1002)]).1.length = [((2 : Int), (1001 : Int)), (3, 1002)].length ∧
      (∃ rec, mapGet (consumeSeq (authorize X402MeteringService.new (some 5) none
          (.error "down") (List.replicate 32 7) 1000).2 pid [(2, 1001), (3, 1002)]).2.payments pid = some rec ∧
          rec.remaining = 5 - ([((2 : Int), (1001 : Int)), (3, 1002)].map Prod.fst).sum) ∧
      (status (consumeSeq (authorize X402MeteringService.new (some 5) none (.error "down")
          (List.replicate 32 7) 1000).2 pid [(2, 1001), (3, 1002)]).2 pid).1.map StatusView.remaining
        = some (5 - ([((2 : Int), (1001 : Int)), (3, 1002)].map Prod.fst).sum) :=
  C1_consume_sequence_within_grant X402MeteringService.new 5 none (.error "down") (List.replicate 32 7) 1000
    [(2, 1001), (3, 1002)] (by decide) (by decide) (by decide) (by decide)

/-- C2: for every ledger state, every known `paymentId` and every `units`
greater than the record's `remaining` (given explicitly or by default),
`consume` throws `insufficient balance` and the service state is unchanged;
`status(paymentId)` reports the same `remaining`, `createdAt` and
`lastConsumption` before and after the failed call. -/
theorem C2_consume_insufficient_leaves_ledger (s : X402MeteringService) (pid : String)
    (rec : PaymentRecord) (units : Option Int) (now : Int)
    (hknown : mapGet s.payments pid = some rec)
    (hgt : units.getD s.unitsPerSwap > rec.remaining) :
    (consume s pid units now).1 = .error "insufficient balance" ∧
    (consume s pid units now).2 = s ∧
    (status (consume s pid units now).2 pid).1 = (status s pid).1 ∧
    (status (consume s pid units now).2 pid).1 =
      some { paymentId := pid, remaining := rec.remaining, createdAt := rec.createdAt,
             lastConsumption := rec.lastConsumption } := by
  rw [consume_insufficient s pid units now rec hknown hgt, status_of_get s pid rec hknown]
  exact ⟨rfl, rfl, rfl, rfl⟩

theorem C2_consume_insufficient_leaves_ledger_witness :
    (consume sampleService "0xaa" (some 3) 200).1 = .error "insufficient balance" ∧
    (consume sampleService "0xaa" (some 3) 200).2 = sampleService ∧
    (status (consume sampleService "0xaa" (some 3) 200).2 "0xaa").1
      = (status sampleService "0xaa").1 ∧
    (status (consume sampleService "0xaa" (some 3) 200).2 "0xaa").1 =
      some { paymentId := "0xaa", remaining := 2, createdAt := 100, lastConsumption := none } :=
  C2_consume_insufficient_leaves_ledger sampleService "0xaa"
    { remaining := 2, createdAt := 100, lastConsumption := none, metadata := [] }
    (some 3) 200 (by decide) (by decide)

/-- C3: for every ledger state, every `paymentId` that is not a key of the
ledger and every `units` (given or omitted), `consume` throws
`paymentId unknown`, which is not the `insufficient balance` error, and the
service state is unchanged. -/
theorem C3_consume_unknown_payment (s : X402MeteringService) (pid : String)
    (units : Option Int) (now : Int) (hnew : pid ∉ s.payments.map Prod.fst) :
    (consume s pid units now).1 = .error "paymentId unknown" ∧
    (consume s pid units now).1 ≠ .error "insufficient balance" ∧
    (consume s pid units now).2 = s := by
  rw [consume_unknown s pid units now ((mapGet_eq_none_iff _ _).mpr hnew)]
  refine ⟨rfl, ?_, rfl⟩
  intro h
  injection h with h
  exact absurd h (by decide)

theorem C3_consume_unknown_payment_witness :
    (consume sampleService "0xcc" (some 1) 200).1 = .error "paymentId unknown" ∧
    (consume sampleService "0xcc" (some 1) 200).1 ≠ .error "insufficient balance" ∧
    (consume sampleService "0xcc" (some 1) 200).2 = sampleService :=
  C3_consume_unknown_payment sampleService "0xcc" (some 1) 200 (by decide)

/-! ## Invariant: balances never go negative -/

theorem mem_of_mapGet (m : PaymentMap) (k : String) (v : PaymentRecord)
    (h : mapGet m k = some v) : ∃ k0, (k0, v) ∈ m := by
  induction m with
  | nil => simp [mapGet] at h
  | cons hd tl ih =>
    obtain ⟨k0, v0⟩ := hd
    by_cases hk : k0 = k
    · simp only [mapGet, hk, if_true, Option.some.injEq] at h
      exact ⟨k0, by simp [h]⟩
    · simp only [mapGet, hk, if_false] at h
      obtain ⟨k1, h1⟩ := ih h
      exact ⟨k1, by simp [h1]⟩

theorem mapSet_forall (P : PaymentRecord → Prop) (m : PaymentMap) (k : String)
    (v : PaymentRecord) (hm : ∀ e ∈ m, P e.2) (hv : P v) : ∀ e ∈ mapSet m k v, P e.2 := by
  induction m with
  | nil =>
    intro e he
    simp only [mapSet, List.mem_singleton] at he
    rw [he]; exact hv
  | cons hd tl ih =>
    obtain ⟨k0, v0⟩ := hd
    intro e he
    by_cases hk : k0 = k
    · simp only [mapSet, hk, if_true, List.mem_cons] at he
      rcases he with he | he
      · rw [he]; exact hv
      · exact hm e (by simp [he])
    · simp only [mapSet, hk, if_false, List.mem_cons] at he
      rcases he with he | he
      · exact hm e (by simp [he])
      · exact ih (fun e he => hm e (by simp [he])) e he

theorem step_nonneg (s : X402MeteringService) (c : Call) (hc : c.grantsPositive = true)
    (hs : ∀ e ∈ s.payments, 0 ≤ e.2.remaining) :
    ∀ e ∈ (c.step s).payments, 0 ≤ e.2.remaining := by
  cases c with
  | authorize maxUnits metadata probe randomBytes now =>
    simp only [Call.step, authorize_eq]
    apply mapSet_forall (fun r => 0 ≤ r.remaining) _ _ _ hs
    cases maxUnits with
    | none => simp
    | some m =>
      simp only [Call.grantsPositive, decide_eq_true_eq] at hc
      simp only [Option.getD_some]
      omega
  | status paymentId =>
    simp only [Call.step, status]
    split <;> exact hs
  | consume paymentId units now =>
    simp only [Call.step]
    cases hget : mapGet s.payments paymentId with
    | none => rw [consume_unknown s paymentId units now hget]; exact hs
    | some rec =>
      by_cases hlt : rec.remaining < units.getD s.unitsPerSwap
      · rw [consume_insufficient s paymentId units now rec hget hlt]; exact hs
      · rw [consume_ok s paymentId units now rec hget (not_lt.mp hlt)]
        apply mapSet_forall (fun r => 0 ≤ r.remaining) _ _ _ hs
        simp only
        exact roundToDouble_nonneg _ (by have := not_lt.mp hlt; omega)

theorem runCalls_nonneg (calls : List Call) :
    ∀ s : X402MeteringService, (∀ c ∈ calls, c.grantsPositive = true) →
      (∀ e ∈ s.payments, 0 ≤ e.2.remaining) →
      ∀ e ∈ (runCalls s calls).payments, 0 ≤ e.2.remaining := by
  induction calls with
  | nil => intro s _ hs; simpa [runCalls] using hs
  | cons c rest ih =>
    intro s hc hs
    simp only [runCalls]
    exact ih (c.step s) (fun c' h' => hc c' (by simp [h']))
      (step_nonneg s c (hc c (by simp)) hs)

/-- C4: in every state reached from the freshly constructed service by any
sequence of `authorize` calls granting a positive amount, `status` calls and
`consume` calls (succeeding or throwing, with any integer `units` or none),
every stored payment record has `remaining >= 0`. -/
theorem C4_remaining_never_negative (calls : List Call)
    (hgrant : ∀ c ∈ calls, c.grantsPositive = true) :
    ∀ e ∈ (runCalls X402MeteringService.new calls).payments, 0 ≤ e.2.remaining :=
  runCalls_nonneg calls X402MeteringService.new hgrant (by simp [X402MeteringService.new])

theorem C4_remaining_never_negative_witness :
    (∀ c ∈ sampleCalls, c.grantsPositive = true) ∧
    (∀ e ∈ (runCalls X402MeteringService.new sampleCalls).payments, 0 ≤ e.2.remaining) :=
  ⟨by decide, C4_remaining_never_negative sampleCalls (by decide)⟩

/-- C5: for every `maxUnits > 0`, `authorize({maxUnits})` returns
`{paymentId, remaining: maxUnits}` and stores under that `paymentId` the record
`{remaining: maxUnits, createdAt: now, lastConsumption: null, metadata}`, so
that `status(paymentId)` right afterwards reports `remaining == maxUnits`. -/
theorem C5_authorize_creates_record (s : X402MeteringService) (maxUnits : Int)
    (metadata : Option Metadata) (probe : Except String Unit) (randomBytes : List (Fin 256))
    (now : Int) (hpos : 0 < maxUnits) :
    (authorize s (some maxUnits) metadata probe randomBytes now).1 =
      .ok { paymentId := _generatePaymentId randomBytes, remaining := maxUnits } ∧
    mapGet (authorize s (some maxUnits) metadata probe randomBytes now).2.payments
        (_generatePaymentId randomBytes) =
      some { remaining := maxUnits, createdAt := now, lastConsumption := none,
             metadata := metadata.getD [] } ∧
    (status (authorize s (some maxUnits) metadata probe randomBytes now).2
        (_generatePaymentId randomBytes)).1 =
      some { paymentId := _generatePaymentId randomBytes, remaining := maxUnits,
             createdAt := now, lastConsumption := none } := by
  have _ := hpos
  rw [authorize_eq]
  have hget : mapGet (mapSet s.payments (_generatePaymentId randomBytes)
      { remaining := maxUnits, createdAt := now, lastConsumption := none,
        metadata := metadata.getD [] }) (_generatePaymentId randomBytes) = some
      { remaining := maxUnits, createdAt := now, lastConsumption := none,
        metadata := metadata.getD [] } := mapGet_mapSet_same _ _ _
  refine ⟨rfl, hget, ?_⟩
  rw [status_of_get _ _ _ hget]

theorem C5_authorize_creates_record_witness :
    (authorize sampleService (some 3) none (.ok ()) (List.replicate 32 9) 500).1 =
      .ok { paymentId := _generatePaymentId (List.replicate 32 9), remaining := 3 } ∧
    mapGet (authorize sampleService (some 3) none (.ok ()) (List.replicate 32 9) 500).2.payments
        (_generatePaymentId (List.replicate 32 9)) =
      some { remaining := 3, createdAt := 500, lastConsumption := none,
             metadata := (none : Option Metadata).getD [] } ∧
    (status (authorize sampleService (some 3) none (.ok ()) (List.replicate 32 9) 500).2
        (_generatePaymentId (List.replicate 32 9))).1 =
      some { paymentId := _generatePaymentId (List.replicate 32 9), remaining := 3,
             createdAt := 500, lastConsumption := none } :=
  C5_authorize_creates_record sampleService 3 none (.ok ()) (List.replicate 32 9) 500
    (by decide)

/-! ## Exhausting a balance one unit at a time -/

theorem consumeSeq_unit_calls (pid : String) (ts : List Int) :
    ∀ (s : X402MeteringService) (rec : PaymentRecord) (K : Nat),
      mapGet s.payments pid = some rec → rec.remaining = (K : Int) → K ≤ 2 ^ 53 →
      K ≤ ts.length →
      (consumeSeq s pid (ts.map fun t => (1, t))).1 =
        (List.range K).map (fun (i : Nat) =>
          (Except.ok { paymentId := pid, remaining := (K : Int) - 1 - (i : Int) } :
            Except String Receipt)) ++
        List.replicate (ts.length - K) (Except.error "insufficient balance") ∧
      ∃ rec', mapGet (consumeSeq s pid (ts.map fun t => (1, t))).2.payments pid = some rec' ∧
        rec'.remaining = 0 := by
  induction ts with
  | nil =>
    intro s rec K hget hK _ hle
    have hK0 : K = 0 := by simpa using hle
    subst hK0
    exact ⟨by simp [consumeSeq], rec, by simpa [consumeSeq] using hget, by simpa using hK⟩
  | cons t rest ih =>
    intro s rec K hget hK hsafe hle
    cases K with
    | zero =>
      have hc := consume_insufficient s pid (some 1) t rec hget (by simp [hK])
      obtain ⟨h1, rec', h2, h3⟩ := ih s rec 0 hget hK (Nat.zero_le _) (Nat.zero_le _)
      refine ⟨?_, rec', ?_, h3⟩
      · simp only [List.map_cons, consumeSeq, hc, h1]
        simp [List.replicate_succ]
      · simpa only [List.map_cons, consumeSeq, hc] using h2
    | succ k =>
      have hle1 : (some (1 : Int)).getD s.unitsPerSwap ≤ rec.remaining := by
        simp only [Option.getD_some, hK]; push_cast; omega
      have hsafe1 : rec.remaining - (some (1 : Int)).getD s.unitsPerSwap ≤ 2 ^ 53 := by
        have hcast : ((k + 1 : Nat) : Int) ≤ ((2 ^ 53 : Nat) : Int) := by exact_mod_cast hsafe
        simp only [Option.getD_some, hK]
        push_cast at hcast ⊢
        omega
      have hc := consume_ok_exact s pid (some 1) t rec hget hle1 hsafe1
      simp only [Option.getD_some] at hc
      obtain ⟨h1, rec', h2, h3⟩ := ih (consume s pid (some 1) t).2
        { rec with remaining := rec.remaining - 1, lastConsumption := some t } k
        (by rw [hc]; exact mapGet_mapSet_same _ _ _)
        (by simp only [hK]; push_cast; omega)
        (by omega)
        (by simpa using hle)
      refine ⟨?_, rec', ?_, h3⟩
      · simp only [List.map_cons, consumeSeq, h1]
        rw [hc, List.range_succ_eq_map]
        simp only [List.map_cons, List.map_map, List.cons_append, List.length_cons,
          Nat.succ_sub_succ_eq_sub, hK]
        congr 1
        · simp
        · congr 1
          apply List.map_congr_left
          intro i _
          simp only [Function.comp, Nat.succ_eq_add_one]
          push_cast
          congr 2
          omega
      · simpa only [List.map_cons, consumeSeq] using h2

/-- In an outcome list of `K` successes followed by failures, the first `K`
outcomes are the successes and the rest are the failures. -/
theorem outcomes_take_drop (K n : Nat) (f : Nat → Except String Receipt)
    (e : Except String Receipt) :
    ((List.range K).map f ++ List.replicate n e).take K = (List.range K).map f ∧
    ((List.range K).map f ++ List.replicate n e).drop K = List.replicate n e := by
  have hlen : ((List.range K).map f).length = K := by simp
  constructor
  · rw [List.take_append_eq_append_take, hlen, Nat.sub_self, List.take_zero, List.append_nil,
      List.take_of_length_le (le_of_eq hlen)]
  · rw [List.drop_append_eq_append_drop, hlen, Nat.sub_self, List.drop_zero,
      List.drop_of_length_le (le_of_eq hlen), List.nil_append]

/-- C6 fails as stated: against the record of `largeService`, granted with
`remaining = K = 2 ^ 53 + 2`, the first `consume(paymentId, 1)` leaves `2 ^ 53`,
the binary64 value of `K - 1`, so only `K - 1` calls succeed: of `N = K + 1` unit
calls the `K`-th already fails with `insufficient balance`. -/
theorem C6_large_balance_counterexample :
    ¬ ∀ (s : X402MeteringService) (pid : String) (rec : PaymentRecord) (K N : Nat)
        (ts : List Int),
        mapGet s.payments pid = some rec → rec.remaining = (K : Int) →
        ts.length = N → K < N →
        (∀ r ∈ (consumeSeq s pid (ts.map fun t => (1, t))).1.take K, ∃ v, r = Except.ok v) ∧
        (∀ r ∈ (consumeSeq s pid (ts.map fun t => (1, t))).1.drop K,
          r = Except.error "insufficient balance") ∧
        (∃ rec', mapGet (consumeSeq s pid (ts.map fun t => (1, t))).2.payments pid
            = some rec' ∧ rec'.remaining = 0) := by
  intro h
  obtain ⟨k, hk⟩ : ∃ k : Nat, k = 2 ^ 53 := ⟨_, rfl⟩
  obtain ⟨rest, hrest⟩ : ∃ rest : List Int, rest.length = k + 2 :=
    ⟨List.replicate (k + 2) 0, List.length_replicate _ _⟩
  have hK : (2 ^ 53 + 2 : Int) = ((k + 2 : Nat) : Int) := by
    rw [hk]; norm_num
  have h1 := (h largeService largeId
    { remaining := 2 ^ 53 + 2, createdAt := 100, lastConsumption := none, metadata := [] }
    (k + 2) (k + 2 + 1) (0 :: rest) (by decide) hK
    (by rw [List.length_cons, hrest]) (Nat.lt_succ_self _)).1
  have hget : mapGet (consume largeService largeId (some 1) 0).2.payments largeId =
      some { remaining := 2 ^ 53, createdAt := 100, lastConsumption := some 0,
             metadata := [] } := by decide
  have htail := (consumeSeq_unit_calls largeId rest (consume largeService largeId (some 1) 0).2
    { remaining := 2 ^ 53, createdAt := 100, lastConsumption := some 0, metadata := [] }
    k hget (by rw [hk]; norm_num) (le_of_eq hk) (by rw [hrest]; omega)).1
  have hmem : (Except.error "insufficient balance" : Except String Receipt) ∈
      ((consumeSeq largeService largeId ((0 :: rest).map fun t => (1, t))).1).take (k + 2) := by
    simp only [List.map_cons, consumeSeq, List.take_succ_cons]
    rw [htail, hrest, List.take_append_eq_append_take]
    simp only [List.length_map, List.length_range, List.mem_cons, List.mem_append]
    right; right
    have h2 : k + 2 - k = 2 := by omega
    have h1 : k + 1 - k = 1 := by omega
    rw [h2, h1]
    simp [List.replicate]
  obtain ⟨v, hv⟩ := h1 _ hmem
  cases hv

/-- C6 (amended): for every `K >= 0` of at most `2 ^ 53` and every `N > K`, `N`
successive `consume(paymentId, 1)` calls against a record with `remaining = K`
give `K` successes first (leaving `K-1`, ..., `0`) and then `N-K`
`insufficient balance` failures; the final `remaining` is 0, both stored and as
reported by `status`. -/
theorem C6_unit_consumes_exhaust_balance (s : X402MeteringService) (pid : String)
    (rec : PaymentRecord) (K N : Nat) (ts : List Int)
    (hknown : mapGet s.payments pid = some rec) (hK : rec.remaining = (K : Int))
    (hsafe : K ≤ 2 ^ 53) (hN : ts.length = N) (hlt : K < N) :
    (consumeSeq s pid (ts.map fun t => (1, t))).1 =
      (List.range K).map (fun (i : Nat) =>
        (Except.ok { paymentId := pid, remaining := (K : Int) - 1 - (i : Int) } :
          Except String Receipt)) ++
      List.replicate (N - K) (Except.error "insufficient balance") ∧
    (∃ rec', mapGet (consumeSeq s pid (ts.map fun t => (1, t))).2.payments pid = some rec' ∧
      rec'.remaining = 0) ∧
    (status (consumeSeq s pid (ts.map fun t => (1, t))).2 pid).1.map StatusView.remaining
      = some 0 := by
  subst hN
  obtain ⟨h1, rec', h2, h3⟩ :=
    consumeSeq_unit_calls pid ts s rec K hknown hK hsafe (le_of_lt hlt)
  refine ⟨h1, ⟨rec', h2, h3⟩, ?_⟩
  rw [status_of_get _ _ rec' h2]
  simpa using h3

theorem C6_unit_consumes_exhaust_balance_witness :
    (consumeSeq sampleService "0xaa" ([201, 202, 203, 204, 205].map fun t => (1, t))).1 =
      (List.range 2).map (fun (i : Nat) =>
        (Except.ok { paymentId := "0xaa", remaining := ((2 : Nat) : Int) - 1 - (i : Int) } :
          Except String Receipt)) ++
      List.replicate (5 - 2) (Except.error "insufficient balance") ∧
    (∃ rec', mapGet (consumeSeq sampleService "0xaa"
        ([201, 202, 203, 204, 205].map fun t => (1, t))).2.payments "0xaa" = some rec' ∧
      rec'.remaining = 0) ∧
    (status (consumeSeq sampleService "0xaa"
        ([201, 202, 203, 204, 205].map fun t => (1, t))).2 "0xaa").1.map StatusView.remaining
      = some 0 :=
  C6_unit_consumes_exhaust_balance sampleService "0xaa"
    { remaining := 2, createdAt := 100, lastConsumption := none, metadata := [] }
    2 5 [201, 202, 203, 204, 205] (by decide) (by decide) (by decide) (by decide) (by decide)

/-! ## Frame properties -/

theorem mapSet_keys_of_get (m : PaymentMap) (k : String) (v v0 : PaymentRecord)
    (h : mapGet m k = some v0) : (mapSet m k v).map Prod.fst = m.map Prod.fst := by
  induction m with
  | nil => simp [mapGet] at h
  | cons hd tl ih =>
    obtain ⟨k1, v1⟩ := hd
    by_cases hk : k1 = k
    · simp [mapSet, hk]
    · simp only [mapGet, hk, if_false] at h
      simp [mapSet, hk, ih h]

theorem step_unitsPerSwap (s : X402MeteringService) (c : Call) :
    (c.step s).unitsPerSwap = s.unitsPerSwap := by
  cases c with
  | authorize maxUnits metadata probe randomBytes now => simp [Call.step, authorize_eq]
  | status paymentId => simp only [Call.step, status]; split <;> rfl
  | consume paymentId units now =>
    simp only [Call.step, consume]
    split
    · rfl
    · split <;> rfl

/-- No call writes `unitsPerSwap`: it keeps the constructor's value 1. -/
theorem runCalls_unitsPerSwap (calls : List Call) :
    ∀ s : X402MeteringService, (runCalls s calls).unitsPerSwap = s.unitsPerSwap := by
  induction calls with
  | nil => intro s; rfl
  | cons c rest ih => intro s; simp only [runCalls]; rw [ih, step_unitsPerSwap]

/-- C7 fails as stated: on the record of `largeService`, granted with
`remaining = 2 ^ 53 + 2`, `consume(paymentId, 1)` returns and stores `remaining = 2 ^ 53`, the binary64
value of the difference, and not `old - units = 2 ^ 53 + 1`. -/
theorem C7_large_balance_counterexample :
    ¬ ∀ (s : X402MeteringService) (pid : String) (rec : PaymentRecord) (units : Int)
        (now : Int),
        s.unitsPerSwap = X402MeteringService.new.unitsPerSwap →
        mapGet s.payments pid = some rec → units ≤ rec.remaining →
        (consume s pid (some units) now).1 =
          .ok { paymentId := pid, remaining := rec.remaining - units } ∧
        mapGet (consume s pid (some units) now).2.payments pid =
          some { remaining := rec.remaining - units, createdAt := rec.createdAt,
                 lastConsumption := some now, metadata := rec.metadata } ∧
        (∀ other, other ≠ pid →
          mapGet (consume s pid (some units) now).2.payments other
            = mapGet s.payments other) ∧
        (consume s pid (some units) now).2.payments.map Prod.fst = s.payments.map Prod.fst ∧
        (consume s pid (some units) now).2.unitsPerSwap = s.unitsPerSwap ∧
        consume s pid none now = consume s pid (some 1) now := by
  intro h
  have h2 := (h largeService largeId
    { remaining := 2 ^ 53 + 2, createdAt := 100, lastConsumption := none, metadata := [] }
    1 300 (by decide) (by decide) (by decide)).2.1
  have heval : mapGet (consume largeService largeId (some 1) 300).2.payments largeId =
      some { remaining := 2 ^ 53, createdAt := 100, lastConsumption := some 300,
             metadata := [] } := by decide
  rw [heval] at h2
  exact absurd h2 (by decide)

/-- C7 (amended): for every ledger held by the service, known `paymentId` and
`units <= remaining` with `old - units` at most `2 ^ 53`,
`consume(paymentId, units)` returns `{paymentId, remaining: old - units}`; the
stored record gets `remaining = old - units` and `lastConsumption = now` and
keeps its `createdAt` and `metadata`; every other key maps to what it mapped to
before and the key order is the same; and a call without `units` behaves as
`units = 1`. -/
theorem C7_consume_success_frame (s : X402MeteringService) (pid : String)
    (rec : PaymentRecord) (units : Int) (now : Int)
    (hctor : s.unitsPerSwap = X402MeteringService.new.unitsPerSwap)
    (hknown : mapGet s.payments pid = some rec) (hle : units ≤ rec.remaining)
    (hsafe : rec.remaining - units ≤ 2 ^ 53) :
    (consume s pid (some units) now).1 =
      .ok { paymentId := pid, remaining := rec.remaining - units } ∧
    mapGet (consume s pid (some units) now).2.payments pid =
      some { remaining := rec.remaining - units, createdAt := rec.createdAt,
             lastConsumption := some now, metadata := rec.metadata } ∧
    (∀ other, other ≠ pid →
      mapGet (consume s pid (some units) now).2.payments other = mapGet s.payments other) ∧
    (consume s pid (some units) now).2.payments.map Prod.fst = s.payments.map Prod.fst ∧
    (consume s pid (some units) now).2.unitsPerSwap = s.unitsPerSwap ∧
    consume s pid none now = consume s pid (some 1) now := by
  have hc := consume_ok_exact s pid (some units) now rec hknown (by simpa using hle)
    (by simpa using hsafe)
  simp only [Option.getD_some] at hc
  rw [hc]
  refine ⟨rfl, mapGet_mapSet_same _ _ _, ?_, mapSet_keys_of_get _ _ _ _ hknown, rfl, ?_⟩
  · intro other hne
    exact mapGet_mapSet_other _ _ _ _ hne
  · simp only [consume, Option.getD_none, Option.getD_some, hctor, X402MeteringService.new]

theorem C7_consume_success_frame_witness :
    (consume sampleService "0xbb" (some 3) 300).1 =
      .ok { paymentId := "0xbb", remaining := 7 - 3 } ∧
    mapGet (consume sampleService "0xbb" (some 3) 300).2.payments "0xbb" =
      some { remaining := 7 - 3, createdAt := 150,
             lastConsumption := some 300, metadata := [("plan", "demo")] } ∧
    (∀ other, other ≠ "0xbb" →
      mapGet (consume sampleService "0xbb" (some 3) 300).2.payments other
        = mapGet sampleService.payments other) ∧
    (consume sampleService "0xbb" (some 3) 300).2.payments.map Prod.fst
      = sampleService.payments.map Prod.fst ∧
    (consume sampleService "0xbb" (some 3) 300).2.unitsPerSwap = sampleService.unitsPerSwap ∧
    consume sampleService "0xbb" none 300 = consume sampleService "0xbb" (some 1) 300 :=
  C7_consume_success_frame sampleService "0xbb"
    { remaining := 7, createdAt := 150, lastConsumption := some 160,
      metadata := [("plan", "demo")] }
    3 300 (by decide) (by decide) (by decide) (by decide)

/-- C8: `status(paymentId)` leaves the service state as it was; it returns
`null` exactly when `paymentId` is not a key of the ledger, and otherwise the
view `{paymentId, remaining, createdAt, lastConsumption}` built from the fields
of the stored record. -/
theorem C8_status_read_only (s : X402MeteringService) (pid : String) :
    (status s pid).2 = s ∧
    ((status s pid).1 = none ↔ pid ∉ s.payments.map Prod.fst) ∧
    (status s pid).1 = (mapGet s.payments pid).map (fun rec =>
      { paymentId := pid, remaining := rec.remaining, createdAt := rec.createdAt,
        lastConsumption := rec.lastConsumption }) := by
  cases hget : mapGet s.payments pid with
  | none =>
    have hkey := (mapGet_eq_none_iff s.payments pid).mp hget
    simp [status, hget, hkey]
  | some rec =>
    have hkey : ¬ pid ∉ s.payments.map Prod.fst := by
      intro h
      rw [(mapGet_eq_none_iff s.payments pid).mpr h] at hget
      exact Option.noConfusion hget
    rw [status_of_get s pid rec hget]
    exact ⟨rfl, ⟨fun h => Option.noConfusion h, fun h => absurd h hkey⟩, rfl⟩

/-- C9: `authorize` issues the payment whatever the facilitator probe does:
for the same `maxUnits`, `metadata`, clock and random bytes, the returned value
and the resulting service state are the same whether the probe resolved or
threw (with any error), and the returned value is the issued receipt. -/
theorem C9_authorize_ignores_probe (s : X402MeteringService) (maxUnits : Option Int)
    (metadata : Option Metadata) (randomBytes : List (Fin 256)) (now : Int) (err : String) :
    authorize s maxUnits metadata (.error err) randomBytes now =
      authorize s maxUnits metadata (.ok ()) randomBytes now ∧
    (authorize s maxUnits metadata (.error err) randomBytes now).1 =
      .ok { paymentId := _generatePaymentId randomBytes, remaining := maxUnits.getD 5 } ∧
    mapGet (authorize s maxUnits metadata (.error err) randomBytes now).2.payments
        (_generatePaymentId randomBytes) =
      some { remaining := maxUnits.getD 5, createdAt := now, lastConsumption := none,
             metadata := metadata.getD [] } := by
  rw [authorize_eq, authorize_eq]
  exact ⟨rfl, rfl, mapGet_mapSet_same _ _ _⟩

/-! ## Payment identifiers -/

theorem hexValue_hexDigit (n : Nat) (h : n < 16) : hexValue (hexDigit n) = n := by
  interval_cases n <;> rfl

theorem hexDigit_mem (n : Nat) (h : n < 16) : hexDigit n ∈ "0123456789abcdef".data := by
  interval_cases n <;> decide

theorem toHex_length (bytes : List (Fin 256)) : (toHex bytes).length = 2 * bytes.length := by
  induction bytes with
  | nil => rfl
  | cons b rest ih => simp only [toHex, hexByte, List.length_append, List.length_cons,
      List.length_nil, ih]; omega

theorem toHex_digits (bytes : List (Fin 256)) :
    ∀ c ∈ toHex bytes, c ∈ "0123456789abcdef".data := by
  induction bytes with
  | nil => intro c hc; simp [toHex] at hc
  | cons b rest ih =>
    intro c hc
    simp only [toHex, hexByte, List.cons_append, List.nil_append, List.mem_cons] at hc
    rcases hc with hc | hc | hc
    · rw [hc]; exact hexDigit_mem _ (by omega)
    · rw [hc]; exact hexDigit_mem _ (by omega)
    · exact ih c hc

theorem decodeHex_toHex (bytes : List (Fin 256)) :
    decodeHex (toHex bytes) = bytes.map Fin.val := by
  induction bytes with
  | nil => rfl
  | cons b rest ih =>
    simp only [toHex, hexByte, List.cons_append, List.nil_append, decodeHex, ih, List.map_cons]
    rw [hexValue_hexDigit _ (by omega), hexValue_hexDigit _ (by omega)]
    congr 1
    omega

theorem _generatePaymentId_data (bytes : List (Fin 256)) :
    (_generatePaymentId bytes).data = '0' :: 'x' :: toHex bytes := by
  simp [_generatePaymentId, String.data_append]

/-- C10: for every 32-byte random value, `_generatePaymentId` yields a token of
fixed length 66: the prefix `0x` followed by exactly 64 digits, each one of
`0123456789abcdef`, which read back two per byte give the random bytes; two
different 32-byte random values give two different identifiers. -/
theorem C10_paymentId_fixed_width_injective (bytes : List (Fin 256))
    (hlen : bytes.length = 32) :
    (_generatePaymentId bytes).data.take 2 = ['0', 'x'] ∧
    (_generatePaymentId bytes).length = 66 ∧
    ((_generatePaymentId bytes).data.drop 2).length = 64 ∧
    (∀ c ∈ (_generatePaymentId bytes).data.drop 2, c ∈ "0123456789abcdef".data) ∧
    decodeHex ((_generatePaymentId bytes).data.drop 2) = bytes.map Fin.val ∧
    (∀ other : List (Fin 256), other.length = 32 → other ≠ bytes →
      _generatePaymentId other ≠ _generatePaymentId bytes) := by
  have hdata := _generatePaymentId_data bytes
  have hdrop : (_generatePaymentId bytes).data.drop 2 = toHex bytes := by rw [hdata]; rfl
  refine ⟨by rw [hdata]; rfl, ?_, ?_, ?_, ?_, ?_⟩
  · rw [String.length, hdata]
    simp only [List.length_cons, toHex_length, hlen]
  · rw [hdrop, toHex_length, hlen]
  · rw [hdrop]; exact toHex_digits bytes
  · rw [hdrop]; exact decodeHex_toHex bytes
  · intro other _ hne heq
    apply hne
    have h1 : (_generatePaymentId other).data = (_generatePaymentId bytes).data := by rw [heq]
    rw [_generatePaymentId_data, _generatePaymentId_data] at h1
    have h2 : toHex other = toHex bytes := by
      injection h1 with _ h1
      injection h1
    have h3 := congrArg decodeHex h2
    rw [decodeHex_toHex, decodeHex_toHex] at h3
    exact List.map_injective_iff.mpr Fin.val_injective h3

theorem C10_paymentId_fixed_width_injective_witness :
    (_generatePaymentId (List.replicate 32 171)).data.take 2 = ['0', 'x'] ∧
    (_generatePaymentId (List.replicate 32 171)).length = 66 ∧
    ((_generatePaymentId (List.replicate 32 171)).data.drop 2).length = 64 ∧
    (∀ c ∈ (_generatePaymentId (List.replicate 32 171)).data.drop 2,
      c ∈ "0123456789abcdef".data) ∧
    decodeHex ((_generatePaymentId (List.replicate 32 171)).data.drop 2)
      = (List.replicate 32 (171 : Fin 256)).map Fin.val ∧
    (∀ other : List (Fin 256), other.length = 32 → other ≠ List.replicate 32 171 →
      _generatePaymentId other ≠ _generatePaymentId (List.replicate 32 171)) :=
  C10_paymentId_fixed_width_injective (List.replicate 32 171) (by decide)

end X402Metering

namespace PriceFeed

/-! ## Table lemmas -/

theorem tableGet_tableSet_same {α : Type} (t : Table α) (k : String) (v : α) :
    tableGet (tableSet t k v) k = some v := by
  induction t with
  | nil => simp [tableSet, tableGet]
  | cons hd tl ih =>
    obtain ⟨k0, v0⟩ := hd
    by_cases h : k0 = k
    · simp [tableSet, tableGet, h]
    · simp [tableSet, tableGet, h, ih]

theorem tableGet_tableSet_other {α : Type} (t : Table α) (k k' : String) (v : α)
    (hne : k' ≠ k) : tableGet (tableSet t k v) k' = tableGet t k' := by
  induction t with
  | nil => simp [tableSet, tableGet, Ne.symm hne]
  | cons hd tl ih =>
    obtain ⟨k0, v0⟩ := hd
    by_cases h : k0 = k
    · subst h
      simp [tableSet, tableGet, Ne.symm hne]
    · by_cases h2 : k0 = k'
      · subst h2
        simp [tableSet, tableGet, h]
      · simp [tableSet, tableGet, h, h2, ih]

theorem tableGet_eq_none_iff {α : Type} (t : Table α) (k : String) :
    tableGet t k = none ↔ k ∉ tableKeys t := by
  induction t with
  | nil => simp [tableGet, tableKeys]
  | cons hd tl ih =>
    obtain ⟨k0, v0⟩ := hd
    by_cases h : k0 = k
    · simp [tableGet, tableKeys, h]
    · simp only [tableKeys] at ih
      simp [tableGet, tableKeys, h, ih, Ne.symm h]

theorem mem_tableKeys_tableSet {α : Type} (t : Table α) (k : String) (v : α) (x : String) :
    x ∈ tableKeys (tableSet t k v) ↔ x ∈ tableKeys t ∨ x = k := by
  induction t with
  | nil => simp [tableSet, tableKeys]
  | cons hd tl ih =>
    obtain ⟨k0, v0⟩ := hd
    by_cases h : k0 = k
    · subst h
      simp only [tableSet, if_true, tableKeys, List.map_cons, List.mem_cons]
      tauto
    · simp only [tableKeys] at ih
      simp only [tableSet, h, if_false, tableKeys, List.map_cons, List.mem_cons, ih]
      tauto

theorem tableKeys_tableSet_of_get {α : Type} (t : Table α) (k : String) (v v0 : α)
    (h : tableGet t k = some v0) : tableKeys (tableSet t k v) = tableKeys t := by
  induction t with
  | nil => simp [tableGet] at h
  | cons hd tl ih =>
    obtain ⟨k1, v1⟩ := hd
    by_cases hk : k1 = k
    · simp [tableSet, tableKeys, hk]
    · simp only [tableGet, hk, if_false] at h
      simp only [tableKeys] at ih
      simp [tableSet, tableKeys, hk, ih h]

theorem tableGet_of_mem_nodup {α : Type} (t : Table α) (k : String) (v : α)
    (hnd : (tableKeys t).Nodup) (hmem : (k, v) ∈ t) : tableGet t k = some v := by
  induction t with
  | nil => simp at hmem
  | cons hd tl ih =>
    obtain ⟨k0, v0⟩ := hd
    simp only [tableKeys, List.map_cons, List.nodup_cons] at hnd
    simp only [List.mem_cons, Prod.mk.injEq] at hmem
    rcases hmem with ⟨h1, h2⟩ | hmem
    · simp [tableGet, h1, h2]
    · have hk : k0 ≠ k := by
        intro h
        apply hnd.1
        rw [h]
        exact List.mem_map.mpr ⟨(k, v), hmem, rfl⟩
      simp only [tableGet, hk, if_false]
      exact ih hnd.2 hmem

theorem ASSETS_keys_nodup : (tableKeys ASSETS).Nodup := by decide

/-! ## The search for an asset's entry -/

/-- When the search completes, it returns the first entry with a matching string
id. -/
theorem findEntry_eq_firstMatch {V : Type} (entries : List (FeedEntry V)) (metaId : String)
    (c : Option (FeedEntry V)) (h : findEntry entries metaId = .ok c) :
    c = firstMatch entries metaId := by
  induction entries with
  | nil =>
    simp only [findEntry, Except.ok.injEq] at h
    rw [← h]; rfl
  | cons p rest ih =>
    simp only [findEntry, matchesId, firstMatch] at h ⊢
    cases hid : p.id with
    | missing =>
      rw [hid] at h
      exact ih h
    | other =>
      rw [hid] at h
      cases h
    | text i =>
      rw [hid] at h
      simp only at h ⊢
      by_cases hm : toLowerCase i = toLowerCase metaId
      · simp only [hm, decide_True, Except.ok.injEq] at h
        simp only [hm, if_true]
        exact h.symm
      · simp only [hm, decide_False] at h
        simp only [hm, if_false]
        exact ih h

/-- On an array whose ids are all strings or missing the search completes. -/
theorem findEntry_of_string_ids {V : Type} (entries : List (FeedEntry V)) (metaId : String)
    (hwell : ∀ p ∈ entries, p.id ≠ .other) :
    findEntry entries metaId = .ok (firstMatch entries metaId) := by
  induction entries with
  | nil => rfl
  | cons p rest ih =>
    have hp : p.id ≠ .other := hwell p (by simp)
    have hrest := ih (fun q hq => hwell q (by simp [hq]))
    simp only [findEntry, matchesId, firstMatch]
    cases hid : p.id with
    | missing => exact hrest
    | other => exact absurd hid hp
    | text i =>
      simp only
      by_cases hm : toLowerCase i = toLowerCase metaId
      · simp only [hm, decide_True, if_true]
      · simp only [hm, decide_False, if_false]
        exact hrest

theorem firstMatch_isSome_iff {V : Type} (entries : List (FeedEntry V)) (metaId : String) :
    (firstMatch entries metaId).isSome ↔
      ∃ p ∈ entries, ∃ i, p.id = .text i ∧ toLowerCase i = toLowerCase metaId := by
  induction entries with
  | nil => simp [firstMatch]
  | cons p rest ih =>
    simp only [firstMatch, List.mem_cons, exists_eq_or_imp]
    cases hid : p.id with
    | missing => simp [ih]
    | other => simp [ih]
    | text i =>
      simp only
      by_cases hm : toLowerCase i = toLowerCase metaId
      · simp [hm]
      · simp [hm, ih]

/-- A completed search finds an entry exactly when the response has an entry
whose id is a string equal to the feed id in lower case. -/
theorem findCandidate_found_iff {V : Type} (entries : List (FeedEntry V)) (metaId : String)
    (c : Option (FeedEntry V)) (h : findCandidate (.array entries) metaId = .ok c) :
    (∃ cand, findCandidate (.array entries) metaId = .ok (some cand)) ↔
      ∃ p ∈ entries, ∃ i, p.id = .text i ∧ toLowerCase i = toLowerCase metaId := by
  have hc : c = firstMatch entries metaId := findEntry_eq_firstMatch entries metaId c h
  rw [← firstMatch_isSome_iff, ← hc, h]
  cases c with
  | none => simp
  | some cand => simp

theorem searchCompletes_iff {V : Type} (parsed : Parsed V) :
    searchCompletes parsed = true ↔
      ∀ key assetMeta, (key, assetMeta) ∈ ASSETS →
        ∃ c, findCandidate parsed assetMeta.id = .ok c := by
  simp only [searchCompletes, List.all_eq_true]
  constructor
  · intro h key assetMeta hmem
    have h1 := h (key, assetMeta) hmem
    simp only at h1
    cases hc : findCandidate parsed assetMeta.id with
    | ok c => exact ⟨c, rfl⟩
    | error e => rw [hc] at h1; cases h1
  · intro h a ha
    obtain ⟨c, hc⟩ := h a.1 a.2 ha
    simp only [hc]

/-- Every response that is an array whose ids are strings or missing lets the
search complete for every asset. -/
theorem searchCompletes_of_string_ids {V : Type} (entries : List (FeedEntry V))
    (hwell : ∀ p ∈ entries, p.id ≠ .other) :
    searchCompletes (.array entries : Parsed V) = true := by
  rw [searchCompletes_iff]
  intro key assetMeta _
  exact ⟨_, findEntry_of_string_ids entries assetMeta.id hwell⟩

/-! ## The merge loop of `updateAll` -/

theorem mergeAssets_cons {V F : Type} (ops : NumberOps V F) (parsed : Parsed V)
    (clock : String → Int) (key : String) (assetMeta : AssetMeta) (rest : Table AssetMeta)
    (t : Table (PriceEntry F)) :
    mergeAssets ops parsed clock ((key, assetMeta) :: rest) t =
      match findCandidate parsed assetMeta.id with
      | .error e => .error e
      | .ok _ =>
        mergeAssets ops parsed clock rest
          (match assetUpdate ops parsed clock key assetMeta with
           | some e => tableSet t key e
           | none => t) := by
  simp only [mergeAssets, assetUpdate, freshEntry]
  cases findCandidate parsed assetMeta.id with
  | error e => rfl
  | ok c =>
    cases c with
    | none => rfl
    | some candidate =>
      simp only
      cases _parseOne ops candidate (clock key) <;> rfl

/-- The merge loop runs to its end exactly when every search completes. -/
theorem mergeAssets_ok_iff {V F : Type} (ops : NumberOps V F) (parsed : Parsed V)
    (clock : String → Int) (assets : Table AssetMeta) :
    ∀ t : Table (PriceEntry F),
      (∃ merged, mergeAssets ops parsed clock assets t = .ok merged) ↔
        ∀ key assetMeta, (key, assetMeta) ∈ assets →
          ∃ c, findCandidate parsed assetMeta.id = .ok c := by
  induction assets with
  | nil =>
    intro t
    constructor
    · intro _ key assetMeta hmem
      simp at hmem
    · intro _
      exact ⟨t, rfl⟩
  | cons hd rest ih =>
    obtain ⟨key, assetMeta⟩ := hd
    intro t
    rw [mergeAssets_cons]
    cases hc : findCandidate parsed assetMeta.id with
    | error e =>
      simp only
      constructor
      · rintro ⟨merged, hm⟩
        cases hm
      · intro h
        obtain ⟨c, hc2⟩ := h key assetMeta (by simp)
        rw [hc] at hc2
        cases hc2
    | ok c =>
      simp only
      rw [ih]
      constructor
      · intro h k m hm
        simp only [List.mem_cons, Prod.mk.injEq] at hm
        rcases hm with ⟨_, rfl⟩ | hm
        · exact ⟨c, hc⟩
        · exact h k m hm
      · intro h k m hm
        exact h k m (by simp [hm])

/-- The merge loop throws exactly when some search throws. -/
theorem mergeAssets_ok_of_search {V F : Type} (ops : NumberOps V F) (parsed : Parsed V)
    (clock : String → Int) (t : Table (PriceEntry F)) (h : searchCompletes parsed = true) :
    ∃ merged, mergeAssets ops parsed clock ASSETS t = .ok merged :=
  (mergeAssets_ok_iff ops parsed clock ASSETS t).mpr ((searchCompletes_iff parsed).mp h)

theorem searchCompletes_of_merge {V F : Type} (ops : NumberOps V F) (parsed : Parsed V)
    (clock : String → Int) (t merged : Table (PriceEntry F))
    (h : mergeAssets ops parsed clock ASSETS t = .ok merged) :
    searchCompletes parsed = true :=
  (searchCompletes_iff parsed).mpr ((mergeAssets_ok_iff ops parsed clock ASSETS t).mp ⟨merged, h⟩)

/-- What a completed merge loop leaves under each key: the entry written for the
asset of that key when one is written, otherwise what the table held before. -/
theorem tableGet_mergeAssets {V F : Type} (ops : NumberOps V F) (parsed : Parsed V)
    (clock : String → Int) (assets : Table AssetMeta) :
    ∀ (t merged : Table (PriceEntry F)) (k : String), (tableKeys assets).Nodup →
      mergeAssets ops parsed clock assets t = .ok merged →
      tableGet merged k =
        match tableGet assets k with
        | some assetMeta =>
          (match assetUpdate ops parsed clock k assetMeta with
           | some e => some e
           | none => tableGet t k)
        | none => tableGet t k := by
  induction assets with
  | nil =>
    intro t merged k _ hm
    simp only [mergeAssets, Except.ok.injEq] at hm
    simp [tableGet, hm]
  | cons hd rest ih =>
    obtain ⟨key, assetMeta⟩ := hd
    intro t merged k hnd hm
    simp only [tableKeys, List.map_cons, List.nodup_cons] at hnd
    rw [mergeAssets_cons] at hm
    cases hc : findCandidate parsed assetMeta.id with
    | error e => rw [hc] at hm; cases hm
    | ok c =>
      rw [hc] at hm
      simp only at hm
      rw [ih _ merged k hnd.2 hm]
      by_cases hk : key = k
      · subst hk
        have hnone : tableGet rest key = none := (tableGet_eq_none_iff rest key).mpr hnd.1
        simp only [hnone, tableGet, if_true]
        cases assetUpdate ops parsed clock key assetMeta with
        | none => rfl
        | some e => exact tableGet_tableSet_same _ _ _
      · have hget :
            tableGet (match assetUpdate ops parsed clock key assetMeta with
              | some e => tableSet t key e
              | none => t) k = tableGet t k := by
          cases assetUpdate ops parsed clock key assetMeta with
          | none => rfl
          | some e => exact tableGet_tableSet_other _ _ _ _ (Ne.symm hk)
        simp only [tableGet, hk, if_false, hget]

theorem tableKeys_mergeAssets_mono {V F : Type} (ops : NumberOps V F)
    (parsed : Parsed V) (clock : String → Int) (assets : Table AssetMeta) :
    ∀ (t merged : Table (PriceEntry F)) (x : String),
      mergeAssets ops parsed clock assets t = .ok merged → x ∈ tableKeys t →
      x ∈ tableKeys merged := by
  induction assets with
  | nil =>
    intro t merged x hm hx
    simp only [mergeAssets, Except.ok.injEq] at hm
    rw [← hm]; exact hx
  | cons hd rest ih =>
    obtain ⟨key, assetMeta⟩ := hd
    intro t merged x hm hx
    rw [mergeAssets_cons] at hm
    cases hc : findCandidate parsed assetMeta.id with
    | error e => rw [hc] at hm; cases hm
    | ok c =>
      rw [hc] at hm
      simp only at hm
      apply ih _ merged x hm
      cases assetUpdate ops parsed clock key assetMeta with
      | none => exact hx
      | some e => exact (mem_tableKeys_tableSet t key e x).mpr (Or.inl hx)

theorem tableKeys_mergeAssets_sub {V F : Type} (ops : NumberOps V F)
    (parsed : Parsed V) (clock : String → Int) (assets : Table AssetMeta) :
    ∀ (t merged : Table (PriceEntry F)) (x : String),
      mergeAssets ops parsed clock assets t = .ok merged → x ∈ tableKeys merged →
      x ∈ tableKeys t ∨ x ∈ tableKeys assets := by
  induction assets with
  | nil =>
    intro t merged x hm hx
    simp only [mergeAssets, Except.ok.injEq] at hm
    left; rw [hm]; exact hx
  | cons hd rest ih =>
    obtain ⟨key, assetMeta⟩ := hd
    intro t merged x hm hx
    rw [mergeAssets_cons] at hm
    cases hc : findCandidate parsed assetMeta.id with
    | error e => rw [hc] at hm; cases hm
    | ok c =>
      rw [hc] at hm
      simp only at hm
      rcases ih _ merged x hm hx with h | h
      · cases hu : assetUpdate ops parsed clock key assetMeta with
        | none => rw [hu] at h; exact Or.inl h
        | some e =>
          rw [hu] at h
          rcases (mem_tableKeys_tableSet t key e x).mp h with h | h
          · exact Or.inl h
          · right; simp [tableKeys, h]
      · right
        simp only [tableKeys, List.map_cons, List.mem_cons]
        exact Or.inr h

/-! ## `updateAll` -/

theorem updateAll_of_fetch_error {V F : Type} (ops : NumberOps V F) (s : PriceFeedService F)
    (net : FetchResult V) (nowIso : String) (clock : String → Int) (e : String)
    (h : fetchBatch (ASSETS.map (fun a => a.2.id)) net = .error e) :
    updateAll ops s net nowIso clock = (.ok (), s) := by
  simp only [updateAll, h]

/-- When the merge loop throws, `updateAll` rejects with that error and the
state is as before. -/
theorem updateAll_of_merge_error {V F : Type} (ops : NumberOps V F) (s : PriceFeedService F)
    (net : FetchResult V) (nowIso : String) (clock : String → Int) (parsed : Parsed V)
    (e : String) (h : fetchBatch (ASSETS.map (fun a => a.2.id)) net = .ok parsed)
    (hm : mergeAssets ops parsed clock ASSETS s.prices = .error e) :
    updateAll ops s net nowIso clock = (.error e, s) := by
  simp only [updateAll, h, hm]

theorem updateAll_of_merge_ok {V F : Type} (ops : NumberOps V F) (s : PriceFeedService F)
    (net : FetchResult V) (nowIso : String) (clock : String → Int) (parsed : Parsed V)
    (merged : Table (PriceEntry F))
    (h : fetchBatch (ASSETS.map (fun a => a.2.id)) net = .ok parsed)
    (hm : mergeAssets ops parsed clock ASSETS s.prices = .ok merged) :
    (merged = [] → updateAll ops s net nowIso clock = (.ok (), s)) ∧
    (merged ≠ [] →
      updateAll ops s net nowIso clock =
        (.ok (), { s with prices := merged, lastUpdate := some nowIso })) := by
  simp only [updateAll, h, hm, tableKeys]
  constructor
  · intro he
    rw [if_pos (by rw [he]; rfl)]
  · intro hne
    rw [if_neg (by simpa using hne)]

/-- After a successful fetch and a completed merge the table reads, key by key,
as the result of the merge loop (also when the early return keeps the empty
table). -/
theorem updateAll_prices_get {V F : Type} (ops : NumberOps V F) (s : PriceFeedService F)
    (net : FetchResult V) (nowIso : String) (clock : String → Int)
    (parsed : Parsed V) (merged : Table (PriceEntry F))
    (h : fetchBatch (ASSETS.map (fun a => a.2.id)) net = .ok parsed)
    (hm : mergeAssets ops parsed clock ASSETS s.prices = .ok merged) (k : String) :
    tableGet (updateAll ops s net nowIso clock).2.prices k = tableGet merged k := by
  by_cases he : merged = []
  · rw [(updateAll_of_merge_ok ops s net nowIso clock parsed merged h hm).1 he]
    have h1 : tableGet merged k = none := by rw [he]; rfl
    have h2 : tableGet s.prices k = none := by
      rw [tableGet_eq_none_iff]
      intro hk
      have := tableKeys_mergeAssets_mono ops parsed clock ASSETS s.prices merged k hm hk
      rw [he] at this
      simp [tableKeys] at this
    rw [h1, h2]
  · rw [(updateAll_of_merge_ok ops s net nowIso clock parsed merged h hm).2 he]

/-- The promise of `updateAll` fulfils unless the merge loop throws. -/
theorem updateAll_returns {V F : Type} (ops : NumberOps V F) (s : PriceFeedService F)
    (net : FetchResult V) (nowIso : String) (clock : String → Int)
    (h : ∀ parsed, fetchBatch (ASSETS.map (fun a => a.2.id)) net = .ok parsed →
      searchCompletes parsed = true) :
    (updateAll ops s net nowIso clock).1 = .ok () := by
  cases hf : fetchBatch (ASSETS.map (fun a => a.2.id)) net with
  | error e => rw [updateAll_of_fetch_error ops s net nowIso clock e hf]
  | ok parsed =>
    obtain ⟨merged, hm⟩ := mergeAssets_ok_of_search ops parsed clock s.prices (h parsed hf)
    by_cases he : merged = []
    · rw [(updateAll_of_merge_ok ops s net nowIso clock parsed merged hf hm).1 he]
    · rw [(updateAll_of_merge_ok ops s net nowIso clock parsed merged hf hm).2 he]

theorem assetUpdate_of_parsed {V F : Type} (ops : NumberOps V F) (parsed : Parsed V)
    (clock : String → Int) (key : String) (assetMeta : AssetMeta) (cand : FeedEntry V)
    (pe : ParsedEntry F) (hc : findCandidate parsed assetMeta.id = .ok (some cand))
    (hp : _parseOne ops cand (clock key) = .ok pe) :
    assetUpdate ops parsed clock key assetMeta = some (freshEntry assetMeta pe) := by
  simp only [assetUpdate, hc, hp]

theorem assetUpdate_of_failed {V F : Type} (ops : NumberOps V F) (parsed : Parsed V)
    (clock : String → Int) (key : String) (assetMeta : AssetMeta) (cand : FeedEntry V)
    (err : String) (hc : findCandidate parsed assetMeta.id = .ok (some cand))
    (hp : _parseOne ops cand (clock key) = .error err) :
    assetUpdate ops parsed clock key assetMeta = (none : Option (PriceEntry F)) := by
  simp only [assetUpdate, hc, hp]

theorem assetUpdate_of_missing {V F : Type} (ops : NumberOps V F) (parsed : Parsed V)
    (clock : String → Int) (key : String) (assetMeta : AssetMeta)
    (hc : findCandidate parsed assetMeta.id = .ok none) :
    assetUpdate ops parsed clock key assetMeta = (none : Option (PriceEntry F)) := by
  simp only [assetUpdate, hc]

/-- After a successful fetch and a completed merge, the entry of a configured
asset is the one written for it, or its previous one when none is written. -/
theorem updateAll_get_asset {V F : Type} (ops : NumberOps V F) (s : PriceFeedService F)
    (net : FetchResult V) (nowIso : String) (clock : String → Int)
    (parsed : Parsed V)
    (h : fetchBatch (ASSETS.map (fun a => a.2.id)) net = .ok parsed)
    (hsearch : searchCompletes parsed = true)
    (key : String) (assetMeta : AssetMeta) (hmem : (key, assetMeta) ∈ ASSETS) :
    tableGet (updateAll ops s net nowIso clock).2.prices key =
      match assetUpdate ops parsed clock key assetMeta with
      | some e => some e
      | none => tableGet s.prices key := by
  obtain ⟨merged, hm⟩ := mergeAssets_ok_of_search ops parsed clock s.prices hsearch
  rw [updateAll_prices_get ops s net nowIso clock parsed merged h hm key,
    tableGet_mergeAssets ops parsed clock ASSETS s.prices merged key ASSETS_keys_nodup hm,
    tableGet_of_mem_nodup ASSETS key assetMeta ASSETS_keys_nodup hmem]

/-- C12 fails as stated: the response `[{ id: 123 }, USDC entry]` is fetched
successfully and its USDC entry parses, but the search for the first asset calls
`toLowerCase` on the number 123 and throws outside the `try` block, so
`updateAll` rejects and a fresh service still holds no USDC entry. -/
theorem C12_numeric_id_counterexample :
    ¬ ∀ (s : PriceFeedService String) (net : FetchResult String) (nowIso : String)
        (clock : String → Int) (parsed : List (FeedEntry String)) (key : String)
        (assetMeta : AssetMeta) (cand : FeedEntry String) (pe : ParsedEntry String),
        fetchBatch (ASSETS.map (fun a => a.2.id)) net = .ok (.array parsed) →
        (key, assetMeta) ∈ ASSETS →
        firstMatch parsed assetMeta.id = some cand →
        _parseOne symbolicOps cand (clock key) = .ok pe →
        tableGet (updateAll symbolicOps s net nowIso clock).2.prices key =
          some { symbol := assetMeta.symbol, feed_id := assetMeta.id,
                 rawPrice := pe.rawPrice, expo := pe.expo, price := pe.price,
                 confidence := pe.confidence, timestamp := pe.timestamp, stale := false } := by
  intro h
  have h1 := h (PriceFeedService.new String (some 15)) (netOf numericIdBatch)
    "2023-11-14T22:14:10.000Z" sampleClock numericIdBatch "usd-coin"
    { id := "eaa020c61cc479712813461ce153894a96a6c00b21ed0cfc2798d1f9a9e9c94a",
      symbol := "USDC" }
    usdcQuote
    { rawPrice := "Number(99995000)", expo := "Number(-8)",
      price := "Number((Number(99995000) * Math.pow(10, Number(-8))).toFixed(6))",
      confidence := "Number((Number(12000) * Math.pow(10, Number(-8))).toFixed(6))",
      timestamp := 1700000000 }
    rfl (by decide) (by decide) rfl
  have heval : tableGet (updateAll symbolicOps (PriceFeedService.new String (some 15))
      (netOf numericIdBatch) "2023-11-14T22:14:10.000Z" sampleClock).2.prices "usd-coin"
      = none := by decide
  rw [heval] at h1
  cases h1

/-- C12 (amended): for every prior price table and every successfully fetched
batch response on which the id search completes for every configured asset (as
it does on every array whose entries have a string id or none), after
`updateAll` each configured asset whose feed id occurs in the response
(compared after `toLowerCase`) and whose entry (the first one with that id)
parses holds the newly built entry, and every other configured asset, with no
matching entry or with one that fails to parse, holds exactly what it held
before (nothing, if it had no entry); keys outside `ASSETS` are untouched. -/
theorem C12_updateAll_merges_by_asset {V F : Type} (ops : NumberOps V F)
    (s : PriceFeedService F) (net : FetchResult V) (nowIso : String) (clock : String → Int)
    (parsed : List (FeedEntry V))
    (hfetch : fetchBatch (ASSETS.map (fun a => a.2.id)) net = .ok (.array parsed))
    (hsearch : searchCompletes (.array parsed : Parsed V) = true) :
    (∀ key assetMeta, (key, assetMeta) ∈ ASSETS →
      ((∃ cand, findCandidate (.array parsed) assetMeta.id = .ok (some cand)) ↔
        ∃ p ∈ parsed, ∃ i, p.id = .text i ∧ toLowerCase i = toLowerCase assetMeta.id) ∧
      (∀ cand pe, findCandidate (.array parsed) assetMeta.id = .ok (some cand) →
        _parseOne ops cand (clock key) = .ok pe →
        tableGet (updateAll ops s net nowIso clock).2.prices key =
          some { symbol := assetMeta.symbol, feed_id := assetMeta.id,
                 rawPrice := pe.rawPrice, expo := pe.expo, price := pe.price,
                 confidence := pe.confidence, timestamp := pe.timestamp, stale := false }) ∧
      (findCandidate (.array parsed) assetMeta.id = .ok none →
        tableGet (updateAll ops s net nowIso clock).2.prices key = tableGet s.prices key) ∧
      (∀ cand err, findCandidate (.array parsed) assetMeta.id = .ok (some cand) →
        _parseOne ops cand (clock key) = .error err →
        tableGet (updateAll ops s net nowIso clock).2.prices key = tableGet s.prices key)) ∧
    (∀ key, key ∉ tableKeys ASSETS →
      tableGet (updateAll ops s net nowIso clock).2.prices key = tableGet s.prices key) := by
  refine ⟨?_, ?_⟩
  · intro key assetMeta hmem
    have hget := updateAll_get_asset ops s net nowIso clock (.array parsed) hfetch hsearch
      key assetMeta hmem
    obtain ⟨c, hc⟩ := (searchCompletes_iff (.array parsed)).mp hsearch key assetMeta hmem
    refine ⟨findCandidate_found_iff parsed assetMeta.id c hc, ?_, ?_, ?_⟩
    · intro cand pe hc hp
      rw [hget, assetUpdate_of_parsed ops (.array parsed) clock key assetMeta cand pe hc hp]
      rfl
    · intro hc
      rw [hget, assetUpdate_of_missing ops (.array parsed) clock key assetMeta hc]
    · intro cand err hc hp
      rw [hget, assetUpdate_of_failed ops (.array parsed) clock key assetMeta cand err hc hp]
  · intro key hkey
    obtain ⟨merged, hm⟩ :=
      mergeAssets_ok_of_search ops (.array parsed) clock s.prices hsearch
    rw [updateAll_prices_get ops s net nowIso clock (.array parsed) merged hfetch hm key,
      tableGet_mergeAssets ops (.array parsed) clock ASSETS s.prices merged key
        ASSETS_keys_nodup hm,
      (tableGet_eq_none_iff ASSETS key).mpr hkey]

/-- C13: for every prior state of the price service, when the batch fetch fails
(the request rejects on a network error or on the timeout abort, the response
has a non-success status, or its body does not decode), `updateAll` completes
without throwing and leaves the whole state, `prices` and `lastUpdate` included,
as it was. -/
theorem C13_updateAll_fetch_failure_keeps_state {V F : Type} (ops : NumberOps V F)
    (s : PriceFeedService F) (nowIso : String) (clock : String → Int) :
    (∀ message, updateAll ops s (.rejected message : FetchResult V) nowIso clock
      = (.ok (), s)) ∧
    (∀ status body, updateAll ops s (.response false status body : FetchResult V) nowIso clock
      = (.ok (), s)) ∧
    (∀ status err, updateAll ops s (.response true status (.error err) : FetchResult V)
      nowIso clock = (.ok (), s)) ∧
    (∀ (net : FetchResult V) err, fetchBatch (ASSETS.map (fun a => a.2.id)) net = .error err →
      (updateAll ops s net nowIso clock).1 = .ok () ∧
      (updateAll ops s net nowIso clock).2.prices = s.prices ∧
      (updateAll ops s net nowIso clock).2.lastUpdate = s.lastUpdate) := by
  refine ⟨?_, ?_, ?_, ?_⟩
  · intro message
    exact updateAll_of_fetch_error ops s _ nowIso clock message rfl
  · intro status body
    exact updateAll_of_fetch_error ops s _ nowIso clock ("HTTP " ++ toString status) rfl
  · intro status err
    exact updateAll_of_fetch_error ops s _ nowIso clock err rfl
  · intro net err h
    rw [updateAll_of_fetch_error ops s net nowIso clock err h]
    exact ⟨rfl, rfl, rfl⟩

theorem C12_updateAll_merges_by_asset_witness :
    fetchBatch (ASSETS.map (fun a => a.2.id)) sampleNet = .ok (.array sampleBatch) ∧
    searchCompletes (.array sampleBatch : Parsed String) = true ∧
    tableGet (updateAll symbolicOps sampleFeed sampleNet "2023-11-14T22:14:10.000Z"
        sampleClock).2.prices "usd-coin" =
      some { symbol := "USDC",
             feed_id := "eaa020c61cc479712813461ce153894a96a6c00b21ed0cfc2798d1f9a9e9c94a",
             rawPrice := "Number(99995000)", expo := "Number(-8)",
             price := "Number((Number(99995000) * Math.pow(10, Number(-8))).toFixed(6))",
             confidence := "Number((Number(12000) * Math.pow(10, Number(-8))).toFixed(6))",
             timestamp := 1700000000, stale := false } ∧
    tableGet (updateAll symbolicOps sampleFeed sampleNet "2023-11-14T22:14:10.000Z"
        sampleClock).2.prices "tether" = tableGet sampleFeed.prices "tether" ∧
    tableGet (updateAll symbolicOps sampleFeed sampleNet "2023-11-14T22:14:10.000Z"
        sampleClock).2.prices "dai" = tableGet sampleFeed.prices "dai" :=
  have h := C12_updateAll_merges_by_asset symbolicOps sampleFeed sampleNet
    "2023-11-14T22:14:10.000Z" sampleClock sampleBatch rfl (by decide)
  ⟨rfl, by decide,
   (h.1 "usd-coin"
      { id := "eaa020c61cc479712813461ce153894a96a6c00b21ed0cfc2798d1f9a9e9c94a",
        symbol := "USDC" } (by decide)).2.1 usdcQuote
      { rawPrice := "Number(99995000)", expo := "Number(-8)",
        price := "Number((Number(99995000) * Math.pow(10, Number(-8))).toFixed(6))",
        confidence := "Number((Number(12000) * Math.pow(10, Number(-8))).toFixed(6))",
        timestamp := 1700000000 } rfl rfl,
   (h.1 "tether"
      { id := "2b89b9dc8fdf9f34709a5b106b472f0f39bb6ca9ce04b0fd7f2e971688e2e53b",
        symbol := "USDT" } (by decide)).2.2.1 rfl,
   (h.1 "dai"
      { id := "b0948a5e5313200c632b51bb5ca32f6de0d36e9950a942d19751e833f70dabfd",
        symbol := "DAI" } (by decide)).2.2.2 daiBroken
      "Cannot read properties of undefined" rfl rfl⟩

/-- C20 fails as stated: in the response `[broken DAI entry, { id: 123 }, USDC
entry]` the matched entry of DAI fails to parse, yet `updateAll` throws: the
search for the first asset calls `toLowerCase` on the number 123, outside the
`try` block that guards the parse. -/
theorem C20_numeric_id_counterexample :
    ¬ ∀ (s : PriceFeedService String) (net : FetchResult String) (nowIso : String)
        (clock : String → Int) (parsed : List (FeedEntry String)) (key : String)
        (assetMeta : AssetMeta) (cand : FeedEntry String) (err : String),
        fetchBatch (ASSETS.map (fun a => a.2.id)) net = .ok (.array parsed) →
        (key, assetMeta) ∈ ASSETS →
        firstMatch parsed assetMeta.id = some cand →
        _parseOne symbolicOps cand (clock key) = .error err →
        (updateAll symbolicOps s net nowIso clock).1 = .ok () ∧
        tableGet (updateAll symbolicOps s net nowIso clock).2.prices key
          = tableGet s.prices key ∧
        (∀ key2 meta2 cand2 pe2, (key2, meta2) ∈ ASSETS → key2 ≠ key →
          firstMatch parsed meta2.id = some cand2 →
          _parseOne symbolicOps cand2 (clock key2) = .ok pe2 →
          tableGet (updateAll symbolicOps s net nowIso clock).2.prices key2 =
            some { symbol := meta2.symbol, feed_id := meta2.id,
                   rawPrice := pe2.rawPrice, expo := pe2.expo, price := pe2.price,
                   confidence := pe2.confidence, timestamp := pe2.timestamp,
                   stale := false }) := by
  intro h
  have h1 := (h (PriceFeedService.new String (some 15)) (netOf brokenAndNumericBatch)
    "2023-11-14T22:14:10.000Z" sampleClock brokenAndNumericBatch "dai"
    { id := "b0948a5e5313200c632b51bb5ca32f6de0d36e9950a942d19751e833f70dabfd",
      symbol := "DAI" }
    daiBroken "Cannot read properties of undefined" rfl (by decide) (by decide) rfl).1
  have heval : (updateAll symbolicOps (PriceFeedService.new String (some 15))
      (netOf brokenAndNumericBatch) "2023-11-14T22:14:10.000Z" sampleClock).1
      = .error "p?.id?.toLowerCase is not a function" := rfl
  rw [heval] at h1
  cases h1

/-- C20 (amended): on a successfully fetched response on which the id search
completes for every configured asset (as it does on every array whose entries
have a string id or none), when parsing the matched response entry of one
configured asset fails, `updateAll` still completes without throwing, that
asset keeps its previous entry (or none), and every other configured asset with
a matching entry that parses is overwritten with its new entry, wherever the
failing asset stands in `ASSETS`. -/
theorem C20_parse_failure_skips_one_asset {V F : Type} (ops : NumberOps V F)
    (s : PriceFeedService F) (net : FetchResult V) (nowIso : String) (clock : String → Int)
    (parsed : List (FeedEntry V)) (key : String) (assetMeta : AssetMeta)
    (cand : FeedEntry V) (err : String)
    (hfetch : fetchBatch (ASSETS.map (fun a => a.2.id)) net = .ok (.array parsed))
    (hsearch : searchCompletes (.array parsed : Parsed V) = true)
    (hmem : (key, assetMeta) ∈ ASSETS)
    (hcand : findCandidate (.array parsed) assetMeta.id = .ok (some cand))
    (hfail : _parseOne ops cand (clock key) = .error err) :
    (updateAll ops s net nowIso clock).1 = .ok () ∧
    tableGet (updateAll ops s net nowIso clock).2.prices key = tableGet s.prices key ∧
    (∀ key2 meta2 cand2 pe2, (key2, meta2) ∈ ASSETS → key2 ≠ key →
      findCandidate (.array parsed) meta2.id = .ok (some cand2) →
      _parseOne ops cand2 (clock key2) = .ok pe2 →
      tableGet (updateAll ops s net nowIso clock).2.prices key2 =
        some { symbol := meta2.symbol, feed_id := meta2.id,
               rawPrice := pe2.rawPrice, expo := pe2.expo, price := pe2.price,
               confidence := pe2.confidence, timestamp := pe2.timestamp, stale := false }) := by
  refine ⟨updateAll_returns ops s net nowIso clock ?_, ?_, ?_⟩
  · intro parsed2 h2
    rw [hfetch] at h2
    injection h2 with h2
    rw [← h2]
    exact hsearch
  · rw [updateAll_get_asset ops s net nowIso clock (.array parsed) hfetch hsearch key
        assetMeta hmem,
      assetUpdate_of_failed ops (.array parsed) clock key assetMeta cand err hcand hfail]
  · intro key2 meta2 cand2 pe2 hmem2 _ hc2 hp2
    rw [updateAll_get_asset ops s net nowIso clock (.array parsed) hfetch hsearch key2
        meta2 hmem2,
      assetUpdate_of_parsed ops (.array parsed) clock key2 meta2 cand2 pe2 hc2 hp2]
    rfl

theorem C20_parse_failure_skips_one_asset_witness :
    searchCompletes (.array sampleBatch : Parsed String) = true ∧
    (updateAll symbolicOps sampleFeed sampleNet "2023-11-14T22:14:10.000Z" sampleClock).1
      = .ok () ∧
    tableGet (updateAll symbolicOps sampleFeed sampleNet "2023-11-14T22:14:10.000Z"
        sampleClock).2.prices "dai" = tableGet sampleFeed.prices "dai" ∧
    tableGet (updateAll symbolicOps sampleFeed sampleNet "2023-11-14T22:14:10.000Z"
        sampleClock).2.prices "pyusd" =
      some { symbol := "PYUSD",
             feed_id := "6ec879b1e9963de5ee97e9c8710b742d6228252a5e2ca12d4ae81d7fe5ee8c5d",
             rawPrice := "Number(100010000)", expo := "Number(-8)",
             price := "Number((Number(100010000) * Math.pow(10, Number(-8))).toFixed(6))",
             confidence := "Number((0 * Math.pow(10, Number(-8))).toFixed(6))",
             timestamp := 1700000050, stale := false } :=
  have h := C20_parse_failure_skips_one_asset symbolicOps sampleFeed sampleNet
    "2023-11-14T22:14:10.000Z" sampleClock sampleBatch "dai"
    { id := "b0948a5e5313200c632b51bb5ca32f6de0d36e9950a942d19751e833f70dabfd",
      symbol := "DAI" }
    daiBroken "Cannot read properties of undefined" rfl (by decide) (by decide) rfl rfl
  ⟨by decide, h.1, h.2.1, h.2.2 "pyusd"
    { id := "6ec879b1e9963de5ee97e9c8710b742d6228252a5e2ca12d4ae81d7fe5ee8c5d",
      symbol := "PYUSD" }
    pyusdQuote
    { rawPrice := "Number(100010000)", expo := "Number(-8)",
      price := "Number((Number(100010000) * Math.pow(10, Number(-8))).toFixed(6))",
      confidence := "Number((0 * Math.pow(10, Number(-8))).toFixed(6))",
      timestamp := 1700000050 }
    (by decide) (by decide) rfl rfl⟩

/-! ## The staleness sweep -/

theorem markStale_of_old {F : Type} (cutoff : Int) (e : PriceEntry F)
    (h : e.timestamp ≠ 0 ∧ e.timestamp * 1000 < cutoff) :
    markStale cutoff e = { e with stale := true } := by
  unfold markStale
  rw [if_pos h]

theorem markStale_of_not_old {F : Type} (cutoff : Int) (e : PriceEntry F)
    (h : ¬ (e.timestamp ≠ 0 ∧ e.timestamp * 1000 < cutoff)) :
    markStale cutoff e = e := by
  unfold markStale
  rw [if_neg h]

theorem markStale_idem {F : Type} (cutoff : Int) (e : PriceEntry F) :
    markStale cutoff (markStale cutoff e) = markStale cutoff e := by
  by_cases h : e.timestamp ≠ 0 ∧ e.timestamp * 1000 < cutoff
  · rw [markStale_of_old cutoff e h]
    exact markStale_of_old cutoff _ h
  · rw [markStale_of_not_old cutoff e h, markStale_of_not_old cutoff e h]

theorem sweepKey_eq {F : Type} (cutoff : Int) (t : Table (PriceEntry F)) (k : String) :
    sweepKey cutoff t k =
      match tableGet t k with
      | none => t
      | some e =>
        if e.timestamp ≠ 0 ∧ e.timestamp * 1000 < cutoff then tableSet t k (markStale cutoff e)
        else t := by
  unfold sweepKey
  cases tableGet t k with
  | none => rfl
  | some e =>
    simp only
    by_cases h0 : e.timestamp = 0
    · simp [h0]
    · by_cases h1 : e.timestamp * 1000 < cutoff
      · have hm : markStale cutoff e = { e with stale := true } := by
          simp [markStale, h0, h1]
        have hz : e.timestamp * 1000 ≠ 0 := by omega
        simp [h0, h1, hm, hz]
      · simp [h0, h1]

theorem tableGet_sweepKey {F : Type} (cutoff : Int) (t : Table (PriceEntry F))
    (k0 k : String) :
    tableGet (sweepKey cutoff t k0) k =
      if k = k0 then (tableGet t k).map (markStale cutoff) else tableGet t k := by
  rw [sweepKey_eq]
  by_cases hk : k = k0
  · subst hk
    simp only [if_true]
    cases hget : tableGet t k with
    | none => simp [hget]
    | some e =>
      simp only [Option.map_some']
      by_cases hc : e.timestamp ≠ 0 ∧ e.timestamp * 1000 < cutoff
      · rw [if_pos hc]
        exact tableGet_tableSet_same _ _ _
      · rw [if_neg hc, hget, markStale_of_not_old cutoff e hc]
  · simp only [hk, if_false]
    cases tableGet t k0 with
    | none => rfl
    | some e =>
      simp only
      split
      · exact tableGet_tableSet_other _ _ _ _ hk
      · rfl

theorem tableKeys_sweepKey {F : Type} (cutoff : Int) (t : Table (PriceEntry F))
    (k : String) : tableKeys (sweepKey cutoff t k) = tableKeys t := by
  rw [sweepKey_eq]
  cases hget : tableGet t k with
  | none => rfl
  | some e =>
    simp only
    split
    · exact tableKeys_tableSet_of_get t k _ e hget
    · rfl

theorem tableKeys_foldl_sweepKey {F : Type} (cutoff : Int) (ks : List String) :
    ∀ t : Table (PriceEntry F), tableKeys (ks.foldl (sweepKey cutoff) t) = tableKeys t := by
  induction ks with
  | nil => intro t; rfl
  | cons k rest ih => intro t; simp only [List.foldl_cons]; rw [ih, tableKeys_sweepKey]

theorem tableGet_foldl_sweepKey {F : Type} (cutoff : Int) (ks : List String) :
    ∀ (t : Table (PriceEntry F)) (k : String),
      tableGet (ks.foldl (sweepKey cutoff) t) k =
        if k ∈ ks then (tableGet t k).map (markStale cutoff) else tableGet t k := by
  induction ks with
  | nil => intro t k; simp
  | cons k0 rest ih =>
    intro t k
    simp only [List.foldl_cons, ih, tableGet_sweepKey, List.mem_cons]
    by_cases h0 : k = k0
    · subst h0
      simp only [if_true, true_or]
      split
      · cases tableGet t k with
        | none => rfl
        | some e => simp [markStale_idem]
      · rfl
    · simp only [h0, if_false, false_or]

/-- Key by key, the sweep applies `markStale` with cutoff `now - 2 * interval`
to the stored entry. -/
theorem tableGet_staleSweep {F : Type} (s : PriceFeedService F) (now : Int) (k : String) :
    tableGet (staleSweep s now).prices k =
      (tableGet s.prices k).map (markStale (now - 2 * s.interval)) := by
  simp only [staleSweep, tableGet_foldl_sweepKey]
  split
  · rfl
  · rename_i hk
    rw [(tableGet_eq_none_iff s.prices k).mpr hk]
    rfl

theorem tableKeys_staleSweep {F : Type} (s : PriceFeedService F) (now : Int) :
    tableKeys (staleSweep s now).prices = tableKeys s.prices := by
  simp only [staleSweep, tableKeys_foldl_sweepKey]

/-! ## Timestamps of parsed entries -/

/-- The whole seconds of a clock reading: `now / 1000` is the floor of the
quotient, also before the epoch. -/
theorem clock_seconds_floor (now : Int) :
    now / 1000 = Int.fdiv now 1000 ∧ 1000 * (now / 1000) ≤ now ∧ now < 1000 * (now / 1000) + 1000 := by
  refine ⟨?_, ?_, ?_⟩
  · rw [Int.fdiv_eq_ediv]; simp
  · omega
  · omega

/-- The fields `_parseOne` computes from a `price` object, in terms of the
number operations of JavaScript: `rawPrice` and `expo` are the converted
mantissa and exponent, `price` and `confidence` are the products with
`Math.pow(10, expo)` passed through `toFixed(6)`, where the raw confidence is
`conf`, else `confidence`, else 0. -/
theorem _parseOne_fields {V F : Type} (ops : NumberOps V F) (entry : FeedEntry V)
    (priceInfo : PriceInfo V) (now : Int) (hprice : entry.price = some priceInfo) :
    ∃ r, _parseOne ops entry now = .ok r ∧
      r.rawPrice = ops.number priceInfo.price ∧
      r.expo = ops.number priceInfo.expo ∧
      r.price = ops.toFixed6
        (ops.mul (ops.number priceInfo.price) (ops.pow10 (ops.number priceInfo.expo))) ∧
      r.confidence = ops.toFixed6
        (ops.mul
          (match priceInfo.conf, priceInfo.confidence with
           | some c, _ => ops.number (some c)
           | none, some c => ops.number (some c)
           | none, none => ops.zero)
          (ops.pow10 (ops.number priceInfo.expo))) := by
  simp only [_parseOne, hprice]
  refine ⟨_, rfl, rfl, rfl, rfl, ?_⟩
  cases priceInfo.conf <;> cases priceInfo.confidence <;> rfl

/-- With a clock past the first second of the epoch, a parsed entry never has
timestamp 0. -/
theorem _parseOne_timestamp_ne_zero {V F : Type} (ops : NumberOps V F) (entry : FeedEntry V)
    (now : Int) (r : ParsedEntry F) (hnow : 1000 ≤ now)
    (hparse : _parseOne ops entry now = .ok r) : r.timestamp ≠ 0 := by
  unfold _parseOne at hparse
  cases hprice : entry.price with
  | none => rw [hprice] at hparse; cases hparse
  | some priceInfo =>
    rw [hprice] at hparse
    simp only [Except.ok.injEq] at hparse
    rw [← hparse]
    simp only
    cases priceInfo.publish_time with
    | none => simp only; omega
    | some t =>
      simp only
      split
      · assumption
      · omega

/-- C16 as stated fails: the PYUSD sample entry carries `publish_time = 0`, and
parsed at clock reading 1700000050000 ms it gets timestamp 1700000050, not 0. -/
theorem C16_publish_time_zero_counterexample :
    ¬ ∀ (entry : FeedEntry String) (priceInfo : PriceInfo String) (now t : Int),
        entry.price = some priceInfo → priceInfo.publish_time = some t →
        ∃ r, _parseOne symbolicOps entry now = .ok r ∧ r.timestamp = t := by
  intro h
  obtain ⟨r, hr, ht⟩ := h pyusdQuote
    { price := some "100010000", expo := some "-8", conf := none, confidence := none,
      publish_time := some 0 } 1700000050000 0 rfl rfl
  have hparse : _parseOne symbolicOps pyusdQuote 1700000050000 =
      .ok { rawPrice := "Number(100010000)", expo := "Number(-8)",
            price := "Number((Number(100010000) * Math.pow(10, Number(-8))).toFixed(6))",
            confidence := "Number((0 * Math.pow(10, Number(-8))).toFixed(6))",
            timestamp := 1700000050 } := rfl
  rw [hparse] at hr
  injection hr with hr
  rw [← hr] at ht
  exact absurd ht (by decide)

/-- C16 (amended): for every feed entry with a `price` object, `_parseOne`
returns, and its timestamp equals `publish_time` whenever a non-zero
`publish_time` is present, and the wall-clock time in whole seconds
(`Math.floor(Date.now() / 1000)`) when `publish_time` is absent or 0. -/
theorem C16_timestamp_publish_time_or_clock {V F : Type} (ops : NumberOps V F)
    (entry : FeedEntry V) (priceInfo : PriceInfo V) (now : Int)
    (hprice : entry.price = some priceInfo) :
    ∃ r, _parseOne ops entry now = .ok r ∧
      (∀ t, priceInfo.publish_time = some t → t ≠ 0 → r.timestamp = t) ∧
      (priceInfo.publish_time = none ∨ priceInfo.publish_time = some 0 →
        r.timestamp = now / 1000) := by
  simp only [_parseOne, hprice]
  refine ⟨_, rfl, ?_, ?_⟩
  · intro t ht hne
    simp only [ht, hne, ne_eq, not_false_eq_true, if_true]
  · rintro (h | h) <;> simp [h]

theorem C16_timestamp_publish_time_or_clock_witness :
    usdcQuote.price =
      some { price := some "99995000", expo := some "-8", conf := some "12000",
             confidence := none, publish_time := some 1700000000 } ∧
    ∃ r, _parseOne symbolicOps usdcQuote 1700000050000 = .ok r ∧
      (∀ t, (some 1700000000 : Option Int) = some t → t ≠ 0 → r.timestamp = t) ∧
      ((some 1700000000 : Option Int) = none ∨ (some 1700000000 : Option Int) = some 0 →
        r.timestamp = 1700000050000 / 1000) :=
  ⟨rfl, C16_timestamp_publish_time_or_clock symbolicOps usdcQuote
    { price := some "99995000", expo := some "-8", conf := some "12000",
      confidence := none, publish_time := some 1700000000 } 1700000050000 rfl⟩

theorem sampleRefresh_clock : ∀ c ∈ sampleRefresh, c.clockPastEpoch := by
  intro c hc
  simp only [sampleRefresh, List.mem_singleton] at hc
  subst hc
  intro key
  show (1000 : Int) ≤ 1700000050000
  decide

/-! ## Fields `updateAll` and the sweep leave alone -/

/-- The state after `updateAll` is the state before, or the state before with
the merged table and the new `lastUpdate`. -/
theorem updateAll_cases {V F : Type} (ops : NumberOps V F) (s : PriceFeedService F)
    (net : FetchResult V) (nowIso : String) (clock : String → Int) :
    (updateAll ops s net nowIso clock).2 = s ∨
    ∃ parsed merged, fetchBatch (ASSETS.map (fun a => a.2.id)) net = .ok parsed ∧
      mergeAssets ops parsed clock ASSETS s.prices = .ok merged ∧
      (updateAll ops s net nowIso clock).2 =
        { s with prices := merged, lastUpdate := some nowIso } := by
  cases hf : fetchBatch (ASSETS.map (fun a => a.2.id)) net with
  | error e => left; rw [updateAll_of_fetch_error ops s net nowIso clock e hf]
  | ok parsed =>
    cases hm : mergeAssets ops parsed clock ASSETS s.prices with
    | error e => left; rw [updateAll_of_merge_error ops s net nowIso clock parsed e hf hm]
    | ok merged =>
      by_cases he : merged = []
      · left; rw [(updateAll_of_merge_ok ops s net nowIso clock parsed merged hf hm).1 he]
      · right
        exact ⟨parsed, merged, rfl, hm,
          by rw [(updateAll_of_merge_ok ops s net nowIso clock parsed merged hf hm).2 he]⟩

theorem updateAll_fields {V F : Type} (ops : NumberOps V F) (s : PriceFeedService F)
    (net : FetchResult V) (nowIso : String) (clock : String → Int) :
    (updateAll ops s net nowIso clock).2.running = s.running ∧
    (updateAll ops s net nowIso clock).2.interval = s.interval ∧
    (updateAll ops s net nowIso clock).2.timer = s.timer := by
  rcases updateAll_cases ops s net nowIso clock with h | ⟨_, _, _, _, h⟩
  · rw [h]; exact ⟨rfl, rfl, rfl⟩
  · rw [h]; exact ⟨rfl, rfl, rfl⟩

theorem staleSweep_fields {F : Type} (s : PriceFeedService F) (now : Int) :
    (staleSweep s now).running = s.running ∧ (staleSweep s now).interval = s.interval ∧
    (staleSweep s now).lastUpdate = s.lastUpdate ∧ (staleSweep s now).timer = s.timer :=
  ⟨rfl, rfl, rfl, rfl⟩

theorem step_fields {V F : Type} (ops : NumberOps V F) (s : PriceFeedService F)
    (c : PriceCall V) :
    (c.step ops s).running = s.running ∧ (c.step ops s).interval = s.interval := by
  cases c with
  | updateAll net nowIso clock =>
    exact ⟨(updateAll_fields ops s net nowIso clock).1,
      (updateAll_fields ops s net nowIso clock).2.1⟩
  | sweep now => exact ⟨rfl, rfl⟩

/-- No `updateAll` and no sweep writes `running` or `interval`. -/
theorem runPriceCalls_fields {V F : Type} (ops : NumberOps V F) (calls : List (PriceCall V)) :
    ∀ s : PriceFeedService F, (runPriceCalls ops s calls).running = s.running ∧
      (runPriceCalls ops s calls).interval = s.interval := by
  induction calls with
  | nil => intro s; exact ⟨rfl, rfl⟩
  | cons c rest ih =>
    intro s
    simp only [runPriceCalls]
    rw [(ih (c.step ops s)).1, (ih (c.step ops s)).2, (step_fields ops s c).1,
      (step_fields ops s c).2]
    exact ⟨rfl, rfl⟩

theorem mem_of_tableGet {α : Type} (t : Table α) (k : String) (v : α)
    (h : tableGet t k = some v) : (k, v) ∈ t := by
  induction t with
  | nil => simp [tableGet] at h
  | cons hd tl ih =>
    obtain ⟨k0, v0⟩ := hd
    by_cases hk : k0 = k
    · simp only [tableGet, hk, if_true, Option.some.injEq] at h
      simp [hk, h]
    · simp only [tableGet, hk, if_false] at h
      simp [ih h]

theorem tableSet_forall {α : Type} (P : α → Prop) (t : Table α) (k : String) (v : α)
    (ht : ∀ e ∈ t, P e.2) (hv : P v) : ∀ e ∈ tableSet t k v, P e.2 := by
  induction t with
  | nil =>
    intro e he
    simp only [tableSet, List.mem_singleton] at he
    rw [he]; exact hv
  | cons hd tl ih =>
    obtain ⟨k0, v0⟩ := hd
    intro e he
    by_cases hk : k0 = k
    · simp only [tableSet, hk, if_true, List.mem_cons] at he
      rcases he with he | he
      · rw [he]; exact hv
      · exact ht e (by simp [he])
    · simp only [tableSet, hk, if_false, List.mem_cons] at he
      rcases he with he | he
      · exact ht e (by simp [he])
      · exact ih (fun e he => ht e (by simp [he])) e he

/-! ## Timestamps held by the service -/

/-- An entry written by the merge loop at a clock reading past the first second
of the epoch has a non-zero timestamp: `publish_time || now` never yields 0. -/
theorem assetUpdate_timestamp_ne_zero {V F : Type} (ops : NumberOps V F) (parsed : Parsed V)
    (clock : String → Int) (key : String) (assetMeta : AssetMeta) (e : PriceEntry F)
    (hclock : ∀ k, 1000 ≤ clock k)
    (h : assetUpdate ops parsed clock key assetMeta = some e) : e.timestamp ≠ 0 := by
  unfold assetUpdate at h
  cases hc : findCandidate parsed assetMeta.id with
  | error err => rw [hc] at h; cases h
  | ok c =>
    cases c with
    | none => rw [hc] at h; cases h
    | some cand =>
      rw [hc] at h
      simp only at h
      cases hp : _parseOne ops cand (clock key) with
      | error err => rw [hp] at h; cases h
      | ok pe =>
        rw [hp] at h
        simp only [Option.some.injEq] at h
        rw [← h]
        exact _parseOne_timestamp_ne_zero ops cand (clock key) pe (hclock key) hp

theorem mergeAssets_timestamps {V F : Type} (ops : NumberOps V F) (parsed : Parsed V)
    (clock : String → Int) (hclock : ∀ k, 1000 ≤ clock k) (assets : Table AssetMeta) :
    ∀ t merged : Table (PriceEntry F), (∀ e ∈ t, e.2.timestamp ≠ 0) →
      mergeAssets ops parsed clock assets t = .ok merged →
      ∀ e ∈ merged, e.2.timestamp ≠ 0 := by
  induction assets with
  | nil =>
    intro t merged ht hm
    simp only [mergeAssets, Except.ok.injEq] at hm
    rw [← hm]; exact ht
  | cons hd rest ih =>
    obtain ⟨key, assetMeta⟩ := hd
    intro t merged ht hm
    rw [mergeAssets_cons] at hm
    cases hc : findCandidate parsed assetMeta.id with
    | error e => rw [hc] at hm; cases hm
    | ok c =>
      rw [hc] at hm
      simp only at hm
      apply ih _ merged _ hm
      cases hu : assetUpdate ops parsed clock key assetMeta with
      | none => exact ht
      | some e =>
        exact tableSet_forall (fun v => v.timestamp ≠ 0) t key e ht
          (assetUpdate_timestamp_ne_zero ops parsed clock key assetMeta e hclock hu)

theorem sweepKey_timestamps {F : Type} (cutoff : Int) (t : Table (PriceEntry F)) (k : String)
    (ht : ∀ e ∈ t, e.2.timestamp ≠ 0) : ∀ e ∈ sweepKey cutoff t k, e.2.timestamp ≠ 0 := by
  rw [sweepKey_eq]
  cases hget : tableGet t k with
  | none => exact ht
  | some e0 =>
    simp only
    split
    · apply tableSet_forall (fun v => v.timestamp ≠ 0) t k _ ht
      have h0 := ht (k, e0) (mem_of_tableGet t k e0 hget)
      unfold markStale
      split
      · exact h0
      · exact h0
    · exact ht

theorem foldl_sweepKey_timestamps {F : Type} (cutoff : Int) (ks : List String) :
    ∀ t : Table (PriceEntry F), (∀ e ∈ t, e.2.timestamp ≠ 0) →
      ∀ e ∈ ks.foldl (sweepKey cutoff) t, e.2.timestamp ≠ 0 := by
  induction ks with
  | nil => intro t ht; exact ht
  | cons k rest ih =>
    intro t ht
    simp only [List.foldl_cons]
    exact ih _ (sweepKey_timestamps cutoff t k ht)

theorem step_timestamps {V F : Type} (ops : NumberOps V F) (s : PriceFeedService F)
    (c : PriceCall V) (hc : c.clockPastEpoch)
    (hs : ∀ e ∈ s.prices, e.2.timestamp ≠ 0) :
    ∀ e ∈ (c.step ops s).prices, e.2.timestamp ≠ 0 := by
  cases c with
  | updateAll net nowIso clock =>
    simp only [PriceCall.step]
    rcases updateAll_cases ops s net nowIso clock with h | ⟨parsed, merged, _, hm, h⟩
    · rw [h]; exact hs
    · rw [h]
      exact mergeAssets_timestamps ops parsed clock hc ASSETS s.prices merged hs hm
  | sweep now =>
    simp only [PriceCall.step, staleSweep]
    exact foldl_sweepKey_timestamps _ _ s.prices hs

/-- Every entry held by the service has a non-zero timestamp: the table starts
empty, and with clock readings past the first second of the epoch neither
`updateAll` nor the sweep stores a timestamp 0. -/
theorem runPriceCalls_timestamps {V F : Type} (ops : NumberOps V F)
    (calls : List (PriceCall V)) :
    ∀ s : PriceFeedService F, (∀ c ∈ calls, c.clockPastEpoch) →
      (∀ e ∈ s.prices, e.2.timestamp ≠ 0) →
      ∀ e ∈ (runPriceCalls ops s calls).prices, e.2.timestamp ≠ 0 := by
  induction calls with
  | nil => intro s _ hs; exact hs
  | cons c rest ih =>
    intro s hc hs
    simp only [runPriceCalls]
    exact ih (c.step ops s) (fun c2 h2 => hc c2 (by simp [h2]))
      (step_timestamps ops s c (hc c (by simp)) hs)

/-! ## Staleness -/

/-- After the sweep, an entry with a non-zero timestamp older than the cutoff is
flagged, in any table. -/
theorem staleSweep_flags_old {F : Type} (s : PriceFeedService F) (now : Int)
    (k : String) (e : PriceEntry F)
    (hget : tableGet (staleSweep s now).prices k = some e)
    (hts : e.timestamp ≠ 0) (hold : now - e.timestamp * 1000 > 2 * s.interval) :
    e.stale = true := by
  rw [tableGet_staleSweep] at hget
  cases hold0 : tableGet s.prices k with
  | none => rw [hold0] at hget; simp at hget
  | some e0 =>
    rw [hold0] at hget
    simp only [Option.map_some', Option.some.injEq] at hget
    by_cases hc : e0.timestamp ≠ 0 ∧ e0.timestamp * 1000 < now - 2 * s.interval
    · rw [markStale_of_old _ e0 hc] at hget
      rw [← hget]
    · rw [markStale_of_not_old _ e0 hc] at hget
      rw [hget] at hc
      exact absurd ⟨hts, by omega⟩ hc

/-- The guard `ts && ts < cutoff` of the sweep passes over a timestamp 0: in a
table filled by hand with such an entry (the service itself stores none, see
`runPriceCalls_timestamps`) the entry is not flagged. -/
theorem staleSweep_skips_zero_timestamp :
    tableGet (staleSweep sampleFeed 1700000050000).prices "pyusd" =
      some { symbol := "PYUSD", feed_id := "6ec8", rawPrice := "100010000", expo := "-8",
             price := "1.0001", confidence := "0", timestamp := 0, stale := false } := by
  decide

/-- C17: for every price table the service has built (starting from the empty
table of a new service, by any `updateAll` calls and sweeps, the clock reading
at least 1000 ms at each parse), every poll interval and every current time
`now` (in ms), after the staleness sweep every cached entry with
`now - timestamp * 1000 > 2 * interval` has `stale = true`. -/
theorem C17_sweep_flags_old_entries {V F : Type} (ops : NumberOps V F)
    (s0 : PriceFeedService F) (calls : List (PriceCall V)) (now : Int)
    (k : String) (e : PriceEntry F)
    (hempty : s0.prices = []) (hclock : ∀ c ∈ calls, c.clockPastEpoch)
    (hget : tableGet (staleSweep (runPriceCalls ops s0 calls) now).prices k = some e)
    (hold : now - e.timestamp * 1000 > 2 * s0.interval) :
    e.stale = true := by
  have hinv : ∀ x ∈ (runPriceCalls ops s0 calls).prices, x.2.timestamp ≠ 0 :=
    runPriceCalls_timestamps ops calls s0 hclock (by rw [hempty]; simp)
  have hswept : ∀ x ∈ (staleSweep (runPriceCalls ops s0 calls) now).prices,
      x.2.timestamp ≠ 0 := by
    simp only [staleSweep]
    exact foldl_sweepKey_timestamps _ _ _ hinv
  have hts : e.timestamp ≠ 0 := hswept (k, e) (mem_of_tableGet _ k e hget)
  exact staleSweep_flags_old (runPriceCalls ops s0 calls) now k e hget hts
    (by rw [(runPriceCalls_fields ops calls s0).2]; exact hold)

theorem C17_sweep_flags_old_entries_witness :
    (PriceFeedService.new String (some 15)).prices = [] ∧
    (∀ c ∈ sampleRefresh, c.clockPastEpoch) ∧
    tableGet (staleSweep (runPriceCalls symbolicOps (PriceFeedService.new String (some 15))
        sampleRefresh) 1700000050000).prices "usd-coin" =
      some { symbol := "USDC",
             feed_id := "eaa020c61cc479712813461ce153894a96a6c00b21ed0cfc2798d1f9a9e9c94a",
             rawPrice := "Number(99995000)", expo := "Number(-8)",
             price := "Number((Number(99995000) * Math.pow(10, Number(-8))).toFixed(6))",
             confidence := "Number((Number(12000) * Math.pow(10, Number(-8))).toFixed(6))",
             timestamp := 1700000000, stale := true } ∧
    (1700000050000 : Int) - 1700000000 * 1000
      > 2 * (PriceFeedService.new String (some 15)).interval ∧
    PriceEntry.stale
      ({ symbol := "USDC",
         feed_id := "eaa020c61cc479712813461ce153894a96a6c00b21ed0cfc2798d1f9a9e9c94a",
         rawPrice := "Number(99995000)", expo := "Number(-8)",
         price := "Number((Number(99995000) * Math.pow(10, Number(-8))).toFixed(6))",
         confidence := "Number((Number(12000) * Math.pow(10, Number(-8))).toFixed(6))",
         timestamp := 1700000000, stale := true } : PriceEntry String) = true :=
  ⟨rfl, sampleRefresh_clock, by decide, by decide,
   C17_sweep_flags_old_entries symbolicOps (PriceFeedService.new String (some 15))
    sampleRefresh 1700000050000 "usd-coin"
    { symbol := "USDC",
      feed_id := "eaa020c61cc479712813461ce153894a96a6c00b21ed0cfc2798d1f9a9e9c94a",
      rawPrice := "Number(99995000)", expo := "Number(-8)",
      price := "Number((Number(99995000) * Math.pow(10, Number(-8))).toFixed(6))",
      confidence := "Number((Number(12000) * Math.pow(10, Number(-8))).toFixed(6))",
      timestamp := 1700000000, stale := true }
    rfl sampleRefresh_clock (by decide) (by decide)⟩

theorem loopIteration_of_fetch_error {V F : Type} (ops : NumberOps V F)
    (s : PriceFeedService F) (net : FetchResult V) (nowIso : String) (clock : String → Int)
    (now : Int) (timerId : Nat) (err : String) (hrun : s.running = true)
    (hfail : fetchBatch (ASSETS.map (fun a => a.2.id)) net = .error err) :
    loopIteration ops s net nowIso clock now timerId =
      { staleSweep s now with timer := some timerId } := by
  simp only [loopIteration, hrun, updateAll_of_fetch_error ops s net nowIso clock err hfail]
  rfl

/-- One loop iteration of a running service whose fetch fails, on any table:
keys, `lastUpdate` and entry fields are kept, an entry with a non-zero timestamp
older than `2 * interval` is flagged, every other entry keeps its flag. -/
theorem loopIteration_failed_fetch_sweeps {V F : Type} (ops : NumberOps V F)
    (s : PriceFeedService F) (net : FetchResult V) (nowIso : String) (clock : String → Int)
    (now : Int) (timerId : Nat) (err : String) (hrun : s.running = true)
    (hfail : fetchBatch (ASSETS.map (fun a => a.2.id)) net = .error err) :
    tableKeys (loopIteration ops s net nowIso clock now timerId).prices = tableKeys s.prices ∧
    (loopIteration ops s net nowIso clock now timerId).lastUpdate = s.lastUpdate ∧
    (∀ k e, tableGet s.prices k = some e →
      ∃ e2, tableGet (loopIteration ops s net nowIso clock now timerId).prices k = some e2 ∧
        e2.symbol = e.symbol ∧ e2.feed_id = e.feed_id ∧ e2.rawPrice = e.rawPrice ∧
        e2.expo = e.expo ∧ e2.price = e.price ∧ e2.confidence = e.confidence ∧
        e2.timestamp = e.timestamp ∧
        (e.timestamp ≠ 0 → now - e.timestamp * 1000 > 2 * s.interval → e2.stale = true) ∧
        (¬ (e.timestamp ≠ 0 ∧ now - e.timestamp * 1000 > 2 * s.interval) →
          e2.stale = e.stale)) := by
  rw [loopIteration_of_fetch_error ops s net nowIso clock now timerId err hrun hfail]
  refine ⟨tableKeys_staleSweep s now, rfl, ?_⟩
  intro k e hget
  have hnew : tableGet (staleSweep s now).prices k
      = some (markStale (now - 2 * s.interval) e) := by
    rw [tableGet_staleSweep, hget]; rfl
  refine ⟨markStale (now - 2 * s.interval) e, hnew, ?_⟩
  by_cases hc : e.timestamp ≠ 0 ∧ e.timestamp * 1000 < now - 2 * s.interval
  · rw [markStale_of_old _ e hc]
    refine ⟨rfl, rfl, rfl, rfl, rfl, rfl, rfl, fun _ _ => rfl, ?_⟩
    intro hnot
    exact absurd ⟨hc.1, by omega⟩ hnot
  · rw [markStale_of_not_old _ e hc]
    refine ⟨rfl, rfl, rfl, rfl, rfl, rfl, rfl, ?_, fun _ => rfl⟩
    intro hts hold
    exact absurd ⟨hts, by omega⟩ hc

/-- C18: one iteration of the poll loop of a running service whose batch fetch
fails outright still performs the staleness sweep. In every state the service
has reached (from an empty table, by any `updateAll` calls and sweeps, the
clock reading at least 1000 ms at each parse), afterwards the table has the
same keys, `lastUpdate` is as before, and every entry has the same fields as
before except that every entry whose timestamp is older than `2 * interval`
has `stale = true`; entries that are not older keep their previous `stale`
value. -/
theorem C18_failed_fetch_iteration_still_sweeps {V F : Type} (ops : NumberOps V F)
    (s0 : PriceFeedService F) (calls : List (PriceCall V)) (net : FetchResult V)
    (nowIso : String) (clock : String → Int) (now : Int) (timerId : Nat) (err : String)
    (hempty : s0.prices = []) (hrun : s0.running = true)
    (hclock : ∀ c ∈ calls, c.clockPastEpoch)
    (hfail : fetchBatch (ASSETS.map (fun a => a.2.id)) net = .error err) :
    tableKeys (loopIteration ops (runPriceCalls ops s0 calls) net nowIso clock now
      timerId).prices = tableKeys (runPriceCalls ops s0 calls).prices ∧
    (loopIteration ops (runPriceCalls ops s0 calls) net nowIso clock now timerId).lastUpdate
      = (runPriceCalls ops s0 calls).lastUpdate ∧
    (∀ k e, tableGet (runPriceCalls ops s0 calls).prices k = some e →
      ∃ e2, tableGet (loopIteration ops (runPriceCalls ops s0 calls) net nowIso clock now
          timerId).prices k = some e2 ∧
        e2.symbol = e.symbol ∧ e2.feed_id = e.feed_id ∧ e2.rawPrice = e.rawPrice ∧
        e2.expo = e.expo ∧ e2.price = e.price ∧ e2.confidence = e.confidence ∧
        e2.timestamp = e.timestamp ∧
        (now - e.timestamp * 1000 > 2 * s0.interval → e2.stale = true) ∧
        (¬ (now - e.timestamp * 1000 > 2 * s0.interval) → e2.stale = e.stale)) := by
  have hinv : ∀ x ∈ (runPriceCalls ops s0 calls).prices, x.2.timestamp ≠ 0 :=
    runPriceCalls_timestamps ops calls s0 hclock (by rw [hempty]; simp)
  have hrun2 : (runPriceCalls ops s0 calls).running = true := by
    rw [(runPriceCalls_fields ops calls s0).1]; exact hrun
  have hiv : (runPriceCalls ops s0 calls).interval = s0.interval :=
    (runPriceCalls_fields ops calls s0).2
  obtain ⟨h1, h2, h3⟩ := loopIteration_failed_fetch_sweeps ops (runPriceCalls ops s0 calls)
    net nowIso clock now timerId err hrun2 hfail
  refine ⟨h1, h2, ?_⟩
  intro k e hget
  have hts : e.timestamp ≠ 0 := hinv (k, e) (mem_of_tableGet _ k e hget)
  obtain ⟨e2, hg, f1, f2, f3, f4, f5, f6, f7, f8, f9⟩ := h3 k e hget
  rw [hiv] at f8 f9
  refine ⟨e2, hg, f1, f2, f3, f4, f5, f6, f7, f8 hts, ?_⟩
  intro hnot
  exact f9 (fun hboth => hnot hboth.2)

theorem C18_failed_fetch_iteration_still_sweeps_witness :
    (startedFeed).prices = [] ∧ startedFeed.running = true ∧
    (∀ c ∈ sampleRefresh, c.clockPastEpoch) ∧
    fetchBatch (ASSETS.map (fun a => a.2.id)) (.response false 503 (.error "") :
      FetchResult String) = .error "HTTP 503" ∧
    tableKeys (loopIteration symbolicOps (runPriceCalls symbolicOps startedFeed sampleRefresh)
      (.response false 503 (.error "")) "2023-11-14T22:15:00.000Z" sampleClock
      1700000050000 8).prices
      = tableKeys (runPriceCalls symbolicOps startedFeed sampleRefresh).prices ∧
    (loopIteration symbolicOps (runPriceCalls symbolicOps startedFeed sampleRefresh)
      (.response false 503 (.error "")) "2023-11-14T22:15:00.000Z" sampleClock
      1700000050000 8).lastUpdate
      = (runPriceCalls symbolicOps startedFeed sampleRefresh).lastUpdate ∧
    (∀ k e, tableGet (runPriceCalls symbolicOps startedFeed sampleRefresh).prices k = some e →
      ∃ e2, tableGet (loopIteration symbolicOps
          (runPriceCalls symbolicOps startedFeed sampleRefresh)
          (.response false 503 (.error "")) "2023-11-14T22:15:00.000Z" sampleClock
          1700000050000 8).prices k = some e2 ∧
        e2.symbol = e.symbol ∧ e2.feed_id = e.feed_id ∧ e2.rawPrice = e.rawPrice ∧
        e2.expo = e.expo ∧ e2.price = e.price ∧ e2.confidence = e.confidence ∧
        e2.timestamp = e.timestamp ∧
        (1700000050000 - e.timestamp * 1000 > 2 * startedFeed.interval → e2.stale = true) ∧
        (¬ (1700000050000 - e.timestamp * 1000 > 2 * startedFeed.interval) →
          e2.stale = e.stale)) :=
  ⟨rfl, rfl, sampleRefresh_clock, rfl,
   C18_failed_fetch_iteration_still_sweeps symbolicOps startedFeed sampleRefresh
    (.response false 503 (.error "")) "2023-11-14T22:15:00.000Z" sampleClock 1700000050000 8
    "HTTP 503" rfl rfl sampleRefresh_clock rfl⟩

/-! ## Keys of the price table -/

theorem updateAll_keys_mono {V F : Type} (ops : NumberOps V F) (s : PriceFeedService F)
    (net : FetchResult V) (nowIso : String) (clock : String → Int) (x : String)
    (hx : x ∈ tableKeys s.prices) :
    x ∈ tableKeys (updateAll ops s net nowIso clock).2.prices := by
  rcases updateAll_cases ops s net nowIso clock with h | ⟨parsed, merged, _, hm, h⟩
  · rw [h]; exact hx
  · rw [h]
    exact tableKeys_mergeAssets_mono ops parsed clock ASSETS s.prices merged x hm hx

theorem updateAll_keys_sub {V F : Type} (ops : NumberOps V F) (s : PriceFeedService F)
    (net : FetchResult V) (nowIso : String) (clock : String → Int) (x : String)
    (hx : x ∈ tableKeys (updateAll ops s net nowIso clock).2.prices) :
    x ∈ tableKeys s.prices ∨ x ∈ tableKeys ASSETS := by
  rcases updateAll_cases ops s net nowIso clock with h | ⟨parsed, merged, _, hm, h⟩
  · rw [h] at hx; exact Or.inl hx
  · rw [h] at hx
    exact tableKeys_mergeAssets_sub ops parsed clock ASSETS s.prices merged x hm hx

theorem step_keys_mono {V F : Type} (ops : NumberOps V F) (s : PriceFeedService F)
    (c : PriceCall V) (x : String) (hx : x ∈ tableKeys s.prices) :
    x ∈ tableKeys (c.step ops s).prices := by
  cases c with
  | updateAll net nowIso clock => exact updateAll_keys_mono ops s net nowIso clock x hx
  | sweep now => simp only [PriceCall.step, tableKeys_staleSweep]; exact hx

theorem step_keys_sub {V F : Type} (ops : NumberOps V F) (s : PriceFeedService F)
    (c : PriceCall V) (hs : ∀ x ∈ tableKeys s.prices, x ∈ tableKeys ASSETS) :
    ∀ x ∈ tableKeys (c.step ops s).prices, x ∈ tableKeys ASSETS := by
  intro x hx
  cases c with
  | updateAll net nowIso clock =>
    rcases updateAll_keys_sub ops s net nowIso clock x hx with h | h
    · exact hs x h
    · exact h
  | sweep now =>
    simp only [PriceCall.step, tableKeys_staleSweep] at hx
    exact hs x hx

theorem runPriceCalls_keys_sub {V F : Type} (ops : NumberOps V F) (calls : List (PriceCall V)) :
    ∀ s : PriceFeedService F, (∀ x ∈ tableKeys s.prices, x ∈ tableKeys ASSETS) →
      ∀ x ∈ tableKeys (runPriceCalls ops s calls).prices, x ∈ tableKeys ASSETS := by
  induction calls with
  | nil => intro s hs; simpa [runPriceCalls] using hs
  | cons c rest ih =>
    intro s hs
    simp only [runPriceCalls]
    exact ih (c.step ops s) (step_keys_sub ops s c hs)

theorem runPriceCalls_keys_mono {V F : Type} (ops : NumberOps V F)
    (calls : List (PriceCall V)) :
    ∀ (s : PriceFeedService F) (x : String), x ∈ tableKeys s.prices →
      x ∈ tableKeys (runPriceCalls ops s calls).prices := by
  induction calls with
  | nil => intro s x hx; simpa [runPriceCalls] using hx
  | cons c rest ih =>
    intro s x hx
    simp only [runPriceCalls]
    exact ih (c.step ops s) x (step_keys_mono ops s c x hx)

/-- C19: in every state reached from a freshly constructed price service by any
sequence of `updateAll` calls (whatever the fetch outcome and the response) and
staleness sweeps, every key of `prices` is a key of `ASSETS`; and along any such
sequence, continued from any reached state, a key once present stays present. -/
theorem C19_price_keys_within_assets {V F : Type} (ops : NumberOps V F)
    (intervalSeconds : Option Int) (calls more : List (PriceCall V)) :
    (∀ x ∈ tableKeys (runPriceCalls ops (PriceFeedService.new F intervalSeconds) calls).prices,
      x ∈ tableKeys ASSETS) ∧
    (∀ x ∈ tableKeys (runPriceCalls ops (PriceFeedService.new F intervalSeconds) calls).prices,
      x ∈ tableKeys (runPriceCalls ops
        (runPriceCalls ops (PriceFeedService.new F intervalSeconds) calls) more).prices) :=
  ⟨runPriceCalls_keys_sub ops calls (PriceFeedService.new F intervalSeconds)
      (by intro x hx; simp [PriceFeedService.new, tableKeys] at hx),
   fun x hx => runPriceCalls_keys_mono ops more _ x hx⟩

end PriceFeed

namespace PriceFeed

/-! ## `lastUpdate` and the `stale` flag under `updateAll` -/

theorem mergeAssets_of_no_update {V F : Type} (ops : NumberOps V F)
    (parsed : Parsed V) (clock : String → Int) (assets : Table AssetMeta) :
    ∀ t merged : Table (PriceEntry F),
      (∀ key assetMeta, (key, assetMeta) ∈ assets →
        assetUpdate ops parsed clock key assetMeta = (none : Option (PriceEntry F))) →
      mergeAssets ops parsed clock assets t = .ok merged → merged = t := by
  induction assets with
  | nil =>
    intro t merged _ hm
    simp only [mergeAssets, Except.ok.injEq] at hm
    exact hm.symm
  | cons hd rest ih =>
    obtain ⟨key, assetMeta⟩ := hd
    intro t merged h hm
    rw [mergeAssets_cons, h key assetMeta (by simp)] at hm
    cases hc : findCandidate parsed assetMeta.id with
    | error e => rw [hc] at hm; cases hm
    | ok c =>
      rw [hc] at hm
      exact ih t merged (fun k m hmem => h k m (by simp [hmem])) hm

/-- C26: `updateAll` sets `lastUpdate` (to the time string read after the fetch)
exactly when the batch fetch succeeded and the merged table has an entry: it is
set in that case and left as it was when the fetch failed, when the merged
table is empty, or when the merge loop throws and there is no merged table. So
a successful fetch matching no configured asset changes nothing when the table
is empty, and advances `lastUpdate` while leaving the table as it was when the
table already held entries. -/
theorem C26_lastUpdate_set_iff_merged_nonempty {V F : Type} (ops : NumberOps V F)
    (s : PriceFeedService F) (net : FetchResult V) (nowIso : String) (clock : String → Int) :
    (∀ parsed merged, fetchBatch (ASSETS.map (fun a => a.2.id)) net = .ok parsed →
      mergeAssets ops parsed clock ASSETS s.prices = .ok merged → merged ≠ [] →
      (updateAll ops s net nowIso clock).2.lastUpdate = some nowIso) ∧
    (∀ parsed merged, fetchBatch (ASSETS.map (fun a => a.2.id)) net = .ok parsed →
      mergeAssets ops parsed clock ASSETS s.prices = .ok merged → merged = [] →
      (updateAll ops s net nowIso clock).2.lastUpdate = s.lastUpdate) ∧
    (∀ parsed err, fetchBatch (ASSETS.map (fun a => a.2.id)) net = .ok parsed →
      mergeAssets ops parsed clock ASSETS s.prices = .error err →
      (updateAll ops s net nowIso clock).2.lastUpdate = s.lastUpdate) ∧
    (∀ err, fetchBatch (ASSETS.map (fun a => a.2.id)) net = .error err →
      (updateAll ops s net nowIso clock).2.lastUpdate = s.lastUpdate) ∧
    (∀ parsed, fetchBatch (ASSETS.map (fun a => a.2.id)) net = .ok parsed →
      (∀ key assetMeta, (key, assetMeta) ∈ ASSETS →
        findCandidate parsed assetMeta.id = .ok none) →
      (s.prices = [] → updateAll ops s net nowIso clock = (.ok (), s)) ∧
      (s.prices ≠ [] →
        (updateAll ops s net nowIso clock).2.lastUpdate = some nowIso ∧
        (updateAll ops s net nowIso clock).2.prices = s.prices)) := by
  refine ⟨?_, ?_, ?_, ?_, ?_⟩
  · intro parsed merged hf hm hne
    rw [(updateAll_of_merge_ok ops s net nowIso clock parsed merged hf hm).2 hne]
  · intro parsed merged hf hm he
    rw [(updateAll_of_merge_ok ops s net nowIso clock parsed merged hf hm).1 he]
  · intro parsed err hf hm
    rw [updateAll_of_merge_error ops s net nowIso clock parsed err hf hm]
  · intro err hf
    rw [updateAll_of_fetch_error ops s net nowIso clock err hf]
  · intro parsed hf hnone
    obtain ⟨merged, hm⟩ := (mergeAssets_ok_iff ops parsed clock ASSETS s.prices).mpr
      (fun key assetMeta hmem => ⟨none, hnone key assetMeta hmem⟩)
    have hmerge : merged = s.prices :=
      mergeAssets_of_no_update ops parsed clock ASSETS s.prices merged
        (fun key assetMeta hmem =>
          assetUpdate_of_missing ops parsed clock key assetMeta (hnone key assetMeta hmem)) hm
    refine ⟨?_, ?_⟩
    · intro he
      exact (updateAll_of_merge_ok ops s net nowIso clock parsed merged hf hm).1
        (by rw [hmerge]; exact he)
    · intro hne
      rw [(updateAll_of_merge_ok ops s net nowIso clock parsed merged hf hm).2
        (by rw [hmerge]; exact hne), hmerge]
      exact ⟨rfl, rfl⟩

/-- C27: every entry `updateAll` overwrites (the asset's search finds an entry
that parses, and the merge loop runs to its end) is stored with `stale = false`
whatever its timestamp, and `updateAll` does no sweep: every entry it does not
overwrite is exactly what it was, `stale` flag included, also when the merge
loop throws. So after an `updateAll` on its own, an overwritten entry whose
timestamp is already older than `2 * interval` is held with `stale = false`; a
later sweep of the poll loop flags it (its timestamp being non-zero). -/
theorem C27_updateAll_stores_not_stale {V F : Type} (ops : NumberOps V F)
    (s : PriceFeedService F) (net : FetchResult V) (nowIso : String) (clock : String → Int)
    (parsed : Parsed V) (key : String) (assetMeta : AssetMeta)
    (cand : FeedEntry V) (pe : ParsedEntry F)
    (hfetch : fetchBatch (ASSETS.map (fun a => a.2.id)) net = .ok parsed)
    (hsearch : searchCompletes parsed = true)
    (hmem : (key, assetMeta) ∈ ASSETS)
    (hcand : findCandidate parsed assetMeta.id = .ok (some cand))
    (hparse : _parseOne ops cand (clock key) = .ok pe) :
    (∃ e, tableGet (updateAll ops s net nowIso clock).2.prices key = some e ∧
      e.timestamp = pe.timestamp ∧ e.stale = false) ∧
    (∀ k, (∀ m, (k, m) ∈ ASSETS → assetUpdate ops parsed clock k m = (none : Option (PriceEntry F))) →
      tableGet (updateAll ops s net nowIso clock).2.prices k = tableGet s.prices k) ∧
    (∀ now, pe.timestamp ≠ 0 → now - pe.timestamp * 1000 > 2 * s.interval →
      ∃ e2, tableGet (staleSweep (updateAll ops s net nowIso clock).2 now).prices key = some e2 ∧
        e2.timestamp = pe.timestamp ∧ e2.stale = true) := by
  have hnew : tableGet (updateAll ops s net nowIso clock).2.prices key
      = some (freshEntry assetMeta pe) := by
    rw [updateAll_get_asset ops s net nowIso clock parsed hfetch hsearch key assetMeta hmem,
      assetUpdate_of_parsed ops parsed clock key assetMeta cand pe hcand hparse]
  obtain ⟨merged, hm⟩ := mergeAssets_ok_of_search ops parsed clock s.prices hsearch
  refine ⟨⟨_, hnew, rfl, rfl⟩, ?_, ?_⟩
  · intro k hk
    rw [updateAll_prices_get ops s net nowIso clock parsed merged hfetch hm k,
      tableGet_mergeAssets ops parsed clock ASSETS s.prices merged k ASSETS_keys_nodup hm]
    cases hget : tableGet ASSETS k with
    | none => rfl
    | some m =>
      simp only
      rw [hk m (mem_of_tableGet ASSETS k m hget)]
  · intro now hts hold
    refine ⟨{ freshEntry assetMeta pe with stale := true }, ?_, rfl, rfl⟩
    rw [tableGet_staleSweep, hnew, (updateAll_fields ops s net nowIso clock).2.1]
    simp only [Option.map_some', Option.some.injEq]
    exact markStale_of_old _ _ ⟨hts, by simp only [freshEntry]; omega⟩

/-- When the merge loop throws, `updateAll` overwrites nothing: the whole state
is as before. -/
theorem updateAll_of_search_error {V F : Type} (ops : NumberOps V F)
    (s : PriceFeedService F) (net : FetchResult V) (nowIso : String) (clock : String → Int)
    (parsed : Parsed V)
    (hfetch : fetchBatch (ASSETS.map (fun a => a.2.id)) net = .ok parsed)
    (hsearch : searchCompletes parsed = false) :
    (updateAll ops s net nowIso clock).2 = s := by
  cases hm : mergeAssets ops parsed clock ASSETS s.prices with
  | error e => rw [updateAll_of_merge_error ops s net nowIso clock parsed e hfetch hm]
  | ok merged =>
    rw [searchCompletes_of_merge ops parsed clock s.prices merged hm] at hsearch
    cases hsearch

theorem C27_updateAll_stores_not_stale_witness :
    searchCompletes (.array sampleBatch : Parsed String) = true ∧
    (∃ e, tableGet (updateAll symbolicOps sampleFeed sampleNet "2023-11-14T22:14:10.000Z"
        sampleClock).2.prices "usd-coin" = some e ∧
      e.timestamp = 1700000000 ∧ e.stale = false) ∧
    (1700000050000 : Int) - 1700000000 * 1000 > 2 * sampleFeed.interval ∧
    (∃ e2, tableGet (staleSweep (updateAll symbolicOps sampleFeed sampleNet
        "2023-11-14T22:14:10.000Z" sampleClock).2 1700000050000).prices "usd-coin" = some e2 ∧
      e2.timestamp = 1700000000 ∧ e2.stale = true) :=
  have h := C27_updateAll_stores_not_stale symbolicOps sampleFeed sampleNet
    "2023-11-14T22:14:10.000Z" sampleClock (.array sampleBatch) "usd-coin"
    { id := "eaa020c61cc479712813461ce153894a96a6c00b21ed0cfc2798d1f9a9e9c94a",
      symbol := "USDC" }
    usdcQuote
    { rawPrice := "Number(99995000)", expo := "Number(-8)",
      price := "Number((Number(99995000) * Math.pow(10, Number(-8))).toFixed(6))",
      confidence := "Number((Number(12000) * Math.pow(10, Number(-8))).toFixed(6))",
      timestamp := 1700000000 }
    rfl (by decide) (by decide) rfl rfl
  ⟨by decide, h.1, by decide, h.2.2 1700000050000 (by decide) (by decide)⟩

/-! ## `start`, `stop` and the poll loop -/

theorem loopHead_of_not_running {F : Type} (p : PollSystem F)
    (h : p.service.running = false) : loopHead p = p := by
  simp [loopHead, h]

theorem loopHead_of_running {F : Type} (p : PollSystem F) (h : p.service.running = true) :
    loopHead p =
      { p with inFlight := p.inFlight + 1, refreshesBegun := p.refreshesBegun + 1 } := by
  simp [loopHead, h]

theorem start_running {F : Type} (p : PollSystem F) : (start p).service.running = true := by
  unfold start
  by_cases h : p.service.running = true
  · rw [if_pos h]; exact h
  · rw [if_neg h, loopHead_of_running _ rfl]

theorem loopResume_running {V F : Type} (ops : NumberOps V F) (p : PollSystem F)
    (net : FetchResult V) (nowIso : String) (clock : String → Int) (now : Int) :
    (loopResume ops p net nowIso clock now).service.running = p.service.running := by
  simp only [loopResume]
  exact (updateAll_fields ops p.service net nowIso clock).1

theorem stop_fields {F : Type} (p : PollSystem F) :
    (stop p).service.running = false ∧ (stop p).inFlight = p.inFlight ∧
    (stop p).refreshesBegun = p.refreshesBegun := by
  unfold stop
  cases p.service.timer <;> exact ⟨rfl, rfl, rfl⟩

/-- C21: `start()` is idempotent and `stop()` is safe. Called while the service
is running, `start()` leaves the whole system as it is: no `loop` is launched,
no refresh begun, no timer set or replaced; hence `start(); start()` equals
`start()` from any state. Called while the service is not running, `stop()`
(which has no throwing step) leaves it not running, and begins or ends no
refresh and changes no price. -/
theorem C21_start_idempotent_stop_safe {F : Type} (p : PollSystem F) :
    (p.service.running = true → start p = p) ∧
    start (start p) = start p ∧
    (stop p).service.running = false ∧
    (p.service.running = false →
      (stop p).service.running = false ∧ (stop p).inFlight = p.inFlight ∧
      (stop p).refreshesBegun = p.refreshesBegun ∧
      (stop p).service.prices = p.service.prices ∧
      (stop p).service.lastUpdate = p.service.lastUpdate) := by
  have hstart : ∀ q : PollSystem F, q.service.running = true → start q = q := by
    intro q hq
    unfold start
    rw [if_pos hq]
  have hstop : (stop p).service.running = false ∧ (stop p).inFlight = p.inFlight ∧
      (stop p).refreshesBegun = p.refreshesBegun ∧
      (stop p).service.prices = p.service.prices ∧
      (stop p).service.lastUpdate = p.service.lastUpdate := by
    unfold stop
    cases p.service.timer <;> exact ⟨rfl, rfl, rfl, rfl, rfl⟩
  exact ⟨hstart p, hstart (start p) (start_running p), hstop.1, fun _ => hstop⟩

theorem C21_start_idempotent_stop_safe_witness :
    start samplePoll = samplePoll ∧
    start (start samplePoll) = start samplePoll ∧
    (stop samplePoll).service.running = false ∧
    (stop (stop samplePoll)).service.running = false :=
  ⟨(C21_start_idempotent_stop_safe samplePoll).1 rfl,
   (C21_start_idempotent_stop_safe samplePoll).2.1,
   (C21_start_idempotent_stop_safe samplePoll).2.2.1,
   ((C21_start_idempotent_stop_safe (stop samplePoll)).2.2.2 rfl).1⟩

theorem step_after_stop {V F : Type} (ops : NumberOps V F) (p : PollSystem F)
    (e : PollEvent V) (hrun : p.service.running = false) (he : e.isStart = false) :
    (e.step ops p).service.running = false ∧
    (e.step ops p).refreshesBegun = p.refreshesBegun ∧
    (e.step ops p).inFlight ≤ p.inFlight := by
  cases e with
  | start => simp [PollEvent.isStart] at he
  | stop =>
    simp only [PollEvent.step, stop]
    cases p.service.timer <;> exact ⟨rfl, rfl, le_refl _⟩
  | timerFires h =>
    simp only [PollEvent.step]
    split
    · rw [loopHead_of_not_running
        ({ p with pendingTimers := p.pendingTimers.erase h } : PollSystem F) hrun]
      exact ⟨hrun, rfl, le_refl _⟩
    · exact ⟨hrun, rfl, le_refl _⟩
  | refreshSettles net nowIso clock now =>
    simp only [PollEvent.step]
    split
    · exact ⟨hrun, rfl, le_refl _⟩
    · refine ⟨?_, rfl, ?_⟩
      · rw [loopResume_running]; exact hrun
      · simp only [loopResume]; omega

theorem runPoll_after_stop {V F : Type} (ops : NumberOps V F) (events : List (PollEvent V)) :
    ∀ p : PollSystem F, p.service.running = false → (∀ e ∈ events, e.isStart = false) →
      (runPoll ops p events).service.running = false ∧
      (runPoll ops p events).refreshesBegun = p.refreshesBegun ∧
      (runPoll ops p events).inFlight ≤ p.inFlight := by
  induction events with
  | nil => intro p hrun _; exact ⟨hrun, rfl, le_refl _⟩
  | cons e rest ih =>
    intro p hrun hev
    obtain ⟨h1, h2, h3⟩ := step_after_stop ops p e hrun (hev e (by simp))
    obtain ⟨h4, h5, h6⟩ := ih (e.step ops p) h1 (fun e2 he2 => hev e2 (by simp [he2]))
    simp only [runPoll]
    exact ⟨h4, by rw [h5, h2], le_trans h6 h3⟩

/-- C22: once `stop()` has been called, whatever happens next short of a call of
`start()` (timers firing, refreshes settling, further `stop()` calls), the
service stays not running and `loop` begins no further `updateAll`; the number
of refreshes in flight only goes down. A refresh in flight at the time of
`stop()` still settles: its `updateAll` result and the sweep are applied. -/
theorem C22_no_refresh_begins_after_stop {V F : Type} (ops : NumberOps V F)
    (p : PollSystem F) (events : List (PollEvent V))
    (hnostart : ∀ e ∈ events, e.isStart = false) :
    (runPoll ops (stop p) events).refreshesBegun = p.refreshesBegun ∧
    (runPoll ops (stop p) events).service.running = false ∧
    (runPoll ops (stop p) events).inFlight ≤ p.inFlight ∧
    (∀ net nowIso clock now, 0 < p.inFlight →
      ((PollEvent.refreshSettles net nowIso clock now).step ops (stop p)).service.prices =
        (staleSweep (updateAll ops (stop p).service net nowIso clock).2 now).prices ∧
      ((PollEvent.refreshSettles net nowIso clock now).step ops (stop p)).service.lastUpdate =
        (updateAll ops (stop p).service net nowIso clock).2.lastUpdate ∧
      ((PollEvent.refreshSettles net nowIso clock now).step ops (stop p)).inFlight =
        p.inFlight - 1) := by
  have hs := (stop_fields p)
  obtain ⟨h1, h2, h3⟩ := runPoll_after_stop ops events (stop p) hs.1 hnostart
  refine ⟨by rw [h2, hs.2.2], h1, by rw [hs.2.1] at h3; exact h3, ?_⟩
  intro net nowIso clock now hpos
  have hne : ¬ (stop p).inFlight = 0 := by rw [hs.2.1]; omega
  simp only [PollEvent.step]
  rw [if_neg hne]
  refine ⟨rfl, rfl, ?_⟩
  simp only [loopResume, hs.2.1]

theorem C22_no_refresh_begins_after_stop_witness :
    (∀ e ∈ afterStopEvents, e.isStart = false) ∧
    0 < startedPoll.inFlight ∧
    (runPoll symbolicOps (stop startedPoll) afterStopEvents).refreshesBegun
      = startedPoll.refreshesBegun ∧
    (runPoll symbolicOps (stop startedPoll) afterStopEvents).service.running = false ∧
    (runPoll symbolicOps (stop startedPoll) afterStopEvents).inFlight ≤ startedPoll.inFlight ∧
    ((PollEvent.refreshSettles sampleNet "2023-11-14T22:14:10.000Z" sampleClock
        1700000050000).step symbolicOps (stop startedPoll)).service.lastUpdate =
      (updateAll symbolicOps (stop startedPoll).service sampleNet "2023-11-14T22:14:10.000Z"
        sampleClock).2.lastUpdate :=
  have h := C22_no_refresh_begins_after_stop symbolicOps startedPoll afterStopEvents
    (by decide)
  ⟨by decide, by decide, h.1, h.2.1, h.2.2.1,
   (h.2.2.2 sampleNet "2023-11-14T22:14:10.000Z" sampleClock 1700000050000 (by decide)).2.1⟩

/-! ### Number of loops alive -/

/-- C28 fails on the code: from a fresh service, `start()`, `stop()`, `start()`
with the first refresh still in flight leaves two invocations of `loop` awaiting
their refresh; when both settle there are two pending timers while the service
is running, and when both fire two refreshes are in flight again. -/
theorem C28_restart_race_leaves_two_loops :
    aliveLoops (runPoll symbolicOps (PollSystem.init String (some 15)) restartRace) = 2 ∧
    (runPoll symbolicOps (PollSystem.init String (some 15)) restartRace).inFlight = 2 ∧
    (runPoll symbolicOps (PollSystem.init String (some 15)) restartRaceSettled).pendingTimers
      = [2, 1] ∧
    (runPoll symbolicOps (PollSystem.init String (some 15)) restartRaceSettled).service.running
      = true ∧
    aliveLoops (runPoll symbolicOps (PollSystem.init String (some 15)) restartRaceSettled) = 2 ∧
    (runPoll symbolicOps (PollSystem.init String (some 15))
      (restartRaceSettled ++ [.timerFires 1, .timerFires 2])).inFlight = 2 ∧
    (runPoll symbolicOps (PollSystem.init String (some 15))
      (restartRaceSettled ++ [.timerFires 1, .timerFires 2])).refreshesBegun = 4 := by
  decide

theorem step_alive_of_no_stop {V F : Type} (ops : NumberOps V F) (p : PollSystem F)
    (e : PollEvent V) (he : e.isStop = false)
    (hinv : aliveLoops p = if p.service.running then 1 else 0) :
    aliveLoops (e.step ops p) = if (e.step ops p).service.running then 1 else 0 := by
  cases e with
  | stop => simp [PollEvent.isStop] at he
  | start =>
    simp only [PollEvent.step, start]
    cases hrun : p.service.running with
    | true => simpa [hrun] using hinv
    | false =>
      rw [hrun] at hinv
      simp only [Bool.false_eq_true, if_false] at hinv ⊢
      rw [loopHead_of_running _ rfl]
      simp only [aliveLoops, if_true] at hinv ⊢
      omega
  | timerFires h =>
    simp only [PollEvent.step]
    split
    · rename_i hmem
      have hpos : 0 < p.pendingTimers.length := List.length_pos_of_mem hmem
      have hlen : (p.pendingTimers.erase h).length = p.pendingTimers.length - 1 :=
        List.length_erase_of_mem hmem
      cases hrun : p.service.running with
      | true =>
        rw [loopHead_of_running
          ({ p with pendingTimers := p.pendingTimers.erase h } : PollSystem F) hrun]
        rw [hrun] at hinv
        simp only [aliveLoops, if_true, hrun] at hinv ⊢
        omega
      | false =>
        rw [hrun] at hinv
        simp only [aliveLoops, Bool.false_eq_true, if_false] at hinv
        omega
    · exact hinv
  | refreshSettles net nowIso clock now =>
    simp only [PollEvent.step]
    split
    · exact hinv
    · rename_i hne
      rw [loopResume_running]
      have h1 : aliveLoops (loopResume ops p net nowIso clock now) = aliveLoops p := by
        simp only [aliveLoops, loopResume, List.length_cons]
        omega
      rw [h1]
      exact hinv

/-- Short of a call of `stop()`, the guards do keep a single loop: starting from
a fresh service, any sequence of `start()` calls, timer firings and settling
refreshes leaves exactly one loop alive once started, and none before. -/
theorem aliveLoops_of_no_stop {V F : Type} (ops : NumberOps V F)
    (events : List (PollEvent V)) :
    ∀ p : PollSystem F, (∀ e ∈ events, e.isStop = false) →
      (aliveLoops p = if p.service.running then 1 else 0) →
      aliveLoops (runPoll ops p events) =
        if (runPoll ops p events).service.running then 1 else 0 := by
  induction events with
  | nil => intro p _ h; exact h
  | cons e rest ih =>
    intro p hev h
    simp only [runPoll]
    exact ih (e.step ops p) (fun e2 he2 => hev e2 (by simp [he2]))
      (step_alive_of_no_stop ops p e (hev e (by simp)) h)

end PriceFeed

namespace X402Metering

/-! ## The cap on a balance -/

/-- C23 fails on the code: after `authorize({maxUnits: 2})`, the call
`consume(paymentId, -3)` passes the check `remaining < units`, returns
`remaining: 5` and stores 5, above the 2 units granted. -/
theorem C23_negative_units_exceed_grant :
    (authorize X402MeteringService.new (some 2) none (.ok ()) (List.replicate 32 7) 1000).1 =
      .ok { paymentId := _generatePaymentId (List.replicate 32 7), remaining := 2 } ∧
    (consume (authorize X402MeteringService.new (some 2) none (.ok ())
        (List.replicate 32 7) 1000).2
      (_generatePaymentId (List.replicate 32 7)) (some (-3)) 1001).1 =
      .ok { paymentId := _generatePaymentId (List.replicate 32 7), remaining := 5 } ∧
    mapGet (consume (authorize X402MeteringService.new (some 2) none (.ok ())
        (List.replicate 32 7) 1000).2
      (_generatePaymentId (List.replicate 32 7)) (some (-3)) 1001).2.payments
      (_generatePaymentId (List.replicate 32 7)) =
      some { remaining := 5, createdAt := 1000, lastConsumption := some 1001, metadata := [] } ∧
    (2 : Int) < 5 := by
  refine ⟨rfl, rfl, ?_, by decide⟩
  decide

/-- Any negative amount is accepted and, within the safe integers, raises the
balance by its size. -/
theorem consume_negative_units_increases (s : X402MeteringService) (pid : String)
    (rec : PaymentRecord) (units now : Int) (hknown : mapGet s.payments pid = some rec)
    (hrem : 0 ≤ rec.remaining) (hneg : units < 0) (hsafe : rec.remaining - units ≤ 2 ^ 53) :
    (consume s pid (some units) now).1 =
      .ok { paymentId := pid, remaining := rec.remaining - units } ∧
    rec.remaining < rec.remaining - units := by
  have hc := consume_ok_exact s pid (some units) now rec hknown
    (by simp only [Option.getD_some]; omega) (by simpa using hsafe)
  simp only [Option.getD_some] at hc
  rw [hc]
  exact ⟨rfl, by omega⟩

/-- With amounts that are not negative, no `consume` call on a balance of at most
`2 ^ 53`, succeeding or not, raises the balance of any record. -/
theorem consume_nonneg_units_not_above (s : X402MeteringService) (pid : String)
    (units now : Int) (hunits : 0 ≤ units)
    (hsafe : ∀ rec, mapGet s.payments pid = some rec → rec.remaining ≤ 2 ^ 53)
    (other : String) (rec2 : PaymentRecord)
    (hafter : mapGet (consume s pid (some units) now).2.payments other = some rec2) :
    ∃ rec1, mapGet s.payments other = some rec1 ∧ rec2.remaining ≤ rec1.remaining := by
  cases hget : mapGet s.payments pid with
  | none =>
    rw [consume_unknown s pid (some units) now hget] at hafter
    exact ⟨rec2, hafter, le_refl _⟩
  | some rec =>
    by_cases hlt : rec.remaining < (some units).getD s.unitsPerSwap
    · rw [consume_insufficient s pid (some units) now rec hget hlt] at hafter
      exact ⟨rec2, hafter, le_refl _⟩
    · have hle := not_lt.mp hlt
      have hs := hsafe rec hget
      rw [consume_ok_exact s pid (some units) now rec hget hle
        (by simp only [Option.getD_some] at hle ⊢; omega)] at hafter
      by_cases ho : other = pid
      · subst ho
        simp only [mapGet_mapSet_same, Option.getD_some, Option.some.injEq] at hafter
        refine ⟨rec, hget, ?_⟩
        rw [← hafter]
        simp only
        omega
      · simp only [mapGet_mapSet_other _ _ _ _ ho] at hafter
        exact ⟨rec2, hafter, le_refl _⟩

end X402Metering

namespace Routes

open X402Metering

/-! ## `POST /x402/authorize` -/

/-- C30 fails on the code: for a body with `maxUnits: 1000` the validation chain
records an error, yet the handler (which never reads it) answers `ok` and a
record with `remaining = 1000` is created; with `maxUnits: -5` a record with
`remaining = -5` is created. -/
theorem C30_authorize_route_ignores_bounds :
    maxUnitsErrors (some 1000) = ["Invalid value"] ∧
    (postX402Authorize X402MeteringService.new (some 1000) (.ok ()) (List.replicate 32 7)
      1000).1 = .ok (_generatePaymentId (List.replicate 32 7)) 1000 ∧
    mapGet (postX402Authorize X402MeteringService.new (some 1000) (.ok ())
      (List.replicate 32 7) 1000).2.payments (_generatePaymentId (List.replicate 32 7)) =
      some { remaining := 1000, createdAt := 1000, lastConsumption := none, metadata := [] } ∧
    maxUnitsErrors (some (-5)) = ["Invalid value"] ∧
    mapGet (postX402Authorize X402MeteringService.new (some (-5)) (.ok ())
      (List.replicate 32 7) 1000).2.payments (_generatePaymentId (List.replicate 32 7)) =
      some { remaining := -5, createdAt := 1000, lastConsumption := none, metadata := [] } := by
  decide

/-- What the handler grants: `maxUnits` itself when it is present and not 0,
otherwise 5; the record is created in every case. -/
theorem postX402Authorize_grants (s : X402MeteringService) (maxUnits : Option Int)
    (probe : Except String Unit) (randomBytes : List (Fin 256)) (now : Int) :
    (postX402Authorize s maxUnits probe randomBytes now).1 =
      .ok (_generatePaymentId randomBytes)
        (match maxUnits with
         | some m => if m ≠ 0 then m else 5
         | none => 5) ∧
    ∃ rec, mapGet (postX402Authorize s maxUnits probe randomBytes now).2.payments
        (_generatePaymentId randomBytes) = some rec ∧
      rec.remaining =
        (match maxUnits with
         | some m => if m ≠ 0 then m else 5
         | none => 5) := by
  unfold postX402Authorize
  simp only [authorize_eq, Option.getD_some]
  exact ⟨trivial, _, mapGet_mapSet_same _ _ _, rfl⟩

end Routes

namespace Decimals

/-! ## Decimal digits -/

theorem digitChar_digit (k : Nat) (h : k < 10) :
    (Nat.digitChar k).isDigit = true ∧ (Nat.digitChar k).toNat - 48 = k := by
  interval_cases k <;> exact ⟨rfl, rfl⟩

theorem toDigitsCore_append (fuel : Nat) :
    ∀ (n : Nat) (ds : List Char),
      Nat.toDigitsCore 10 fuel n ds = Nat.toDigitsCore 10 fuel n [] ++ ds := by
  induction fuel with
  | zero => intro n ds; simp [Nat.toDigitsCore]
  | succ f ih =>
    intro n ds
    simp only [Nat.toDigitsCore]
    split
    · simp
    · rw [ih (n / 10) (Nat.digitChar (n % 10) :: ds), ih (n / 10) [Nat.digitChar (n % 10)]]
      simp

theorem parseDigits_foldl (cs : List Char) :
    ∀ acc : Nat, cs.foldl (fun acc c => 10 * acc + (c.toNat - 48)) acc =
      acc * 10 ^ cs.length + parseDigits cs := by
  induction cs with
  | nil => intro acc; simp [parseDigits]
  | cons c rest ih =>
    intro acc
    simp only [List.foldl_cons, List.length_cons, parseDigits]
    rw [ih (10 * acc + (c.toNat - 48)), ih (10 * 0 + (c.toNat - 48))]
    simp only [parseDigits]
    ring

theorem parseDigits_append (xs ys : List Char) :
    parseDigits (xs ++ ys) = parseDigits xs * 10 ^ ys.length + parseDigits ys := by
  simp only [parseDigits, List.foldl_append]
  rw [parseDigits_foldl ys]
  simp only [parseDigits]

theorem toDigitsCore_spec (fuel : Nat) :
    ∀ n : Nat, n < fuel →
      parseDigits (Nat.toDigitsCore 10 fuel n []) = n ∧
      (Nat.toDigitsCore 10 fuel n []).all Char.isDigit = true ∧
      Nat.toDigitsCore 10 fuel n [] ≠ [] := by
  induction fuel with
  | zero => intro n h; omega
  | succ f ih =>
    intro n hn
    simp only [Nat.toDigitsCore]
    have hd := digitChar_digit (n % 10) (Nat.mod_lt n (by decide))
    split
    · rename_i h0
      refine ⟨?_, by simp [hd.1], by simp⟩
      simp only [parseDigits, List.foldl_cons, List.foldl_nil, hd.2]
      omega
    · rename_i h0
      rw [toDigitsCore_append]
      obtain ⟨h1, h2, _⟩ := ih (n / 10) (by omega)
      refine ⟨?_, by simp [h2, hd.1], by simp⟩
      rw [parseDigits_append, h1]
      simp only [parseDigits, List.foldl_cons, List.foldl_nil, hd.2, List.length_singleton]
      omega

/-- Reading back the canonical decimal text of `n` gives `n`; the text is not
empty and made of digits. -/
theorem toDigits_spec (n : Nat) :
    parseDigits (Nat.toDigits 10 n) = n ∧ (Nat.toDigits 10 n).all Char.isDigit = true ∧
    Nat.toDigits 10 n ≠ [] :=
  toDigitsCore_spec (n + 1) n (Nat.lt_succ_self n)

theorem repr_data (n : Nat) : (Nat.repr n).data = Nat.toDigits 10 n := rfl

theorem isDigit_bounds (c : Char) (h : c.isDigit = true) : 48 ≤ c.toNat ∧ c.toNat ≤ 57 := by
  simp only [Char.isDigit, Bool.and_eq_true, decide_eq_true_eq] at h
  exact ⟨h.1, h.2⟩

theorem isDigit_not_space (c : Char) (h : c.isDigit = true) : isJsSpace c = false := by
  obtain ⟨h1, h2⟩ := isDigit_bounds c h
  unfold isJsSpace
  generalize c.toNat = n at h1 h2
  interval_cases n <;> rfl

theorem isDigit_ne_dot (c : Char) (h : c.isDigit = true) : c ≠ '.' := by
  intro hc
  rw [hc] at h
  exact absurd h (by decide)

theorem parseDigits_cons (c : Char) (rest : List Char) :
    parseDigits (c :: rest) = (c.toNat - 48) * 10 ^ rest.length + parseDigits rest := by
  have h := parseDigits_append [c] rest
  simp only [List.singleton_append] at h
  rw [h]
  simp [parseDigits]

theorem parseDigits_lt (cs : List Char) (h : cs.all Char.isDigit = true) :
    parseDigits cs < 10 ^ cs.length := by
  induction cs with
  | nil => simp [parseDigits]
  | cons c rest ih =>
    simp only [List.all_cons, Bool.and_eq_true] at h
    have hb := isDigit_bounds c h.1
    have hr := ih h.2
    rw [parseDigits_cons, List.length_cons, pow_succ]
    have h9 : c.toNat - 48 ≤ 9 := by omega
    calc (c.toNat - 48) * 10 ^ rest.length + parseDigits rest
        < (c.toNat - 48) * 10 ^ rest.length + 10 ^ rest.length := by omega
      _ = (c.toNat - 48 + 1) * 10 ^ rest.length := by ring
      _ ≤ 10 * 10 ^ rest.length := Nat.mul_le_mul_right _ (by omega)
      _ = 10 ^ rest.length * 10 := by ring

theorem parseDigits_zeros (m : Nat) : parseDigits (List.replicate m '0') = 0 := by
  induction m with
  | zero => rfl
  | succ k ih =>
    rw [List.replicate_succ, parseDigits_cons, ih]
    simp

theorem all_isDigit_zeros (m : Nat) : (List.replicate m '0').all Char.isDigit = true := by
  simp only [List.all_eq_true]
  intro c hc
  rw [List.eq_of_mem_replicate hc]
  rfl

theorem parseDigits_take (f : List Char) (hf : f.all Char.isDigit = true) (d : Nat) :
    parseDigits (f.take d) = parseDigits f / 10 ^ (f.length - d) := by
  have hsplit : parseDigits f
      = parseDigits (f.take d) * 10 ^ (f.drop d).length + parseDigits (f.drop d) := by
    rw [← parseDigits_append, List.take_append_drop]
  have hdrop : (f.drop d).all Char.isDigit = true := by
    simp only [List.all_eq_true] at hf ⊢
    exact fun c hc => hf c (List.mem_of_mem_drop hc)
  have hlt := parseDigits_lt (f.drop d) hdrop
  rw [List.length_drop] at hsplit hlt
  rw [hsplit, Nat.add_comm, Nat.add_mul_div_right _ _ (by positivity),
    Nat.div_eq_of_lt hlt, Nat.zero_add]

/-- Value of the fractional digits once padded with zeros and cut to `d`
digits. -/
theorem parseDigits_padded (f : List Char) (hf : f.all Char.isDigit = true) (d : Nat) :
    parseDigits ((f ++ List.replicate d '0').take d) = parseDigits f * 10 ^ d / 10 ^ f.length := by
  by_cases hd : d ≤ f.length
  · rw [List.take_append_of_le_length hd, parseDigits_take f hf d]
    have hk : 10 ^ f.length = 10 ^ (f.length - d) * 10 ^ d := by
      rw [← pow_add]; congr 1; omega
    rw [hk, Nat.mul_div_mul_right _ _ (by positivity)]
  · have hlen : d = f.length + (d - f.length) := by omega
    have htake : (f ++ List.replicate d '0').take d = f ++ List.replicate (d - f.length) '0' := by
      conv_lhs => rw [hlen]
      rw [List.take_append]
      simp only [List.take_replicate]
      congr 2
      omega
    rw [htake, parseDigits_append, parseDigits_zeros, List.length_replicate, Nat.add_zero]
    have hk : 10 ^ d = 10 ^ (d - f.length) * 10 ^ f.length := by
      rw [← pow_add]; congr 1; omega
    rw [hk, ← Nat.mul_assoc, Nat.mul_div_cancel _ (by positivity)]

theorem all_isDigit_padded (f : List Char) (hf : f.all Char.isDigit = true) (d : Nat) :
    ((f ++ List.replicate d '0').take d).all Char.isDigit = true := by
  simp only [List.all_eq_true] at hf ⊢
  intro c hc
  rcases List.mem_append.mp (List.mem_of_mem_take hc) with h | h
  · exact hf c h
  · rw [List.eq_of_mem_replicate h]; rfl

end Decimals

namespace Blockchain

/-! ## The constant-product fallback -/

theorem bigNumberFrom_repr (n : Nat) : bigNumberFrom (Nat.repr n) = .ok (n : Int) := by
  obtain ⟨h1, h2, h3⟩ := Decimals.toDigits_spec n
  have hhead : ¬ (Nat.toDigits 10 n).head? = some '-' := by
    intro h
    cases hl : Nat.toDigits 10 n with
    | nil => exact h3 hl
    | cons c cs =>
      rw [hl] at h h2
      simp only [List.head?_cons, Option.some.injEq] at h
      rw [h] at h2
      simp at h2
  have hne : (Nat.toDigits 10 n).isEmpty = false := by
    cases hl : Nat.toDigits 10 n with
    | nil => exact absurd hl h3
    | cons c cs => rfl
  simp only [bigNumberFrom, Decimals.repr_data, hhead, decide_False, Bool.false_eq_true,
    if_false, hne, Bool.not_false, h2, Bool.and_self, if_true, h1]

theorem getQuote_fallback (pool : PoolContract) (a : Nat) (reserves : List String)
    (hquote : pool.getAmountOut = none ∨ ∃ e, pool.getAmountOut = some (.error e))
    (hres : getReserves (some pool) = .ok reserves) :
    getQuote (some pool) (Nat.repr a) = quoteFallback reserves (a : Int) := by
  simp only [getQuote, bigNumberFrom_repr, hres]
  rcases hquote with h | ⟨e, h⟩ <;> simp only [h]

theorem quoteFallback_lt_two (reserves : List String) (amt : Int)
    (h : reserves.length < 2) : quoteFallback reserves amt = .ok "0" := by
  simp only [quoteFallback, h, if_true]

theorem quoteFallback_pair (rIn rOut : Nat) (rest : List Nat) (amt : Int) :
    quoteFallback ((rIn :: rOut :: rest).map Nat.repr) amt =
      if (rIn : Int) = 0 ∨ (rOut : Int) = 0 then .ok "0"
      else
        match bigDiv ((rIn : Int) * (rOut : Int)) ((rIn : Int) + amt) with
        | .error e => .error e
        | .ok newReserveOut => .ok (toString ((rOut : Int) - newReserveOut)) := by
  have hlen : ¬ (rIn.repr :: rOut.repr :: rest.map Nat.repr).length < 2 := by simp
  simp only [quoteFallback, List.map_cons, if_neg hlen, List.getD_cons_zero,
    List.getD_cons_succ, bigNumberFrom_repr]

/-- C25: when the on-chain view is absent or fails, `getQuote` falls back to the
first two reserves. With both non-zero and `amountIn >= 0` it returns the
decimal text of `amountOut = reserveOut - floor(reserveIn * reserveOut /
(reserveIn + amountIn))`, which satisfies `0 <= amountOut <= reserveOut` and
`(reserveIn + amountIn) * (reserveOut - amountOut) <= reserveIn * reserveOut <
(reserveIn + amountIn) * (reserveOut - amountOut + 1)`. With fewer than two
reserves, or one of the first two zero, it returns `0`. -/
theorem C25_quote_fallback_constant_product (pool : PoolContract) (a : Nat)
    (hquote : pool.getAmountOut = none ∨ ∃ e, pool.getAmountOut = some (.error e)) :
    (∀ (rIn rOut : Nat) (rest : List Nat),
      getReserves (some pool) = .ok ((rIn :: rOut :: rest).map Nat.repr) →
      rIn ≠ 0 → rOut ≠ 0 →
      ∃ amountOut : Int,
        getQuote (some pool) (Nat.repr a) = .ok (toString amountOut) ∧
        amountOut = (rOut : Int) - ((rIn * rOut / (rIn + a) : Nat) : Int) ∧
        0 ≤ amountOut ∧ amountOut ≤ (rOut : Int) ∧
        ((rIn : Int) + a) * ((rOut : Int) - amountOut) ≤ (rIn : Int) * rOut ∧
        (rIn : Int) * rOut < ((rIn : Int) + a) * ((rOut : Int) - amountOut + 1)) ∧
    (∀ reserves : List String, getReserves (some pool) = .ok reserves →
      reserves.length < 2 → getQuote (some pool) (Nat.repr a) = .ok "0") ∧
    (∀ (rIn rOut : Nat) (rest : List Nat),
      getReserves (some pool) = .ok ((rIn :: rOut :: rest).map Nat.repr) →
      rIn = 0 ∨ rOut = 0 → getQuote (some pool) (Nat.repr a) = .ok "0") := by
  refine ⟨?_, ?_, ?_⟩
  · intro rIn rOut rest hres hIn hOut
    have hpos : 0 < rIn + a := by omega
    have hq1 : rIn * rOut / (rIn + a) * (rIn + a) ≤ rIn * rOut := Nat.div_mul_le_self _ _
    have hq2 : rIn * rOut < (rIn + a) * (rIn * rOut / (rIn + a) + 1) :=
      Nat.lt_mul_div_succ (rIn * rOut) hpos
    have hq3 : rIn * rOut / (rIn + a) ≤ rOut := by
      have h1 : rIn * rOut / (rIn + a) ≤ rIn * rOut / rIn :=
        Nat.div_le_div_left (by omega) (by omega)
      rw [Nat.mul_div_cancel_left rOut (by omega : 0 < rIn)] at h1
      exact h1
    have hdiv : Int.tdiv ((rIn : Int) * (rOut : Int)) ((rIn : Int) + (a : Int))
        = ((rIn * rOut / (rIn + a) : Nat) : Int) := by
      rw [Int.tdiv_eq_ediv (by positivity) (by positivity)]
      push_cast
      rfl
    generalize rIn * rOut / (rIn + a) = q at hq1 hq2 hq3 hdiv
    refine ⟨(rOut : Int) - (q : Int), ?_, rfl, by omega, by omega, ?_, ?_⟩
    · rw [getQuote_fallback pool a _ hquote hres, quoteFallback_pair]
      have hnz : ¬ ((rIn : Int) = 0 ∨ (rOut : Int) = 0) := by
        simp only [Int.natCast_eq_zero]
        tauto
      have hdne : ¬ ((rIn : Int) + (a : Int) = 0) := by omega
      simp only [if_neg hnz, bigDiv, if_neg hdne, hdiv]
    · have h : ((rIn : Int) + a) * ((rOut : Int) - ((rOut : Int) - (q : Int)))
          = ((q * (rIn + a) : Nat) : Int) := by
        push_cast; ring
      rw [h]
      exact_mod_cast hq1
    · have h : ((rIn : Int) + a) * ((rOut : Int) - ((rOut : Int) - (q : Int)) + 1)
          = (((rIn + a) * (q + 1) : Nat) : Int) := by
        push_cast; ring
      rw [h]
      exact_mod_cast hq2
  · intro reserves hres hlen
    rw [getQuote_fallback pool a _ hquote hres, quoteFallback_lt_two reserves _ hlen]
  · intro rIn rOut rest hres hzero
    rw [getQuote_fallback pool a _ hquote hres, quoteFallback_pair]
    have hz : (rIn : Int) = 0 ∨ (rOut : Int) = 0 := by
      simp only [Int.natCast_eq_zero]
      exact hzero
    rw [if_pos hz]

theorem C25_quote_fallback_constant_product_witness :
    (samplePool.getAmountOut = none ∨ ∃ e, samplePool.getAmountOut = some (.error e)) ∧
    getReserves (some samplePool) = .ok (([1000, 2000, 5] : List Nat).map Nat.repr) ∧
    ∃ amountOut : Int,
      getQuote (some samplePool) (Nat.repr 100) = .ok (toString amountOut) ∧
      amountOut = ((2000 : Nat) : Int) - ((1000 * 2000 / (1000 + 100) : Nat) : Int) ∧
      0 ≤ amountOut ∧ amountOut ≤ ((2000 : Nat) : Int) ∧
      (((1000 : Nat) : Int) + (100 : Nat)) * (((2000 : Nat) : Int) - amountOut)
        ≤ ((1000 : Nat) : Int) * (2000 : Nat) ∧
      ((1000 : Nat) : Int) * (2000 : Nat)
        < (((1000 : Nat) : Int) + (100 : Nat)) * (((2000 : Nat) : Int) - amountOut + 1) :=
  ⟨Or.inr ⟨"call revert exception", rfl⟩, rfl,
   (C25_quote_fallback_constant_product samplePool 100
      (Or.inr ⟨"call revert exception", rfl⟩)).1 1000 2000 [5] rfl (by decide) (by decide)⟩

end Blockchain

namespace Decimals

/-! ## `toWei` -/

theorem trim_of_no_space (cs : List Char) (h : ∀ c ∈ cs, isJsSpace c = false) :
    trim cs = cs := by
  unfold trim
  have h1 : cs.dropWhile isJsSpace = cs := by
    cases cs with
    | nil => rfl
    | cons c rest => simp [List.dropWhile, h c (by simp)]
  rw [h1, List.rdropWhile_eq_self_iff]
  intro hl
  rw [h _ (List.getLast_mem hl)]
  simp

/-- A text accepted by the test splits into digits `w` and digits `f`: it is `w`
alone (then `f` is empty) or `w`, a dot and `f`. -/
theorem matchesAmount_parts (cs : List Char) (h : matchesAmount cs = true) :
    (wholePart cs).all Char.isDigit = true ∧ (fracPart cs).all Char.isDigit = true ∧
    (cs = wholePart cs ∨ cs = wholePart cs ++ '.' :: fracPart cs) := by
  have hsplit := List.takeWhile_append_dropWhile Char.isDigit cs
  have hw : ∀ c ∈ cs.takeWhile Char.isDigit, (decide (c ≠ '.')) = true := by
    intro c hc
    have := List.mem_takeWhile_imp hc
    simpa using isDigit_ne_dot c this
  have hwd : (cs.takeWhile Char.isDigit).all Char.isDigit = true := by
    simp only [List.all_eq_true]
    exact fun c hc => List.mem_takeWhile_imp hc
  unfold matchesAmount at h
  cases hd : cs.dropWhile Char.isDigit with
  | nil =>
    rw [hd, List.append_nil] at hsplit
    have hwhole : wholePart cs = cs := by
      unfold wholePart
      rw [List.takeWhile_eq_self_iff]
      intro c hc
      rw [← hsplit] at hc
      exact hw c hc
    have hfrac : fracPart cs = [] := by
      unfold fracPart
      have : cs.dropWhile (fun c => decide (c ≠ '.')) = [] := by
        rw [List.dropWhile_eq_nil_iff]
        intro c hc
        rw [← hsplit] at hc
        exact hw c hc
      rw [this]
      rfl
    rw [hwhole, hfrac]
    rw [hsplit] at hwd
    exact ⟨hwd, rfl, Or.inl rfl⟩
  | cons c frac =>
    rw [hd] at h hsplit
    simp only [Bool.and_eq_true, decide_eq_true_eq] at h
    obtain ⟨hc, hfd⟩ := h
    subst hc
    have hfnd : ∀ c ∈ frac, (decide (c ≠ '.')) = true := by
      intro c hc
      simp only [List.all_eq_true] at hfd
      simpa using isDigit_ne_dot c (hfd c hc)
    have hwhole : wholePart cs = cs.takeWhile Char.isDigit := by
      unfold wholePart
      conv_lhs => rw [← hsplit]
      rw [List.takeWhile_append]
      have h1 : (cs.takeWhile Char.isDigit).takeWhile (fun c => decide (c ≠ '.'))
          = cs.takeWhile Char.isDigit := by
        rw [List.takeWhile_eq_self_iff]; exact hw
      rw [h1]
      simp
    have hfrac : fracPart cs = frac := by
      unfold fracPart
      conv_lhs => rw [← hsplit]
      rw [List.dropWhile_append]
      have h1 : (cs.takeWhile Char.isDigit).dropWhile (fun c => decide (c ≠ '.')) = [] := by
        rw [List.dropWhile_eq_nil_iff]; exact hw
      rw [h1]
      simp only [List.isEmpty_nil, if_true, List.dropWhile_cons, ne_eq, not_true_eq_false,
        decide_False, Bool.false_eq_true, if_false, List.drop_succ_cons, List.drop_zero]
      rw [List.takeWhile_eq_self_iff]
      exact hfnd
    rw [hwhole, hfrac]
    exact ⟨hwd, hfd, Or.inr hsplit.symm⟩

theorem bigIntOfDigits_or_zero (cs : List Char) (h : cs.all Char.isDigit = true) :
    bigIntOfDigits (if cs = [] then ['0'] else cs) = some (parseDigits cs) := by
  by_cases hc : cs = []
  · subst hc; rfl
  · rw [if_neg hc]
    simp only [bigIntOfDigits, h, if_true]

/-- What `toWei` computes on a non-empty amount whose trimmed text passes the
test: the integer part scaled by `10^d` plus the fractional digits padded and
cut to `d` digits. -/
theorem toWei_of_matches (a : String) (d : Nat) (ha : a ≠ "")
    (hm : matchesAmount (trim a.data) = true) :
    toWei (some a) (some d) =
      Nat.repr (parseDigits (wholePart (trim a.data)) * 10 ^ d +
        parseDigits ((fracPart (trim a.data) ++ List.replicate d '0').take d)) := by
  obtain ⟨hw, hf, _⟩ := matchesAmount_parts _ hm
  simp only [toWei, Option.getD_some, if_neg ha, hm, Bool.not_true, Bool.false_eq_true, if_false,
    bigIntOfDigits_or_zero _ hw, bigIntOfDigits_or_zero _ (all_isDigit_padded _ hf d)]

/-- The floor of a decimal value scaled by `10^d`, in terms of its digits. -/
theorem floor_scaled (W Fn k d : Nat) :
    ⌊((W : ℚ) + (Fn : ℚ) / 10 ^ k) * 10 ^ d⌋₊ = W * 10 ^ d + Fn * 10 ^ d / 10 ^ k := by
  have h : ((W : ℚ) + (Fn : ℚ) / 10 ^ k) * 10 ^ d
      = ((Fn * 10 ^ d + W * 10 ^ d * 10 ^ k : ℕ) : ℚ) / ((10 ^ k : ℕ) : ℚ) := by
    push_cast
    field_simp
    ring
  rw [h, Nat.floor_div_eq_div, Nat.add_mul_div_right _ _ (by positivity)]
  ring

theorem toWei_eq_floor (a : String) (d : Nat) (hm : matchesAmount (trim a.data) = true) :
    toWei (some a) (some d) = Nat.repr ⌊decimalValue (trim a.data) * 10 ^ d⌋₊ := by
  by_cases ha : a = ""
  · subst ha
    have h0 : decimalValue (trim "".data) = 0 := by
      simp [decimalValue, trim, wholePart, fracPart, parseDigits]
    rw [h0]
    simp only [toWei, if_true, zero_mul, Nat.floor_zero]
    rfl
  · obtain ⟨_, hf, _⟩ := matchesAmount_parts _ hm
    rw [toWei_of_matches a d ha hm, decimalValue, floor_scaled, parseDigits_padded _ hf d]

theorem isPlainDecimal_spec (cs : List Char) (h : isPlainDecimal cs = true) :
    (∀ c ∈ cs, isJsSpace c = false) ∧ matchesAmount cs = true ∧ cs ≠ [] := by
  have hsplit := List.takeWhile_append_dropWhile Char.isDigit cs
  have hwd : ∀ c ∈ cs.takeWhile Char.isDigit, c.isDigit = true :=
    fun c hc => List.mem_takeWhile_imp hc
  unfold isPlainDecimal at h
  unfold matchesAmount
  cases hd : cs.dropWhile Char.isDigit with
  | nil =>
    rw [hd] at h hsplit
    rw [List.append_nil] at hsplit
    refine ⟨?_, rfl, ?_⟩
    · intro c hc
      rw [← hsplit] at hc
      exact isDigit_not_space c (hwd c hc)
    · intro hnil
      rw [hnil] at h
      simp at h
  | cons c frac =>
    rw [hd] at h hsplit
    simp only [Bool.and_eq_true, Bool.not_eq_true', decide_eq_true_eq] at h
    obtain ⟨⟨⟨_, hc⟩, _⟩, hfd⟩ := h
    subst hc
    refine ⟨?_, by simp [hfd], ?_⟩
    · intro c hc
      rw [← hsplit] at hc
      rcases List.mem_append.mp hc with h1 | h1
      · exact isDigit_not_space c (hwd c h1)
      · rcases List.mem_cons.mp h1 with h2 | h2
        · rw [h2]; rfl
        · simp only [List.all_eq_true] at hfd
          exact isDigit_not_space c (hfd c h2)
    · intro hnil
      rw [hnil] at hsplit
      simp at hsplit

/-- C24 as stated fails in its second half: the texts ` 12 ` (with blanks) and
`.5` are not of the form digits, optionally a dot and digits, yet `toWei` does
not return `0` for them. -/
theorem C24_lenient_forms_counterexample :
    isPlainDecimal " 12 ".data = false ∧ toWei (some " 12 ") (some 0) = "12" ∧
    isPlainDecimal ".5".data = false ∧ toWei (some ".5") (some 1) = "5" ∧
    isPlainDecimal "7.".data = false ∧ toWei (some "7.") (some 2) = "700" := by
  decide

/-- C24 (amended): for every string whose text, once trimmed of white space,
has the form digits, optionally followed by a dot and digits (either run of
digits possibly empty and then counting as 0), and every `d >= 0`, `toWei(s, d)`
is the canonical decimal text of `floor(value * 10^d)`, exactly and for
arbitrarily large values; this covers every string of the form one or more
digits, optionally a dot and one or more digits, with its own value. For
`null`, `undefined`, the empty string and every string whose trimmed text is not
of the lenient form it returns `0`. An omitted `decimals` is 18. -/
theorem C24_toWei_floor_of_trimmed_amount (s : String) (d : Nat) :
    (matchesAmount (trim s.data) = true →
      toWei (some s) (some d) = Nat.repr ⌊decimalValue (trim s.data) * 10 ^ d⌋₊) ∧
    (isPlainDecimal s.data = true →
      toWei (some s) (some d) = Nat.repr ⌊decimalValue s.data * 10 ^ d⌋₊) ∧
    (matchesAmount (trim s.data) = false → toWei (some s) (some d) = "0") ∧
    toWei none (some d) = "0" ∧
    toWei (some "") (some d) = "0" ∧
    toWei (some s) none = toWei (some s) (some 18) := by
  refine ⟨toWei_eq_floor s d, ?_, ?_, rfl, rfl, rfl⟩
  · intro hp
    obtain ⟨hsp, hm, _⟩ := isPlainDecimal_spec s.data hp
    have ht := trim_of_no_space s.data hsp
    have h := toWei_eq_floor s d (by rw [ht]; exact hm)
    rw [ht] at h
    exact h
  · intro hm
    by_cases ha : s = ""
    · subst ha; rfl
    · simp only [toWei, Option.getD_some, if_neg ha, hm, Bool.not_false, if_true]

/-! ## `fromWei` and the round trip -/

theorem parts_of_digits (w : List Char) (hw : w.all Char.isDigit = true) :
    wholePart w = w ∧ fracPart w = [] ∧ matchesAmount w = true := by
  simp only [List.all_eq_true] at hw
  have hnd : ∀ c ∈ w, (decide (c ≠ '.')) = true := fun c hc => by
    simpa using isDigit_ne_dot c (hw c hc)
  have h1 : w.dropWhile Char.isDigit = [] := List.dropWhile_eq_nil_iff.mpr hw
  have h2 : w.dropWhile (fun c => decide (c ≠ '.')) = [] := List.dropWhile_eq_nil_iff.mpr hnd
  refine ⟨List.takeWhile_eq_self_iff.mpr hnd, ?_, ?_⟩
  · simp only [fracPart, h2]; rfl
  · simp only [matchesAmount, h1]

theorem parts_of_dotted (w g : List Char) (hw : w.all Char.isDigit = true)
    (hg : g.all Char.isDigit = true) :
    wholePart (w ++ '.' :: g) = w ∧ fracPart (w ++ '.' :: g) = g ∧
    matchesAmount (w ++ '.' :: g) = true := by
  have hm : matchesAmount (w ++ '.' :: g) = true := by
    simp only [List.all_eq_true] at hw
    have h1 : w.dropWhile Char.isDigit = [] := List.dropWhile_eq_nil_iff.mpr hw
    simp only [matchesAmount, List.dropWhile_append, h1, List.isEmpty_nil, if_true]
    have hdot : ('.' : Char).isDigit = false := by decide
    simp only [List.dropWhile_cons, hdot, Bool.false_eq_true, if_false, decide_True,
      Bool.true_and]
    exact hg
  simp only [List.all_eq_true] at hw hg
  have hndw : ∀ c ∈ w, (decide (c ≠ '.')) = true := fun c hc => by
    simpa using isDigit_ne_dot c (hw c hc)
  have hndg : ∀ c ∈ g, (decide (c ≠ '.')) = true := fun c hc => by
    simpa using isDigit_ne_dot c (hg c hc)
  have h1 : w.takeWhile (fun c => decide (c ≠ '.')) = w := List.takeWhile_eq_self_iff.mpr hndw
  have h2 : w.dropWhile (fun c => decide (c ≠ '.')) = [] := List.dropWhile_eq_nil_iff.mpr hndw
  refine ⟨?_, ?_, hm⟩
  · simp only [wholePart, List.takeWhile_append, h1, if_true]
    simp
  · simp only [fracPart, List.dropWhile_append, h2, List.isEmpty_nil, if_true]
    simp only [List.dropWhile_cons, ne_eq, not_true_eq_false, decide_False, Bool.false_eq_true,
      if_false, List.drop_succ_cons, List.drop_zero]
    exact List.takeWhile_eq_self_iff.mpr hndg

theorem mk_ne_empty (cs : List Char) (h : cs ≠ []) : String.mk cs ≠ "" := by
  intro he
  apply h
  have := congrArg String.data he
  simpa using this

/-- Converting a text `w` or `w.g` of digits (with `w` not empty). -/
theorem toWei_of_parts (w g : List Char) (d : Nat) (hw : w.all Char.isDigit = true)
    (hg : g.all Char.isDigit = true) (hne : w ≠ []) :
    toWei (some (String.mk (w ++ if g = [] then [] else '.' :: g))) (some d) =
      Nat.repr (parseDigits w * 10 ^ d + parseDigits ((g ++ List.replicate d '0').take d)) := by
  have hwn : ∀ c ∈ w, isJsSpace c = false := fun c hc =>
    isDigit_not_space c (List.all_eq_true.mp hw c hc)
  have hgn : ∀ c ∈ g, isJsSpace c = false := fun c hc =>
    isDigit_not_space c (List.all_eq_true.mp hg c hc)
  by_cases hgnil : g = []
  · subst hgnil
    simp only [if_true, List.append_nil]
    obtain ⟨h1, h2, h3⟩ := parts_of_digits w hw
    have ht : trim (String.mk w).data = w := trim_of_no_space w hwn
    rw [toWei_of_matches _ d (mk_ne_empty w hne) (by rw [ht]; exact h3), ht, h1, h2]
  · simp only [if_neg hgnil]
    obtain ⟨h1, h2, h3⟩ := parts_of_dotted w g hw hg
    have ht : trim (String.mk (w ++ '.' :: g)).data = w ++ '.' :: g := by
      apply trim_of_no_space
      intro c hc
      rcases List.mem_append.mp hc with h | h
      · exact hwn c h
      · rcases List.mem_cons.mp h with h | h
        · rw [h]; rfl
        · exact hgn c h
    rw [toWei_of_matches _ d (mk_ne_empty _ (by simp)) (by rw [ht]; exact h3), ht, h1, h2]

theorem isDotZeros_zeros (j : Nat) (hj : 0 < j) : isDotZeros (List.replicate j '0') = true := by
  obtain ⟨k, rfl⟩ : ∃ k, j = k + 1 := ⟨j - 1, by omega⟩
  simp [isDotZeros, List.replicate_succ]

theorem isDotZeros_dot_zeros (j : Nat) (hj : 0 < j) :
    isDotZeros ('.' :: List.replicate j '0') = true := by
  obtain ⟨k, rfl⟩ : ∃ k, j = k + 1 := ⟨j - 1, by omega⟩
  simp [isDotZeros, List.replicate_succ]

theorem isDotZeros_false_of_tail (c : Char) (rest : List Char)
    (h : ∃ x ∈ rest, x ≠ '0') : isDotZeros (c :: rest) = false := by
  obtain ⟨x, hx, hx0⟩ := h
  unfold isDotZeros
  by_cases hc : c = '.'
  · subst hc
    simp only [List.head?_cons, if_true, List.drop_succ_cons, List.drop_zero,
      Bool.and_eq_false_imp, Bool.not_eq_true', List.isEmpty_eq_false]
    intro _
    simp only [List.all_eq_false, decide_eq_true_eq]
    exact ⟨x, hx, hx0⟩
  · have hh : ¬ ((c :: rest).head? = some '.') := by simpa using hc
    simp only [hh, if_false, Bool.and_eq_false_imp]
    intro _
    simp only [List.all_eq_false, decide_eq_true_eq]
    exact ⟨x, List.mem_cons_of_mem c hx, hx0⟩

theorem isDotZeros_false_of_head (c : Char) (rest : List Char) (h0 : c ≠ '0')
    (hdot : c ≠ '.') : isDotZeros (c :: rest) = false := by
  unfold isDotZeros
  have hh : ¬ ((c :: rest).head? = some '.') := by simpa using hdot
  simp only [hh, if_false, List.isEmpty_cons, Bool.not_false, Bool.true_and, List.all_cons,
    Bool.and_eq_false_imp, decide_eq_true_eq]
  intro hc
  exact absurd hc h0

theorem stripZeros_append (x y : List Char) (h : ∃ c ∈ y, c ≠ '0') :
    stripZeros (x ++ y) = x ++ stripZeros y := by
  induction x with
  | nil => rfl
  | cons c rest ih =>
    obtain ⟨z, hz, hz0⟩ := h
    have hf : isDotZeros (c :: (rest ++ y)) = false :=
      isDotZeros_false_of_tail c (rest ++ y) ⟨z, List.mem_append_right rest hz, hz0⟩
    have hstep : stripZeros (c :: (rest ++ y)) = c :: stripZeros (rest ++ y) := by
      rw [stripZeros, hf]
      rfl
    rw [List.cons_append, hstep, ih, List.cons_append]

theorem stripZeros_zeros (j : Nat) : stripZeros (List.replicate j '0') = [] := by
  cases j with
  | zero => rfl
  | succ k =>
    have h := isDotZeros_zeros (k + 1) (by omega)
    rw [List.replicate_succ] at h ⊢
    simp only [stripZeros, h, if_true]

/-- A text of digits is some digits ending in a non-zero one (or none),
followed by zeros. -/
theorem trailing_zeros_split (fs : List Char) :
    ∃ g j, fs = g ++ List.replicate j '0' ∧
      (g = [] ∨ ∃ g2 c, g = g2 ++ [c] ∧ c ≠ '0') := by
  induction fs using List.reverseRecOn with
  | nil => exact ⟨[], 0, rfl, Or.inl rfl⟩
  | append_singleton l c ih =>
    by_cases hc : c = '0'
    · obtain ⟨g, j, hl, hg⟩ := ih
      refine ⟨g, j + 1, ?_, hg⟩
      rw [hl, hc, List.append_assoc]
      congr 1
      rw [← List.replicate_succ']
    · exact ⟨l ++ [c], 0, by simp, Or.inr ⟨l, c, rfl, hc⟩⟩

theorem stripZeros_dotted (w g : List Char) (j : Nat)
    (hg : g.all Char.isDigit = true) (hlen : 0 < (g ++ List.replicate j '0').length)
    (hsplit : g = [] ∨ ∃ g2 c, g = g2 ++ [c] ∧ c ≠ '0') :
    stripZeros (w ++ '.' :: (g ++ List.replicate j '0')) =
      w ++ if g = [] then [] else '.' :: g := by
  rw [stripZeros_append w _ ⟨'.', by simp, by decide⟩]
  congr 1
  rcases hsplit with hnil | ⟨g2, c, hgc, hc0⟩
  · subst hnil
    simp only [List.nil_append, List.length_replicate] at hlen
    have h := isDotZeros_dot_zeros j hlen
    simp only [List.nil_append, if_true]
    rw [stripZeros, h]
    rfl
  · have hgne : g ≠ [] := by rw [hgc]; simp
    have hcd : c ≠ '.' := by
      apply isDigit_ne_dot
      simp only [List.all_eq_true] at hg
      exact hg c (by rw [hgc]; simp)
    rw [if_neg hgne, hgc]
    have hre : '.' :: (g2 ++ [c] ++ List.replicate j '0')
        = ('.' :: g2) ++ (c :: List.replicate j '0') := by simp
    rw [hre, stripZeros_append _ _ ⟨c, by simp, hc0⟩]
    have hstep : stripZeros (c :: List.replicate j '0') = [c] := by
      rw [stripZeros, isDotZeros_false_of_head c _ hc0 hcd, stripZeros_zeros]
      rfl
    rw [hstep]
    simp

theorem repr_ne_empty (n : Nat) : Nat.repr n ≠ "" := by
  intro h
  have := congrArg String.data h
  rw [repr_data] at this
  exact (toDigits_spec n).2.2 this

theorem bigIntOfDigits_repr (n : Nat) : bigIntOfDigits (Nat.repr n).data = some n := by
  obtain ⟨h1, h2, _⟩ := toDigits_spec n
  simp only [bigIntOfDigits, repr_data, h2, if_true, h1]

/-- The fractional digits `fromWei` prints at full precision: `d` digits whose
value is the remainder. -/
theorem padded_fraction (r d : Nat) (hd : 0 < d) (hr : r < 10 ^ d) :
    (padStart (Nat.toDigits 10 r) d '0').length = d ∧
    (padStart (Nat.toDigits 10 r) d '0').all Char.isDigit = true ∧
    parseDigits (padStart (Nat.toDigits 10 r) d '0') = r := by
  obtain ⟨h1, h2, _⟩ := toDigits_spec r
  have hlen : (Nat.toDigits 10 r).length ≤ d := by
    have := Nat.repr_length r d hd hr
    simpa [String.length, repr_data] using this
  refine ⟨?_, ?_, ?_⟩
  · simp only [padStart, List.length_append, List.length_replicate]
    omega
  · simp only [padStart, List.all_append, all_isDigit_zeros, h2, Bool.and_self]
  · simp only [padStart]
    rw [parseDigits_append, parseDigits_zeros, h1]
    simp

/-- C29: for every non-negative integer `n` given by its canonical decimal text
and every `d >= 0`, `toWei(fromWei(n, d, d), d)` is that text again. -/
theorem C29_toWei_fromWei_roundtrip (n d : Nat) :
    toWei (some (fromWei (some (Nat.repr n)) (some d) (some d))) (some d) = Nat.repr n := by
  obtain ⟨hw1, hw2, hw3⟩ := toDigits_spec (n / 10 ^ d)
  by_cases hd : d = 0
  · subst hd
    have hfrom : fromWei (some (Nat.repr n)) (some 0) (some 0) = String.mk (Nat.toDigits 10 n) := by
      simp only [fromWei, Option.getD_some, if_neg (repr_ne_empty n), bigIntOfDigits_repr,
        if_true, pow_zero, Nat.div_one]
      rfl
    obtain ⟨h1, h2, h3⟩ := toDigits_spec n
    have h := toWei_of_parts (Nat.toDigits 10 n) [] 0 h2 rfl h3
    simp only [if_true, List.append_nil] at h
    rw [hfrom, h, h1]
    simp [parseDigits]
  · have hpos : 0 < d := Nat.pos_of_ne_zero hd
    have hr : n % 10 ^ d < 10 ^ d := Nat.mod_lt _ (by positivity)
    obtain ⟨hf1, hf2, hf3⟩ := padded_fraction (n % 10 ^ d) d hpos hr
    have hfrom : fromWei (some (Nat.repr n)) (some d) (some d) =
        String.mk (stripZeros (Nat.toDigits 10 (n / 10 ^ d) ++
          '.' :: padStart (Nat.toDigits 10 (n % 10 ^ d)) d '0')) := by
      simp only [fromWei, Option.getD_some, if_neg (repr_ne_empty n), bigIntOfDigits_repr,
        if_neg hd]
      rw [List.take_of_length_le (le_of_eq hf1)]
    obtain ⟨g, j, hsplit, hg⟩ := trailing_zeros_split (padStart (Nat.toDigits 10 (n % 10 ^ d)) d '0')
    have hgd : g.all Char.isDigit = true := by
      rw [hsplit] at hf2
      simp only [List.all_append, Bool.and_eq_true] at hf2
      exact hf2.1
    have hlen : g.length + j = d := by
      rw [hsplit] at hf1
      simpa using hf1
    have htake : (g ++ List.replicate d '0').take d = g ++ List.replicate j '0' := by
      have hdj : d = g.length + j := hlen.symm
      conv_lhs => rw [hdj, List.take_append]
      simp only [List.take_replicate]
      congr 2
      omega
    rw [hfrom, hsplit,
      stripZeros_dotted _ g j hgd (by rw [← hsplit, hf1]; exact hpos) hg,
      toWei_of_parts _ g d hw2 hgd hw3, htake, ← hsplit, hf3, hw1]
    congr 1
    exact Nat.div_add_mod' n (10 ^ d)

end Decimals
